import Mathlib

/-!
# picamera2-WebUI: the client-side recording pipeline

A shallow embedding of the recording code of the two browser clients,

* `src/frontend/src/App.js` (React viewer: recording worker, batch upload to the
  hardware encoder, start/stop handlers), namespace `App`;
* `src/static/js/video-recording.js` (control page: frame capture on the main
  thread and local bundling), namespace `VideoRecording`;

followed by the theorems that settle the specification's claims about them.

Conventions of the embedding.

* Module-level variables, React state and refs become fields of a state record;
  every function of the source becomes a function on that record.
* What a function does to the outside world (alerts, messages posted to the
  worker, HTTP requests, downloads) is appended to a log carried by the state.
* What the outside world answers (clock readings, settlement of a `fetch`,
  whether a browser call throws) is an explicit argument.
* A JavaScript exception is a returned value, so a `try`/`catch` is a `match`.
* Loops whose trip count is not structural carry a fuel argument and return
  `none` when it runs out; totality is proved separately.
* `console.log` / `console.error` calls are not recorded.
* Readings of `performance.now()` and timestamps of animation frames are whole
  microseconds, values of `Date` whole milliseconds. Where the source divides,
  adds or subtracts numbers and rounds the result with `Math.round`, the
  operations are those of IEEE 754 doubles (`App.Double`), a reading of `k`
  microseconds entering them as the double nearest to `k / 1000` milliseconds.
-/

namespace App

/-! ## Remote hardware encoding: `createPiHardwareEncodedVideo` (App.js 223-343) -/

/-- A frame as the worker stores it: a JPEG data URL, identified by its payload. -/
abbrev DataUrl := Nat

/-- The value of a JavaScript number that the code computes for a frame rate with
`Math.round`: an integer, an infinity or `NaN`. -/
inductive JsNumber where
  | finite (v : Int)
  | infinity
  | negInfinity
  | nan
  deriving DecidableEq, Repr

/-- A JavaScript number in the middle of a computation, an IEEE 754 double: the finite
value `(-1)^neg * m * 2^e`, an infinity or `NaN`. -/
inductive Double where
  | finite (neg : Bool) (m : Nat) (e : Int)
  | inf (neg : Bool)
  | nan
  deriving DecidableEq, Repr

/-- The integer nearest to `p / q`, the even one of the two at a tie. -/
def roundHalfEven (p q : Nat) : Nat :=
  if 2 * (p % q) < q then p / q
  else if q < 2 * (p % q) then p / q + 1
  else if (p / q) % 2 = 0 then p / q
  else p / q + 1

/-- The number of halvings that take `n` below 2, counted with `fuel` steps at most. -/
def ilog2Aux : Nat → Nat → Nat
  | 0, _ => 0
  | fuel + 1, n => if n < 2 then 0 else ilog2Aux fuel (n / 2) + 1

/-- The integer part of the binary logarithm of a positive `n`. -/
def ilog2 (n : Nat) : Nat := ilog2Aux n n

/-- The integer part of the binary logarithm of `p / q`, for positive `p` and `q`. -/
def floorLog2 (p q : Nat) : Int :=
  let k : Int := (ilog2 p : Int) - (ilog2 q : Int)
  if q * 2 ^ k.toNat ≤ p * 2 ^ (-k).toNat then k else k - 1

/-- The double that an arithmetic operation returns when its exact result is `p / q` in
magnitude (`q` positive): the nearest value with a mantissa of 53 bits, ties to the even
mantissa, with the exponent held at -1074 for the subnormal values and an infinity from
2^1024 on. -/
def Double.round (neg : Bool) (p q : Nat) : Double :=
  if p = 0 then .finite neg 0 0
  else
    let e : Int := max (floorLog2 p q - 52) (-1074)
    let m := roundHalfEven (p * 2 ^ (-e).toNat) (q * 2 ^ e.toNat)
    if 971 < e ∨ (e = 971 ∧ 2 ^ 53 ≤ m) then .inf neg else .finite neg m e

/-- The double of an integer. -/
def Double.ofInt (z : Int) : Double :=
  Double.round (decide (z < 0)) z.natAbs 1

/-- The double, in milliseconds, of a clock reading of `k` microseconds: readings of
`performance.now()` and the timestamps of animation frames are doubles in milliseconds. -/
def Double.ofMicros (k : Int) : Double :=
  Double.round (decide (k < 0)) k.natAbs 1000

/-- The operator unary `-`. -/
def Double.neg : Double → Double
  | .finite neg m e => .finite (!neg) m e
  | .inf neg => .inf (!neg)
  | .nan => .nan

/-- The operator `+` of JavaScript numbers. -/
def Double.add : Double → Double → Double
  | .nan, _ => .nan
  | _, .nan => .nan
  | .inf a, .inf b => if a = b then .inf a else .nan
  | .inf a, .finite _ _ _ => .inf a
  | .finite _ _ _, .inf b => .inf b
  | .finite na ma ea, .finite nb mb eb =>
    let e := min ea eb
    let pa : Nat := ma * 2 ^ (ea - e).toNat
    let pb : Nat := mb * 2 ^ (eb - e).toNat
    let a : Int := if na then -(pa : Int) else pa
    let b : Int := if nb then -(pb : Int) else pb
    if a + b = 0 then .finite (na && nb) 0 0
    else Double.round (decide (a + b < 0)) ((a + b).natAbs * 2 ^ e.toNat) (2 ^ (-e).toNat)

/-- The operator binary `-` of JavaScript numbers. -/
def Double.sub (a b : Double) : Double := a.add b.neg

/-- The operator `/` of JavaScript numbers. -/
def Double.div : Double → Double → Double
  | .nan, _ => .nan
  | _, .nan => .nan
  | .inf _, .inf _ => .nan
  | .inf a, .finite b _ _ => .inf (a != b)
  | .finite a _ _, .inf b => .finite (a != b) 0 0
  | .finite na ma ea, .finite nb mb eb =>
    if mb = 0 then
      if ma = 0 then .nan else .inf (na != nb)
    else Double.round (na != nb) (ma * 2 ^ (ea - eb).toNat) (mb * 2 ^ (eb - ea).toNat)

/-- The function `Math.round`: the integer nearest to a finite `x`, the greater one of the
two at a tie, which is `floor (x + 1/2)`. -/
def mathRound : Double → JsNumber
  | .nan => .nan
  | .inf false => .infinity
  | .inf true => .negInfinity
  | .finite neg m e =>
    let num : Nat := m * 2 ^ e.toNat
    let den : Nat := 2 ^ (-e).toNat
    .finite (Int.fdiv (2 * (if neg then -(num : Int) else num) + den) (2 * den))

/-- The rational number that a finite double denotes (0 for the infinities and `NaN`). -/
def Double.toRat : Double → ℚ
  | .finite neg m e => (if neg then -1 else 1) * (m : ℚ) * (2 : ℚ) ^ e
  | _ => 0

/-- A double that an inter-frame interval can be: finite, not negative, and zero or between
2^-1000 and 2^1000 in value. -/
def Double.IsInterval (w : Double) : Prop :=
  ∃ m e, w = .finite false m e ∧
    (m = 0 ∨ ((2 : ℚ) ^ (-1000 : Int) ≤ (m : ℚ) * 2 ^ e ∧ (m : ℚ) * 2 ^ e ≤ (2 : ℚ) ^ (1000 : Int)))

/-- A body of an HTTP response, as far as the code looks at it: `ok`, `text()` and the
`success` / `error` fields of `json()` (`none`: the body is not JSON, `json()` rejects). -/
structure Response where
  ok : Bool
  text : String
  json : Option (Bool × String)
  deriving DecidableEq, Repr

/-- How an awaited `fetch` settles: rejected with an error message, or resolved. -/
inductive FetchResult where
  | rejected (message : String)
  | resolved (r : Response)
  deriving DecidableEq, Repr

/-- One `formData.append('frames', blob, name)`: the blob decoded from a data URL. -/
structure Part where
  name : String
  data : DataUrl
  deriving DecidableEq, Repr

/-- A message posted by the page to the recording worker. -/
inductive ToWorker where
  | start
  | frame (data : DataUrl)
  | stop
  deriving DecidableEq, Repr

/-- The externally visible actions of the page, in the order they are issued. -/
inductive Effect where
  | alert (message : String)
  | postMessage (m : ToWorker)
  | uploadFrames (fps : JsNumber) (timestamp : String) (batchNumber totalBatches : Nat)
      (parts : List Part)
  | encodeVideo (timestamp : String) (fps : JsNumber) (frameCount : Nat) (filename : String)
  | download (href filename : String)
  | cleanupTemp (timestamp : String)
  deriving DecidableEq, Repr

/-- The React state and refs of `App` that the recording code reads or writes, the set of
scheduled `setInterval` timers, and the log of effects. -/
structure AppState where
  isRecording : Bool
  recordingTime : Nat
  recordingFps : JsNumber
  isLoading : Bool
  recordingTimerRef : Option Nat
  frameCountRef : Nat
  recordingStartTime : Int
  lastRecordingUpdateRef : Int
  workerRef : Bool
  intervals : List Nat
  nextTimerId : Nat
  log : List Effect
  deriving DecidableEq, Repr

/-- The component right after it is mounted (App.js 81-98, 195): the initial values of the
state hooks and refs, with the worker created. -/
def mounted : AppState :=
  { isRecording := false, recordingTime := 0, recordingFps := .finite 0, isLoading := false,
    recordingTimerRef := none, frameCountRef := 0, recordingStartTime := 0,
    lastRecordingUpdateRef := 0, workerRef := true, intervals := [], nextTimerId := 0,
    log := [] }

/-- What the world answers during one run of `createPiHardwareEncodedVideo`: `Date.now()`,
the file-name timestamp `new Date().toISOString().replace(/[:.]/g, '-')`, how the upload of
batch number `k` settles, and how the encode request settles. -/
structure EncodeEnv where
  now : Int
  timestamp : String
  upload : Nat → FetchResult
  encode : FetchResult

/-- The constant `batchSize` (App.js 241). -/
def batchSize : Nat := 50

/-- The expression `Math.round(frameCount / duration)` with
`duration = (Date.now() - recordingStartTime.current) / 1000` (App.js 229-230): two
divisions of doubles, then `Math.round`; `elapsedMs` is the difference of the two
timestamps in milliseconds. -/
def computeFps (frameCount : Nat) (elapsedMs : Int) : JsNumber :=
  mathRound ((Double.ofInt frameCount).div ((Double.ofInt elapsedMs).div (Double.ofInt 1000)))

/-- The method call `s.padStart(6, '0')`. -/
def padStart6 (s : String) : String :=
  "".pushn '0' (6 - s.length) ++ s

/-- The part name of frame `i` (App.js 272). -/
def frameName (i : Nat) : String :=
  "frame_" ++ padStart6 (toString i) ++ ".jpg"

/-- The body of the inner loop for frame index `i` (App.js 259-272): the part appended to
the form. Reading `frames[i]` past the end of the array gives `undefined`, on which
`dataUrl.split` throws: the result is then `none`. -/
def framePart (frames : List DataUrl) (i : Nat) : Option Part :=
  match frames[i]? with
  | none => none
  | some dataUrl => some ⟨frameName i, dataUrl⟩

/-- The inner loop `for (let i = batchStart; i < batchEnd; i++)` (App.js 257-273), with
`remaining = batchEnd - i`; `none` when a frame is undefined. -/
def batchParts (frames : List DataUrl) (i : Nat) : (remaining : Nat) → Option (List Part)
  | 0 => some []
  | r + 1 =>
    match framePart frames i with
    | none => none
    | some part =>
      match batchParts frames (i + 1) r with
      | none => none
      | some parts => some (part :: parts)

/-- The state of a `try` block when it is left: the log so far, and the message of the
exception that left it, if any. -/
structure TryResult where
  log : List Effect
  thrown : Option String
  deriving DecidableEq, Repr

/-- The message of the `TypeError` thrown by `dataUrl.split` on an undefined `dataUrl`. -/
def undefinedFrameMessage : String := "Cannot read properties of undefined (reading split)"

/-- The upload loop `for (let batchStart = 0; batchStart < frameCount; batchStart += batchSize)`
(App.js 245-283). The response of an upload is awaited and dropped; only a rejected `fetch`
throws. Returns `none` when the fuel runs out. -/
def uploadLoop (env : EncodeEnv) (frames : List DataUrl) (frameCount : Nat) (fps : JsNumber)
    (totalBatches : Nat) :
    (fuel : Nat) → (batchStart currentBatch : Nat) → List Effect → Option TryResult
  | 0, _, _, _ => none
  | fuel + 1, batchStart, currentBatch, log =>
    if batchStart < frameCount then
      let currentBatch := currentBatch + 1
      let batchEnd := min (batchStart + batchSize) frameCount
      match batchParts frames batchStart (batchEnd - batchStart) with
      | none => some ⟨log, some undefinedFrameMessage⟩
      | some parts =>
        let log := log ++ [Effect.uploadFrames fps env.timestamp currentBatch totalBatches parts]
        match env.upload currentBatch with
        | .rejected message => some ⟨log, some message⟩
        | .resolved _ =>
          uploadLoop env frames frameCount fps totalBatches fuel (batchStart + batchSize)
            currentBatch log
    else some ⟨log, none⟩

/-- The handler `catch (error)` of `createPiHardwareEncodedVideo` (App.js 338-342). -/
def catchEncodeError (s : AppState) (log : List Effect) (message : String) : AppState :=
  { s with log := log ++ [Effect.alert ("Error: " ++ message)], isLoading := false }

/-- The message of the `SyntaxError` with which `encodingResponse.json()` rejects. -/
def jsonParseMessage : String := "Unexpected token in JSON"

/-- The function `createPiHardwareEncodedVideo(frames, frameCount)` (App.js 223-343), run to
completion without other handlers interleaved. Returns `none` only if the upload loop runs
out of fuel (it never does: `createPiHardwareEncodedVideo_total`). -/
def createPiHardwareEncodedVideo (env : EncodeEnv) (frames : List DataUrl) (frameCount : Nat)
    (s : AppState) : Option AppState :=
  let s := { s with isLoading := true }
  let fps := computeFps frameCount (env.now - s.recordingStartTime)
  let timestamp := env.timestamp
  let videoFilename := "video_cam_0_" ++ timestamp ++ "_HW.mp4"
  let totalBatches := (frameCount + batchSize - 1) / batchSize
  match uploadLoop env frames frameCount fps totalBatches (frameCount + 1) 0 0 s.log with
  | none => none
  | some ⟨log, some message⟩ => some (catchEncodeError s log message)
  | some ⟨log, none⟩ =>
    let log := log ++ [Effect.encodeVideo timestamp fps frameCount videoFilename]
    match env.encode with
    | .rejected message => some (catchEncodeError s log message)
    | .resolved encodingResponse =>
      if !encodingResponse.ok then
        some (catchEncodeError s log ("Server encoding failed: " ++ encodingResponse.text))
      else
        match encodingResponse.json with
        | none => some (catchEncodeError s log jsonParseMessage)
        | some (success, error) =>
          if !success then
            some (catchEncodeError s log ("Encoding error: " ++ error))
          else
            let log := log ++ [Effect.download ("/api/download_video/" ++ videoFilename)
              videoFilename]
            let s := { s with isLoading := false }
            some { s with log := log ++ [Effect.cleanupTemp timestamp] }

/-- The upload requests in a log, in order, as (batchNumber, totalBatches, parts). -/
def uploadsOf : List Effect → List (Nat × Nat × List Part)
  | [] => []
  | .uploadFrames _ _ batchNumber totalBatches parts :: rest =>
    (batchNumber, totalBatches, parts) :: uploadsOf rest
  | _ :: rest => uploadsOf rest

/-- The encode requests in a log, in order, as (frameCount, filename). -/
def encodesOf : List Effect → List (Nat × String)
  | [] => []
  | .encodeVideo _ _ frameCount filename :: rest => (frameCount, filename) :: encodesOf rest
  | _ :: rest => encodesOf rest

/-- The downloads triggered in a log, in order, by file name. -/
def downloadsOf : List Effect → List String
  | [] => []
  | .download _ filename :: rest => filename :: downloadsOf rest
  | _ :: rest => downloadsOf rest

/-- The alerts shown in a log, in order. -/
def alertsOf : List Effect → List String
  | [] => []
  | .alert message :: rest => message :: alertsOf rest
  | _ :: rest => alertsOf rest

/-- The batches as the specification words them, for a frame count `n`: for k = 1, ..,
ceil(n/50), the batch number k, the total ceil(n/50), and the frame indices
50(k-1), .., min(50k, n) - 1 in increasing order. -/
def specBatches (n : Nat) : List (Nat × Nat × List Nat) :=
  (List.range ((n + 49) / 50)).map fun j =>
    (j + 1, (n + 49) / 50, List.range' (50 * j) (min (50 * (j + 1)) n - 50 * j))

/-! ## Start and stop handlers of the viewer (App.js 480-562) -/

/-- The function `startTimer` (App.js 480-486): `setInterval` hands out a fresh, positive
timer id and schedules it. -/
def startTimer (s : AppState) : AppState :=
  { s with
    recordingTime := 0
    recordingTimerRef := some (s.nextTimerId + 1)
    intervals := s.intervals ++ [s.nextTimerId + 1]
    nextTimerId := s.nextTimerId + 1 }

/-- The function `stopTimer` (App.js 488-493); the test `if (recordingTimerRef.current)` is
false for `null` and for `0`. -/
def stopTimer (s : AppState) : AppState :=
  match s.recordingTimerRef with
  | none => s
  | some id =>
    if id ≠ 0 then
      { s with intervals := s.intervals.filter (fun t => t ≠ id), recordingTimerRef := none }
    else s

/-- The function `handleStartRecording` (App.js 502-531); `now` is `Date.now()`. -/
def handleStartRecording (now : Int) (s : AppState) : AppState :=
  if s.isRecording then s
  else
    let s := { s with isLoading := true }
    let s := { s with
      frameCountRef := 0
      recordingStartTime := now
      lastRecordingUpdateRef := now
      recordingFps := .finite 0 }
    let s :=
      if s.workerRef then
        let s := { s with log := s.log ++ [Effect.postMessage .start] }
        let s := { s with isRecording := true }
        startTimer s
      else
        { s with log := s.log ++
            [Effect.alert ("Failed to start recording: " ++ "Recording worker not available")] }
    { s with isLoading := false }

/-- The function `handleStopRecording` (App.js 534-562). -/
def handleStopRecording (s : AppState) : AppState :=
  if !s.isRecording then s
  else
    let s := { s with isLoading := true }
    let s := { s with isRecording := false }
    let s := stopTimer s
    if s.workerRef then
      { s with log := s.log ++ [Effect.postMessage .stop] }
    else
      let s := { s with log := s.log ++
        [Effect.alert ("Failed to save recording: " ++ "Recording worker not available")] }
      let s := { s with recordingFps := .finite 0 }
      { s with isLoading := false }

/-! ## The recording worker (App.js 103-189) -/

namespace Worker

/-- A message posted by the worker to the page. -/
inductive FromWorker where
  | started
  | progress (count : Nat) (fps : JsNumber)
  | complete (frames : List DataUrl) (count : Nat)
  deriving DecidableEq, Repr

/-- An invocation of `processFrameQueue` parked at `await new Promise(resolve =>
setTimeout(resolve, 0))`: the frames of its batch that the `for` loop has not visited yet,
and whether the `.then` callback of the stop handler hangs on its promise. -/
structure Continuation where
  rest : List DataUrl
  notify : Bool
  deriving DecidableEq, Repr

/-- The variables of the worker script, the parked invocations of `processFrameQueue` in the
order their timers were set, and the messages posted so far. -/
structure WorkerState where
  frames : List DataUrl
  isRecording : Bool
  frameCount : Nat
  lastUpdateTime : Int
  processingQueue : List DataUrl
  isProcessing : Bool
  suspended : List Continuation
  posted : List FromWorker
  deriving DecidableEq, Repr

/-- The worker script just loaded (App.js 105-110). -/
def init : WorkerState :=
  { frames := [], isRecording := false, frameCount := 0, lastUpdateTime := 0,
    processingQueue := [], isProcessing := false, suspended := [], posted := [] }

/-- The callback given to `.then` by the stop handler (App.js 178-185), run when the promise
of the invocation it hangs on is fulfilled. -/
def postComplete (w : WorkerState) : WorkerState :=
  { w with posted := w.posted ++ [FromWorker.complete w.frames w.frameCount], frames := [] }

/-- The return of an invocation of `processFrameQueue`: its promise is fulfilled and the
callback hanging on it, if any, runs as the next microtask. -/
def settle (notify : Bool) (w : WorkerState) : WorkerState :=
  if notify then postComplete w else w

/-- Where an invocation of `processFrameQueue` is entered: at its first line, or back in
the `for` loop with the frames of the batch still to visit. -/
inductive Entry where
  | call
  | resume (rest : List DataUrl)
  deriving DecidableEq, Repr

/-- The function `processFrameQueue` (App.js 113-150), run from `entry` until it parks at
the `await` or returns. `now` is the reading of `performance.now()` in microseconds, taken
as constant during one task. The call on line 148 is not awaited, so nothing hangs on its
promise. Returns `none` when the fuel runs out (it never does with the fuel of `fuelFor`:
`processFrameQueue_isSome`). -/
def processFrameQueue (now : Int) :
    (fuel : Nat) → Entry → (notify : Bool) → WorkerState → Option WorkerState
  | 0, _, _, _ => none
  | fuel + 1, .call, notify, w =>
    if w.isProcessing || w.processingQueue.length == 0 then some (settle notify w)
    else
      let w := { w with isProcessing := true }
      let batch := w.processingQueue.take 5
      let w := { w with processingQueue := w.processingQueue.drop 5 }
      processFrameQueue now fuel (.resume batch) notify w
  | fuel + 1, .resume [], notify, w =>
    let w := { w with isProcessing := false }
    if w.processingQueue.length > 0 then
      match processFrameQueue now fuel .call false w with
      | none => none
      | some w => some (settle notify w)
    else some (settle notify w)
  | fuel + 1, .resume (frame :: rest), notify, w =>
    let w : WorkerState := { w with frames := w.frames ++ [frame] }
    let w : WorkerState := { w with frameCount := w.frameCount + 1 }
    let w : WorkerState :=
      if w.frameCount % 30 = 0 then
        let elapsedSecs :=
          ((Double.ofMicros now).sub (Double.ofMicros w.lastUpdateTime)).div (Double.ofInt 1000)
        let currentFps := mathRound ((Double.ofInt 30).div elapsedSecs)
        { w with lastUpdateTime := now
                 posted := w.posted ++ [FromWorker.progress w.frameCount currentFps] }
      else w
    if w.frameCount % 10 = 0 then
      some { w with suspended := w.suspended ++ [⟨rest, notify⟩] }
    else processFrameQueue now fuel (.resume rest) notify w

/-- Fuel that lets `processFrameQueue` run from `entry` in state `w` to its end. -/
def fuelFor (entry : Entry) (w : WorkerState) : Nat :=
  match entry with
  | .call => 3 * w.processingQueue.length + 1
  | .resume rest => rest.length + 3 * w.processingQueue.length + 2

/-- The handler `self.onmessage` (App.js 153-188). -/
def onmessage (now : Int) (w : WorkerState) : ToWorker → Option WorkerState
  | .start =>
    some { w with
      frames := []
      isRecording := true
      frameCount := 0
      lastUpdateTime := now
      processingQueue := []
      isProcessing := false
      posted := w.posted ++ [FromWorker.started] }
  | .frame data =>
    if w.isRecording then
      let w := { w with processingQueue := w.processingQueue ++ [data] }
      if !w.isProcessing then processFrameQueue now (fuelFor .call w) .call false w
      else some w
    else some w
  | .stop =>
    let w := { w with isRecording := false }
    processFrameQueue now (fuelFor .call w) .call true w

/-- The firing of the oldest pending `setTimeout(resolve, 0)`: the invocation parked on it
goes on. Without a pending timer nothing happens. -/
def onTimer (now : Int) (w : WorkerState) : Option WorkerState :=
  match w.suspended with
  | [] => some w
  | c :: cs =>
    let w := { w with suspended := cs }
    processFrameQueue now (fuelFor (.resume c.rest) w) (.resume c.rest) c.notify w

/-- A task of the worker's event loop: a message from the page is delivered, or a timer
fires. -/
inductive Event where
  | message (m : ToWorker)
  | timer
  deriving DecidableEq, Repr

/-- One task of the event loop, run at clock reading `now`. -/
def step (w : WorkerState) (now : Int) : Event → Option WorkerState
  | .message m => onmessage now w m
  | .timer => onTimer now w

/-- The tasks of a schedule run one after the other, each with its clock reading. -/
def run (w : WorkerState) : List (Int × Event) → Option WorkerState
  | [] => some w
  | (now, e) :: rest =>
    match step w now e with
    | none => none
    | some w => run w rest

/-- The `complete` messages among the posted ones, in order, as (frames, count). -/
def completions : List FromWorker → List (List DataUrl × Nat)
  | [] => []
  | .complete frames count :: rest => (frames, count) :: completions rest
  | _ :: rest => completions rest

/-- The frames that a schedule delivers to the worker, in order of delivery. -/
def deliveredFrames : List (Int × Event) → List DataUrl
  | [] => []
  | (_, .message (.frame data)) :: rest => data :: deliveredFrames rest
  | _ :: rest => deliveredFrames rest

/-- The frames that an invocation entered at `entry` still has before it: the rest of its
batch, if it has one, and then the queue. -/
def Entry.pending (entry : Entry) (w : WorkerState) : List DataUrl :=
  match entry with
  | .call => w.processingQueue
  | .resume rest => rest ++ w.processingQueue

/-- The invariant of a session between its start and its stop, at the boundaries of tasks:
`accepted` are the frames delivered so far and `base` the completions posted before the
session. Either nothing is in flight and `frames` holds all accepted frames, or exactly one
invocation is parked at the yield and the accepted frames are `frames`, then the rest of
its batch, then the queue. -/
def SessionInv (base : List (List DataUrl × Nat)) (accepted : List DataUrl)
    (w : WorkerState) : Prop :=
  w.isRecording = true ∧ w.frameCount = w.frames.length ∧ completions w.posted = base ∧
    ((w.isProcessing = false ∧ w.suspended = [] ∧ w.processingQueue = [] ∧
        w.frames = accepted) ∨
      (w.isProcessing = true ∧ ∃ rest, w.suspended = [⟨rest, false⟩] ∧
        w.frames ++ rest ++ w.processingQueue = accepted))

/-- Whether the start and stop messages of a schedule alternate, the first of them being a
start if `expectStart` and a stop otherwise; frames and timers may come anywhere. -/
def alternates (expectStart : Bool) : List (Int × Event) → Bool
  | [] => true
  | (_, .message .start) :: rest => expectStart && alternates false rest
  | (_, .message .stop) :: rest => !expectStart && alternates true rest
  | _ :: rest => alternates expectStart rest

/-- The invariant of the worker at the boundaries of tasks, under every interleaving:
nothing hangs on a parked invocation, the queue is empty unless `isProcessing` is set,
`frameCount` is the length of `frames` while a session is open (`sessionOpen`: the last of
the start and stop messages was a start), and every `complete` message posted so far
carries the length of its frames as count. -/
def TaskInv (sessionOpen : Bool) (w : WorkerState) : Prop :=
  (∀ c ∈ w.suspended, c.notify = false) ∧
    (w.isProcessing = false → w.processingQueue = []) ∧
    (sessionOpen = true → w.frameCount = w.frames.length) ∧
    (∀ p ∈ completions w.posted, p.2 = p.1.length)

/-- Whether a session is open after a task: a start opens one, a stop closes it. -/
def sessionOpenAfter (sessionOpen : Bool) : Event → Bool
  | .message .start => true
  | .message .stop => false
  | _ => sessionOpen

end Worker

/-- The handler `worker.onmessage` of the page (App.js 198-210). -/
def workerOnmessage (env : EncodeEnv) (s : AppState) : Worker.FromWorker → Option AppState
  | .started => some s
  | .progress _ fps => some { s with recordingFps := fps }
  | .complete frames count =>
    createPiHardwareEncodedVideo env frames count { s with recordingFps := .finite 0 }

/-! ## Values read off the effect log and the part names -/

/-- The `fps` fields sent to the server in a log, in order: those of the upload requests
and of the encode requests. -/
def fpsOf : List Effect → List JsNumber
  | [] => []
  | .uploadFrames fps _ _ _ _ :: rest => fps :: fpsOf rest
  | .encodeVideo _ fps _ _ :: rest => fps :: fpsOf rest
  | _ :: rest => fpsOf rest

/-- The number that a list of decimal digit characters denotes, most significant digit
first. -/
def decimalValue (cs : List Char) : Nat :=
  cs.foldl (fun acc c => 10 * acc + (c.toNat - 48)) 0

/-! ## The display loop of the viewer (App.js 346-456) -/

/-- The object `fpsData` of the display-loop effect (App.js 361-365); `lastUpdate` is a
reading of `performance.now()` in microseconds and the entries of `frames` are the doubles,
in milliseconds, that the subtraction of two animation-frame timestamps returns. -/
structure FpsData where
  frameCount : Nat
  lastUpdate : Int
  frames : List Double
  deriving DecidableEq, Repr

/-- What the display-loop effect owns or writes besides `AppState`: the refs
`recordingStateRef` and `animationFrameRef`, the value of the dependency `isRecording` for
which the effect last ran, the animation-frame request of the browser that is pending (if
any), the size of the canvas, the variables `fpsData` and `lastFrameTime` of the effect, the
state hook `fps`, and the calls of `setFps` so far, each with the reading of
`performance.now()` at which it was made. -/
structure LoopState where
  recordingStateRef : Bool
  deps : Bool
  animationFrameRef : Option Nat
  pendingFrame : Option Nat
  nextFrameId : Nat
  canvasWidth : Nat
  canvasHeight : Nat
  fpsData : FpsData
  lastFrameTime : Int
  fps : JsNumber
  fpsLog : List (Int × JsNumber)
  deriving DecidableEq, Repr

/-- The component before its effects have run (App.js 83, 89, 94). -/
def unmountedLoop : LoopState :=
  { recordingStateRef := false, deps := false, animationFrameRef := none,
    pendingFrame := none, nextFrameId := 0, canvasWidth := 0, canvasHeight := 0,
    fpsData := ⟨0, 0, []⟩, lastFrameTime := 0, fps := .finite 0, fpsLog := [] }

/-- The body of the display-loop effect (App.js 346-445), run for the current value of
`isRecording`; `now` is the reading of `performance.now()`. A new canvas is 300 by 150. -/
def displayLoopSetup (now : Int) (s : AppState) (l : LoopState) : LoopState :=
  { l with
    recordingStateRef := s.isRecording
    deps := s.isRecording
    canvasWidth := 300
    canvasHeight := 150
    fpsData := ⟨0, now, []⟩
    lastFrameTime := 0
    animationFrameRef := some (l.nextFrameId + 1)
    pendingFrame := some (l.nextFrameId + 1)
    nextFrameId := l.nextFrameId + 1 }

/-- The clean-up function of the display-loop effect (App.js 448-455): it cancels the
animation frame of `animationFrameRef` and clears the interval of `recordingTimerRef`;
neither ref is reset. -/
def displayLoopCleanup (s : AppState) (l : LoopState) : AppState × LoopState :=
  let l : LoopState :=
    match l.animationFrameRef with
    | none => l
    | some id =>
      if id ≠ 0 then
        { l with pendingFrame := if l.pendingFrame = some id then none else l.pendingFrame }
      else l
  let s : AppState :=
    match s.recordingTimerRef with
    | none => s
    | some id =>
      if id ≠ 0 then { s with intervals := s.intervals.filter (fun t => t ≠ id) }
      else s
  (s, l)

/-- What React does with the display-loop effect after a render: when the dependency
`isRecording` differs from the value for which the effect last ran, the clean-up of the
last run is called and then the effect body. -/
def commitEffects (now : Int) (s : AppState) (l : LoopState) : AppState × LoopState :=
  if s.isRecording = l.deps then (s, l)
  else
    let cleaned := displayLoopCleanup s l
    (cleaned.1, displayLoopSetup now cleaned.1 cleaned.2)

/-- What an animation frame finds: the timestamp passed to the callback, the state of the
image, the source of the image when it is a `blob:` or JPEG `data:` URL (`direct`), the
result of `canvas.toDataURL` (`none`: it throws), and the reading of `performance.now()`;
times in microseconds. -/
structure FrameTick where
  timestamp : Int
  complete : Bool
  naturalWidth : Nat
  naturalHeight : Nat
  direct : Option DataUrl
  dataUrl : Option DataUrl
  now : Int
  deriving DecidableEq, Repr

/-- The lines `fpsData.frames.push(elapsed)` and `if (fpsData.frames.length > 20)
fpsData.frames.shift()` (App.js 378-382). -/
def pushWindow (frames : List Double) (elapsed : Double) : List Double :=
  let frames := frames ++ [elapsed]
  if frames.length > 20 then frames.drop 1 else frames

/-- The expression `Math.round(1000 / avgFrameTime)` with
`avgFrameTime = fpsData.frames.reduce((a, b) => a + b, 0) / fpsData.frames.length`
(App.js 428-429): the additions from the left starting at 0, the two divisions and
`Math.round`, on doubles. -/
def calculatedFps (frames : List Double) : JsNumber :=
  let sum := frames.foldl Double.add (Double.ofInt 0)
  let avgFrameTime := sum.div (Double.ofInt frames.length)
  mathRound ((Double.ofInt 1000).div avgFrameTime)

/-- The callback `updateFrame` (App.js 371-442), run for the pending animation-frame
request; without a pending request there is no callback to run. Drawing a loaded image is
taken not to throw. -/
def updateFrame (t : FrameTick) (s : AppState) (l : LoopState) : AppState × LoopState :=
  match l.pendingFrame with
  | none => (s, l)
  | some _ =>
    let l : LoopState := { l with pendingFrame := none }
    let elapsed := (Double.ofMicros t.timestamp).sub (Double.ofMicros l.lastFrameTime)
    let l : LoopState := { l with lastFrameTime := t.timestamp }
    let l : LoopState :=
      { l with fpsData := { l.fpsData with frameCount := l.fpsData.frameCount + 1 } }
    let l : LoopState :=
      { l with fpsData := { l.fpsData with frames := pushWindow l.fpsData.frames elapsed } }
    let result : AppState × LoopState :=
      if t.complete && t.naturalWidth != 0 then
        let l : LoopState :=
          if l.canvasWidth ≠ t.naturalWidth ∨ l.canvasHeight ≠ t.naturalHeight then
            { l with canvasWidth := t.naturalWidth, canvasHeight := t.naturalHeight }
          else l
        let s : AppState :=
          if l.recordingStateRef && s.workerRef then
            let captured : Option DataUrl :=
              match t.direct with
              | some src => some src
              | none => t.dataUrl
            match captured with
            | some data =>
              let s := { s with log := s.log ++ [Effect.postMessage (.frame data)] }
              { s with frameCountRef := s.frameCountRef + 1 }
            | none => s
          else s
        let l : LoopState :=
          if t.now - l.fpsData.lastUpdate > 500 * 1000 then
            let value := calculatedFps l.fpsData.frames
            { l with
              fps := value
              fpsLog := l.fpsLog ++ [(t.now, value)]
              fpsData := { l.fpsData with lastUpdate := t.now, frameCount := 0 } }
          else l
        (s, l)
      else (s, l)
    (result.1,
      { result.2 with
        animationFrameRef := some (result.2.nextFrameId + 1)
        pendingFrame := some (result.2.nextFrameId + 1)
        nextFrameId := result.2.nextFrameId + 1 })

/-- The animation frames of a list, run in order. -/
def runFrames (s : AppState) (l : LoopState) : List FrameTick → AppState × LoopState
  | [] => (s, l)
  | t :: ts => runFrames (updateFrame t s l).1 (updateFrame t s l).2 ts

/-- The frames posted to the worker in a log, in order. -/
def framesPosted : List Effect → List DataUrl
  | [] => []
  | .postMessage (.frame data) :: rest => data :: framesPosted rest
  | _ :: rest => framesPosted rest

/-- The differences between the timestamps of consecutive ticks, as the specification
words the inter-frame intervals: for timestamps in microseconds, the doubles in milliseconds
that the subtractions return. -/
def interFrameIntervals : List Int → List Double
  | a :: b :: rest =>
    (Double.ofMicros b).sub (Double.ofMicros a) :: interFrameIntervals (b :: rest)
  | _ => []

end App

namespace VideoRecording

/-! ## Local bundling on the control page (video-recording.js) -/

/-- A JPEG frame blob, identified by its content. -/
abbrev Blob := Nat

/-- The elements that `document.getElementById` finds on the page (`false`: it returns
`null`). -/
structure Dom where
  cameraImage : Bool
  startRecordingButton : Bool
  stopRecordingButton : Bool
  recordingStatus : Bool
  recordingTime : Bool
  recordingAlert : Bool
  deriving DecidableEq, Repr

/-- The text of an alert. The success message of `stopRecording` ends in
`actualFps.toFixed(1)` with `actualFps = frames / recordingDuration`; it is kept as the frame
count and the duration (in microseconds, `none` for `NaN`) from which that text is
formatted. -/
inductive Message where
  | plain (text : String)
  | saved (frames : Nat) (durationMicros : Option Int)
  deriving DecidableEq, Repr

/-- The externally visible actions of the control page, in the order they are issued. -/
inductive Effect where
  | alert (message : Message) (type : String)
  | setDisabled (element : String) (value : Bool)
  | setDisplay (element : String) (value : String)
  | setText (element : String) (text : String)
  | newBlob (parts : List Blob)
  | createObjectURL
  | appendLink
  | download (filename : String) (parts : List Blob)
  | removeLink
  deriving DecidableEq, Repr

/-- The module-level variables of video-recording.js that recording uses, the browser's
scheduled intervals, pending animation-frame and clean-up callbacks, and the log of
effects. `recordingStartTime` is a `Date` in milliseconds since the epoch; `lastFrameTime` is
a reading of `performance.now()` in microseconds. `frameCapture` is `true` once
`initVideoRecording` has assigned the function. -/
structure State where
  recordingInterval : Option Nat
  recordingStartTime : Option Int
  currentCameraNum : String
  isRecording : Bool
  frameCapture : Bool
  recordedFrames : List Blob
  lastFrameTime : Int
  intervals : List Nat
  nextTimerId : Nat
  rafPending : Nat
  pendingCleanups : Nat
  log : List Effect
  deriving DecidableEq, Repr

/-- The module right after it is loaded (video-recording.js 2-11). -/
def init : State :=
  { recordingInterval := none, recordingStartTime := none, currentCameraNum := "undefined",
    isRecording := false, frameCapture := false, recordedFrames := [], lastFrameTime := 0,
    intervals := [], nextTimerId := 0, rafPending := 0, pendingCleanups := 0, log := [] }

/-- The state in which a function is left, and the message of the exception that left it,
if any. -/
structure Outcome where
  state : State
  thrown : Option String
  deriving DecidableEq, Repr

/-- Sequencing of statements: the next one runs only if nothing was thrown. -/
def Outcome.andThen (o : Outcome) (next : State → Outcome) : Outcome :=
  match o.thrown with
  | none => next o.state
  | some _ => o

/-- The message of the `TypeError` for a property access on `null`. -/
def nullMessage : String := "Cannot set properties of null"

/-- The message of the `TypeError` for calling `frameCapture` while it is `null`. -/
def notAFunctionMessage : String := "frameCapture is not a function"

/-- Appends an effect to the log. -/
def State.emit (s : State) (e : Effect) : State :=
  { s with log := s.log ++ [e] }

/-- The function `initVideoRecording` (video-recording.js 259-311): `frameCapture` is
assigned only if the camera image element exists. -/
def initVideoRecording (dom : Dom) (s : State) : State :=
  if !dom.cameraImage then s
  else { s with frameCapture := true }

/-- The function `showRecordingAlert` (video-recording.js 436-446). -/
def showRecordingAlert (dom : Dom) (message : Message) (type : String) (s : State) : Outcome :=
  if dom.recordingAlert then ⟨s.emit (.alert message type), none⟩
  else ⟨s, some nullMessage⟩

/-- The function `updateUIForRecording` (video-recording.js 408-423). -/
def updateUIForRecording (dom : Dom) (isRecording : Bool) (s : State) : Outcome :=
  if isRecording then
    if !dom.startRecordingButton then ⟨s, some nullMessage⟩
    else
      let s := s.emit (.setDisabled "startRecordingButton" true)
      if !dom.stopRecordingButton then ⟨s, some nullMessage⟩
      else
        let s := s.emit (.setDisabled "stopRecordingButton" false)
        if !dom.recordingStatus then ⟨s, some nullMessage⟩
        else ⟨s.emit (.setDisplay "recordingStatus" "block"), none⟩
  else
    if !dom.startRecordingButton then ⟨s, some nullMessage⟩
    else
      let s := s.emit (.setDisabled "startRecordingButton" false)
      if !dom.stopRecordingButton then ⟨s, some nullMessage⟩
      else
        let s := s.emit (.setDisabled "stopRecordingButton" true)
        if !dom.recordingStatus then ⟨s, some nullMessage⟩
        else
          let s := s.emit (.setDisplay "recordingStatus" "none")
          if !dom.recordingTime then ⟨s, some nullMessage⟩
          else ⟨s.emit (.setText "recordingTime" "00:00"), none⟩

/-- The call `setInterval(updateRecordingTime, 1000)` assigned to `recordingInterval`: a
fresh, positive timer id is scheduled. -/
def setRecordingInterval (s : State) : State :=
  { s with
    recordingInterval := some (s.nextTimerId + 1)
    intervals := s.intervals ++ [s.nextTimerId + 1]
    nextTimerId := s.nextTimerId + 1 }

/-- The call `clearInterval(recordingInterval)`; clearing `undefined` does nothing. -/
def clearRecordingInterval (s : State) : State :=
  match s.recordingInterval with
  | none => s
  | some id => { s with intervals := s.intervals.filter (fun t => t ≠ id) }

/-- What a display tick finds: the reading of `performance.now()` in microseconds, the
state of the camera image, and the blob that drawing and encoding the canvas yields
(`none`: one of these calls throws). -/
structure Tick where
  now : Int
  complete : Bool
  naturalWidth : Nat
  encoded : Option Blob
  deriving DecidableEq, Repr

/-- The test `now - lastFrameTime >= targetFrameInterval` with `targetFrameInterval =
1000 / 60` milliseconds (video-recording.js 11, 286), on readings in microseconds. -/
def intervalElapsed (now lastFrameTime : Int) : Bool :=
  decide (1000 * 1000 ≤ (now - lastFrameTime) * 60)

/-- The function assigned to `frameCapture` (video-recording.js 283-310). -/
def frameCapture (t : Tick) (s : State) : State :=
  if s.isRecording && t.complete && t.naturalWidth != 0 then
    if intervalElapsed t.now s.lastFrameTime then
      match t.encoded with
      | some blob =>
        let s := { s with recordedFrames := s.recordedFrames ++ [blob] }
        { s with lastFrameTime := t.now }
      | none => s
    else s
  else s

/-- The animation-frame callback `captureFrames` (video-recording.js 347-352), run for one
pending request; without a pending request there is no callback to run. -/
def captureFrames (t : Tick) (s : State) : Outcome :=
  if s.rafPending = 0 then ⟨s, none⟩
  else
    let s := { s with rafPending := s.rafPending - 1 }
    if s.isRecording then
      if !s.frameCapture then ⟨s, some notAFunctionMessage⟩
      else
        let s := frameCapture t s
        ⟨{ s with rafPending := s.rafPending + 1 }, none⟩
    else ⟨s, none⟩

/-- The function `startRecording` (video-recording.js 314-344); `now` is the reading of
`performance.now()` and `date` the value of `new Date()`. -/
def startRecording (dom : Dom) (now date : Int) (s : State) : Outcome :=
  if s.isRecording then
    showRecordingAlert dom (.plain "Already recording.") "warning" s
  else
    let s := { s with recordedFrames := [] }
    let s := { s with lastFrameTime := now }
    let s := { s with isRecording := true }
    let s := { s with rafPending := s.rafPending + 1 }
    let body : Outcome :=
      ((updateUIForRecording dom true s).andThen
        (showRecordingAlert dom (.plain "Recording started successfully") "success")).andThen
        (fun s => ⟨setRecordingInterval { s with recordingStartTime := some date }, none⟩)
    match body.thrown with
    | none => body
    | some e =>
      (showRecordingAlert dom (.plain ("Error starting recording: " ++ e)) "danger"
        body.state).andThen (fun s => ⟨{ s with isRecording := false }, none⟩)

/-- What the world answers during one run of `stopRecording`: the reading of
`performance.now()`, the file-name timestamp, and the exceptions, if any, thrown by
`new Blob(recordedFrames)` and by `URL.createObjectURL(blob)`. -/
structure StopEnv where
  now : Int
  timestamp : String
  blobError : Option String
  urlError : Option String
  deriving DecidableEq, Repr

/-- The value of `(performance.now() - recordingStartTime) / 1000` (video-recording.js 371)
in microseconds: the `Date` is coerced to its milliseconds since the epoch; an undefined
start time gives `NaN` (`none`). -/
def recordingDurationMicros (now : Int) (recordingStartTime : Option Int) : Option Int :=
  match recordingStartTime with
  | none => none
  | some start => some (now - 1000 * start)

/-- The function `stopRecording` (video-recording.js 355-405). -/
def stopRecording (dom : Dom) (env : StopEnv) (s : State) : Outcome :=
  if !s.isRecording then
    showRecordingAlert dom (.plain "No active recording to stop.") "warning" s
  else
    let s := { s with isRecording := false }
    let filename := "video_cam_" ++ s.currentCameraNum ++ "_" ++ env.timestamp ++ ".mjpeg"
    let finalize : Outcome :=
      if s.recordedFrames.length > 0 then
        let duration := recordingDurationMicros env.now s.recordingStartTime
        match env.blobError with
        | some e => ⟨s, some e⟩
        | none =>
          let s := s.emit (.newBlob s.recordedFrames)
          match env.urlError with
          | some e => ⟨s, some e⟩
          | none =>
            let s := s.emit .createObjectURL
            let s := s.emit .appendLink
            let s := s.emit (.download filename s.recordedFrames)
            let s := { s with pendingCleanups := s.pendingCleanups + 1 }
            showRecordingAlert dom (.saved s.recordedFrames.length duration) "success" s
      else
        showRecordingAlert dom (.plain "Error: No frames were captured") "danger" s
    let body : Outcome :=
      (finalize.andThen (updateUIForRecording dom false)).andThen
        (fun s => ⟨clearRecordingInterval s, none⟩)
    match body.thrown with
    | none => body
    | some e =>
      showRecordingAlert dom (.plain ("Error stopping recording: " ++ e)) "danger" body.state

/-- The callback that `stopRecording` defers by 100 ms (video-recording.js 384-388), run for
one pending instance; without a pending instance there is no callback to run. -/
def cleanupCallback (s : State) : State :=
  if s.pendingCleanups = 0 then s
  else
    let s := { s with pendingCleanups := s.pendingCleanups - 1 }
    let s := s.emit .removeLink
    { s with recordedFrames := [] }

/-- The animation-frame callbacks of a list of ticks, run in order; an exception thrown by
a callback is reported by the browser and the page goes on. -/
def runTicks (s : State) : List Tick → State
  | [] => s
  | t :: ts => runTicks (captureFrames t s).state ts

/-- The downloads offered in a log, in order, as (filename, parts). -/
def downloadsOf : List Effect → List (String × List Blob)
  | [] => []
  | .download filename parts :: rest => (filename, parts) :: downloadsOf rest
  | _ :: rest => downloadsOf rest

/-- The alerts shown in a log, in order. -/
def alertsOf : List Effect → List (Message × String)
  | [] => []
  | .alert message type :: rest => (message, type) :: alertsOf rest
  | _ :: rest => alertsOf rest

/-- Whether an effect belongs to the bundling of the download: the blob, its object URL,
the link, or the click that offers the file. -/
def Effect.isFinalization : Effect → Bool
  | .newBlob _ => true
  | .createObjectURL => true
  | .appendLink => true
  | .download _ _ => true
  | _ => false

/-- Whether the page has the recording controls that the script writes to: both buttons,
the status and time displays and the alert box. -/
def Dom.hasControls (dom : Dom) : Bool :=
  dom.startRecordingButton && dom.stopRecordingButton && dom.recordingStatus &&
    dom.recordingTime && dom.recordingAlert

/-- A control page with the camera image and all recording controls. -/
def controlPage : Dom :=
  { cameraImage := true, startRecordingButton := true, stopRecordingButton := true,
    recordingStatus := true, recordingTime := true, recordingAlert := true }

/-- The frame sequence as the specification words it, for a session whose last capture
(or start) was at clock reading `last`: the blobs of exactly those ticks that pass the
capture conditions (image loaded with non-zero width, target interval of 1000/60 ms elapsed
since the last captured frame) and encode successfully, in tick order. -/
def specCaptured (last : Int) : List Tick → List Blob
  | [] => []
  | t :: ts =>
    match t.encoded with
    | some blob =>
      if t.complete = true ∧ t.naturalWidth ≠ 0 ∧ 1000 * 1000 ≤ (t.now - last) * 60 then
        blob :: specCaptured t.now ts
      else specCaptured last ts
    | none => specCaptured last ts

/-- A step of the control page: one of the two button handlers, one animation-frame
callback, or one deferred clean-up callback of an earlier `stopRecording`. -/
inductive Step where
  | start (now date : Int)
  | tick (t : Tick)
  | stop (env : StopEnv)
  | cleanup
  deriving DecidableEq, Repr

/-- The state after one step; an exception thrown by the step leaves the state it reached. -/
def step (dom : Dom) (s : State) : Step → State
  | .start now date => (startRecording dom now date s).state
  | .tick t => (captureFrames t s).state
  | .stop env => (stopRecording dom env s).state
  | .cleanup => cleanupCallback s

/-- The steps of a list, run in order. -/
def runSteps (dom : Dom) (s : State) : List Step → State
  | [] => s
  | st :: rest => runSteps dom (step dom s st) rest

/-- The clock readings of those ticks of a list on which `recordedFrames` changes, in
order. -/
def captureTimes (s : State) : List Tick → List Int
  | [] => []
  | t :: ts =>
    if (captureFrames t s).state.recordedFrames ≠ s.recordedFrames then
      t.now :: captureTimes (captureFrames t s).state ts
    else captureTimes (captureFrames t s).state ts

/-- The ticks among the steps of a list, in order. -/
def ticksOf : List Step → List Tick
  | [] => []
  | .tick t :: rest => t :: ticksOf rest
  | _ :: rest => ticksOf rest

/-- Whether a step is one that the browser runs by itself between the two button handlers:
an animation-frame callback or a deferred clean-up callback. -/
def Step.isCallback : Step → Bool
  | .tick _ => true
  | .cleanup => true
  | _ => false

end VideoRecording

/-! # Theorems -/

namespace App

/-! ## Batch upload and remote encoding -/

theorem batchParts_eq_map (frames : List DataUrl) :
    ∀ (r i : Nat), i + r ≤ frames.length →
      batchParts frames i r =
        some ((List.range' i r).map (fun t => Part.mk (frameName t) (frames.getD t 0))) := by
  intro r
  induction r with
  | zero => intro i _; simp [batchParts]
  | succ r ih =>
    intro i h
    have hi : i < frames.length := by omega
    simp [batchParts, framePart, List.range'_succ, ih (i + 1) (by omega),
      List.getElem?_eq_getElem hi, List.getD_eq_getElem?_getD]

theorem uploadsOf_append (l₁ l₂ : List Effect) :
    uploadsOf (l₁ ++ l₂) = uploadsOf l₁ ++ uploadsOf l₂ := by
  induction l₁ with
  | nil => rfl
  | cons e l ih => cases e <;> simp [uploadsOf, ih]

theorem uploadLoop_resolved (env : EncodeEnv) (frames : List DataUrl) (n : Nat) (fps : JsNumber)
    (tb : Nat) (hlen : n ≤ frames.length) (hres : ∀ k, ∃ r, env.upload k = .resolved r) :
    ∀ (fuel j : Nat) (log : List Effect), (n + 49) / 50 - j < fuel →
      uploadLoop env frames n fps tb fuel (50 * j) j log =
        some ⟨log ++ (List.range' j ((n + 49) / 50 - j)).map (fun j =>
          Effect.uploadFrames fps env.timestamp (j + 1) tb
            ((List.range' (50 * j) (min (50 * (j + 1)) n - 50 * j)).map
              (fun i => Part.mk (frameName i) (frames.getD i 0)))), none⟩ := by
  intro fuel
  induction fuel with
  | zero => intro j log h; omega
  | succ fuel ih =>
    intro j log h
    unfold uploadLoop
    by_cases hj : 50 * j < n
    · obtain ⟨r, hr⟩ := hres (j + 1)
      have hcount : (n + 49) / 50 - j = ((n + 49) / 50 - (j + 1)) + 1 := by omega
      have hparts := batchParts_eq_map frames (min (50 * j + batchSize) n - 50 * j) (50 * j)
        (by simp only [batchSize]; omega)
      simp only [hj, if_true, hparts, hr]
      have hnext : 50 * j + batchSize = 50 * (j + 1) := by simp only [batchSize]; omega
      rw [hnext, ih (j + 1) _ (by omega), hcount, List.range'_succ]
      simp [List.append_assoc]
    · have hcount : (n + 49) / 50 - j = 0 := by omega
      simp [hj, hcount]

theorem uploadLoop_isSome (env : EncodeEnv) (frames : List DataUrl) (n : Nat) (fps : JsNumber)
    (tb : Nat) :
    ∀ (fuel batchStart currentBatch : Nat) (log : List Effect),
      0 < fuel → n < batchStart + fuel →
      (uploadLoop env frames n fps tb fuel batchStart currentBatch log).isSome = true := by
  intro fuel
  induction fuel with
  | zero =>
    intro batchStart currentBatch log h0 h
    omega
  | succ fuel ih =>
    intro batchStart currentBatch log _ h
    unfold uploadLoop
    by_cases hb : batchStart < n
    · simp only [hb, if_true]
      cases batchParts frames batchStart (min (batchStart + batchSize) n - batchStart) with
      | none => rfl
      | some parts =>
        cases env.upload (currentBatch + 1) with
        | rejected message => rfl
        | resolved r =>
          exact ih _ _ _ (by omega) (by simp only [batchSize]; omega)
    · simp [hb]

/-- Totality: `createPiHardwareEncodedVideo` always runs to its end; the fuel handed to the
upload loop is never used up. -/
theorem createPiHardwareEncodedVideo_total (env : EncodeEnv) (frames : List DataUrl)
    (frameCount : Nat) (s : AppState) :
    (createPiHardwareEncodedVideo env frames frameCount s).isSome = true := by
  unfold createPiHardwareEncodedVideo
  have h := uploadLoop_isSome env frames frameCount
    (computeFps frameCount (env.now - s.recordingStartTime))
    ((frameCount + batchSize - 1) / batchSize) (frameCount + 1) 0 0 s.log (by omega) (by omega)
  simp only []
  cases hloop : uploadLoop env frames frameCount
    (computeFps frameCount (env.now - s.recordingStartTime))
    ((frameCount + batchSize - 1) / batchSize) (frameCount + 1) 0 0 s.log with
  | none => rw [hloop] at h; cases h
  | some res =>
    obtain ⟨log, thrown⟩ := res
    cases thrown with
    | some message => rfl
    | none =>
      simp only []
      cases env.encode with
      | rejected message => rfl
      | resolved r =>
        simp only []
        split
        · rfl
        · split
          · rfl
          · split <;> rfl

theorem specBatches_join_aux (n : Nat) :
    ∀ m, ((List.range m).map (fun j =>
      List.range' (50 * j) (min (50 * (j + 1)) n - 50 * j))).flatten = List.range (min (50 * m) n) := by
  intro m
  induction m with
  | zero => simp
  | succ m ih =>
    rw [List.range_succ, List.map_append, List.flatten_append, ih]
    simp only [List.map_cons, List.map_nil, List.flatten_cons, List.flatten_nil, List.append_nil]
    by_cases h : 50 * m ≤ n
    · have happ := List.range'_append_1 0 (50 * m) (min (50 * (m + 1)) n - 50 * m)
      rw [Nat.zero_add] at happ
      rw [Nat.min_eq_left h, List.range_eq_range', List.range_eq_range', happ]
      congr 1
      omega
    · have h1 : min (50 * m) n = n := by omega
      have h2 : min (50 * (m + 1)) n = n := by omega
      have h3 : n - 50 * m = 0 := by omega
      simp [h1, h2, h3]

theorem uploadsOf_map_uploadFrames (fps : JsNumber) (ts : String) (tb : Nat)
    (parts : Nat → List Part) (js : List Nat) :
    uploadsOf (js.map (fun j => Effect.uploadFrames fps ts (j + 1) tb (parts j))) =
      js.map (fun j => (j + 1, tb, parts j)) := by
  induction js with
  | nil => rfl
  | cons j js ih => simp [uploadsOf, ih]

/-- The batch count of the model, `(n + batchSize - 1) / batchSize` on naturals, is the
source's `Math.ceil(frameCount / batchSize)`. -/
theorem totalBatches_eq_ceil (n : Nat) :
    (n + batchSize - 1) / batchSize = Nat.ceil ((n : ℚ) / 50) := by
  symm
  have h50 : (0 : ℚ) < 50 := by norm_num
  simp only [batchSize]
  by_cases hn : n = 0
  · subst hn; simp
  · have hpos : (n + 50 - 1) / 50 ≠ 0 := by omega
    rw [Nat.ceil_eq_iff hpos]
    constructor
    · rw [lt_div_iff₀ h50]
      have : ((n + 50 - 1) / 50 - 1) * 50 < n := by omega
      exact_mod_cast this
    · rw [div_le_iff₀ h50]
      have : n ≤ ((n + 50 - 1) / 50) * 50 := by omega
      exact_mod_cast this

/-- C1. For every frame count `n` (with the `n` frames present and every upload request
resolving), `createPiHardwareEncodedVideo` issues exactly the uploads of `specBatches n`, in
that order, each built from the frames at its indices and named after them. There are
ceil(n/50) batches, numbered 1, 2, ..; each carries totalBatches ceil(n/50) and, for batch
number k, the frame indices 50(k-1), .., min(50k, n) - 1 in increasing order. These index
lists concatenate to 0, .., n-1, none is empty, all but the last hold 50 indices, and for
n = 120 the sizes are 50, 50, 20. -/
theorem createPiHardwareEncodedVideo_batches (env : EncodeEnv) (frames : List DataUrl)
    (n : Nat) (s : AppState) (hlen : n ≤ frames.length)
    (hres : ∀ k, ∃ r, env.upload k = .resolved r) :
    (∃ s', createPiHardwareEncodedVideo env frames n s = some s' ∧
      uploadsOf s'.log = uploadsOf s.log ++ (specBatches n).map (fun b =>
        (b.1, b.2.1, b.2.2.map (fun i => Part.mk (frameName i) (frames.getD i 0)))))
    ∧ (specBatches n).length = Nat.ceil ((n : ℚ) / 50)
    ∧ (specBatches n).map (fun b => b.1) = List.range' 1 (Nat.ceil ((n : ℚ) / 50))
    ∧ (∀ b ∈ specBatches n, b.2.1 = Nat.ceil ((n : ℚ) / 50) ∧
        b.2.2 = List.range' (50 * (b.1 - 1)) (min (50 * b.1) n - 50 * (b.1 - 1)))
    ∧ ((specBatches n).map (fun b => b.2.2)).flatten = List.range n
    ∧ (∀ b ∈ specBatches n, b.2.2 ≠ [])
    ∧ (∀ b ∈ (specBatches n).dropLast, b.2.2.length = 50)
    ∧ (specBatches 120).map (fun b => b.2.2.length) = [50, 50, 20] := by
  have hceil : (n + 49) / 50 = Nat.ceil ((n : ℚ) / 50) := by
    rw [← totalBatches_eq_ceil]; simp [batchSize]
  refine ⟨?_, ?_, ?_, ?_, ?_, ?_, ?_, ?_⟩
  · have hloop := uploadLoop_resolved env frames n
      (computeFps n (env.now - s.recordingStartTime)) ((n + batchSize - 1) / batchSize)
      hlen hres (n + 1) 0 s.log (by omega)
    simp only [Nat.mul_zero, Nat.sub_zero] at hloop
    unfold createPiHardwareEncodedVideo
    simp only [hloop]
    have hup : uploadsOf (List.map (fun j =>
        Effect.uploadFrames (computeFps n (env.now - s.recordingStartTime)) env.timestamp
          (j + 1) ((n + batchSize - 1) / batchSize)
          (List.map (fun i => Part.mk (frameName i) (frames.getD i 0))
            (List.range' (50 * j) (min (50 * (j + 1)) n - 50 * j))))
        (List.range' 0 ((n + 49) / 50))) =
        (specBatches n).map (fun b =>
          (b.1, b.2.1, b.2.2.map (fun i => Part.mk (frameName i) (frames.getD i 0)))) := by
      rw [uploadsOf_map_uploadFrames, specBatches, List.map_map, ← List.range_eq_range']
      simp only [batchSize, Function.comp_def]
      rfl
    cases env.encode with
    | rejected message =>
      refine ⟨_, rfl, ?_⟩
      simp only [catchEncodeError, uploadsOf_append, uploadsOf, List.append_nil, hup]
    | resolved r =>
      simp only []
      split
      · refine ⟨_, rfl, ?_⟩
        simp only [catchEncodeError, uploadsOf_append, uploadsOf, List.append_nil, hup]
      · split
        · refine ⟨_, rfl, ?_⟩
          simp only [catchEncodeError, uploadsOf_append, uploadsOf, List.append_nil, hup]
        · split
          · refine ⟨_, rfl, ?_⟩
            simp only [catchEncodeError, uploadsOf_append, uploadsOf, List.append_nil, hup]
          · refine ⟨_, rfl, ?_⟩
            simp only [uploadsOf_append, uploadsOf, List.append_nil, hup]
  · rw [← hceil]; simp [specBatches]
  · rw [← hceil, specBatches, List.map_map, List.range'_eq_map_range]
    apply List.map_congr_left
    intro j _
    simp only [Function.comp_def]
    omega
  · intro b hb
    simp only [specBatches, List.mem_map, List.mem_range] at hb
    obtain ⟨j, -, rfl⟩ := hb
    exact ⟨hceil, by simp⟩
  · have h := specBatches_join_aux n ((n + 49) / 50)
    have hmin : min (50 * ((n + 49) / 50)) n = n := by omega
    rw [hmin] at h
    simpa [specBatches, List.map_map, Function.comp_def] using h
  · intro b hb
    simp only [specBatches, List.mem_map, List.mem_range] at hb
    obtain ⟨j, hj, rfl⟩ := hb
    have : 0 < min (50 * (j + 1)) n - 50 * j := by omega
    intro hnil
    have hlen0 := congrArg List.length hnil
    simp at hlen0
    omega
  · intro b hb
    simp only [specBatches, List.dropLast_eq_take, List.length_map, List.length_range,
      ← List.map_take, List.mem_map] at hb
    obtain ⟨j, hj, rfl⟩ := hb
    rw [List.take_range, List.mem_range] at hj
    simp only [List.length_range']
    omega
  · decide

theorem encodesOf_append (l₁ l₂ : List Effect) :
    encodesOf (l₁ ++ l₂) = encodesOf l₁ ++ encodesOf l₂ := by
  induction l₁ with
  | nil => rfl
  | cons e l ih => cases e <;> simp [encodesOf, ih]

theorem downloadsOf_append (l₁ l₂ : List Effect) :
    downloadsOf (l₁ ++ l₂) = downloadsOf l₁ ++ downloadsOf l₂ := by
  induction l₁ with
  | nil => rfl
  | cons e l ih => cases e <;> simp [downloadsOf, ih]

theorem alertsOf_append (l₁ l₂ : List Effect) :
    alertsOf (l₁ ++ l₂) = alertsOf l₁ ++ alertsOf l₂ := by
  induction l₁ with
  | nil => rfl
  | cons e l ih => cases e <;> simp [alertsOf, ih]

theorem projections_map_uploadFrames (fps : JsNumber) (ts : String) (tb : Nat)
    (parts : Nat → List Part) (js : List Nat) :
    encodesOf (js.map (fun j => Effect.uploadFrames fps ts (j + 1) tb (parts j))) = []
    ∧ downloadsOf (js.map (fun j => Effect.uploadFrames fps ts (j + 1) tb (parts j))) = []
    ∧ alertsOf (js.map (fun j => Effect.uploadFrames fps ts (j + 1) tb (parts j))) = [] := by
  induction js with
  | nil => exact ⟨rfl, rfl, rfl⟩
  | cons j js ih => simpa [encodesOf, downloadsOf, alertsOf] using ih

theorem uploadLoop_rejected (env : EncodeEnv) (frames : List DataUrl) (n : Nat) (fps : JsNumber)
    (tb k : Nat) (message : String) (hlen : n ≤ frames.length) (hk : k < (n + 49) / 50)
    (hprev : ∀ i, i < k → ∃ r, env.upload (i + 1) = .resolved r)
    (hrej : env.upload (k + 1) = .rejected message) :
    ∀ (fuel j : Nat) (log : List Effect), j ≤ k → (n + 49) / 50 - j < fuel →
      uploadLoop env frames n fps tb fuel (50 * j) j log =
        some ⟨log ++ (List.range' j (k + 1 - j)).map (fun j =>
          Effect.uploadFrames fps env.timestamp (j + 1) tb
            ((List.range' (50 * j) (min (50 * (j + 1)) n - 50 * j)).map
              (fun i => Part.mk (frameName i) (frames.getD i 0)))), some message⟩ := by
  intro fuel
  induction fuel with
  | zero => intro j log _ h; omega
  | succ fuel ih =>
    intro j log hjk h
    unfold uploadLoop
    have hj : 50 * j < n := by omega
    have hparts := batchParts_eq_map frames (min (50 * j + batchSize) n - 50 * j) (50 * j)
      (by simp only [batchSize]; omega)
    have hnext : 50 * j + batchSize = 50 * (j + 1) := by simp only [batchSize]; omega
    by_cases hlast : j = k
    · subst hlast
      have hone : j + 1 - j = 1 := by omega
      simp only [hj, if_true, hparts, hrej, hone]
      simp [hnext]
    · obtain ⟨r, hr⟩ := hprev j (by omega)
      have hcount : k + 1 - j = (k + 1 - (j + 1)) + 1 := by omega
      simp only [hj, if_true, hparts, hr]
      rw [hnext, ih (j + 1) _ (by omega) (by omega), hcount, List.range'_succ]
      simp [List.append_assoc]

/-- The part of C2 that the code keeps: when the `fetch` of batch `k + 1` is rejected (after
`k` uploads that resolved), the loop stops there: no later batch is uploaded, no encode
request is made, no download is triggered, the error is shown and the loading flag is
reset. -/
theorem createPiHardwareEncodedVideo_upload_rejected (env : EncodeEnv)
    (frames : List DataUrl) (n : Nat) (s : AppState) (k : Nat) (message : String)
    (hlen : n ≤ frames.length) (hk : k < (n + 49) / 50)
    (hprev : ∀ i, i < k → ∃ r, env.upload (i + 1) = .resolved r)
    (hrej : env.upload (k + 1) = .rejected message) :
    ∃ s', createPiHardwareEncodedVideo env frames n s = some s'
      ∧ uploadsOf s'.log = uploadsOf s.log ++ ((specBatches n).take (k + 1)).map (fun b =>
          (b.1, b.2.1, b.2.2.map (fun i => Part.mk (frameName i) (frames.getD i 0))))
      ∧ encodesOf s'.log = encodesOf s.log
      ∧ downloadsOf s'.log = downloadsOf s.log
      ∧ alertsOf s'.log = alertsOf s.log ++ ["Error: " ++ message]
      ∧ s'.isLoading = false := by
  have hloop := uploadLoop_rejected env frames n
    (computeFps n (env.now - s.recordingStartTime)) ((n + batchSize - 1) / batchSize) k message
    hlen hk hprev hrej (n + 1) 0 s.log (by omega) (by omega)
  simp only [Nat.mul_zero, Nat.sub_zero] at hloop
  unfold createPiHardwareEncodedVideo
  simp only [hloop]
  obtain ⟨he, hd, ha⟩ := projections_map_uploadFrames
    (computeFps n (env.now - s.recordingStartTime)) env.timestamp
    ((n + batchSize - 1) / batchSize)
    (fun j => (List.range' (50 * j) (min (50 * (j + 1)) n - 50 * j)).map
      (fun i => Part.mk (frameName i) (frames.getD i 0))) (List.range' 0 (k + 1))
  refine ⟨_, rfl, ?_, ?_, ?_, ?_, ?_⟩
  · have hmin : min (k + 1) ((n + 49) / 50) = k + 1 := by omega
    simp only [catchEncodeError]
    rw [uploadsOf_append, uploadsOf_append, uploadsOf_map_uploadFrames]
    simp only [uploadsOf, List.append_nil]
    congr 1
    rw [specBatches, ← List.map_take, List.take_range, List.map_map,
      ← List.range_eq_range', hmin]
    simp only [batchSize, Function.comp_def]
    rfl
  · simp only [catchEncodeError]
    rw [encodesOf_append, encodesOf_append, he]
    simp only [encodesOf, List.append_nil]
  · simp only [catchEncodeError]
    rw [downloadsOf_append, downloadsOf_append, hd]
    simp only [downloadsOf, List.append_nil]
  · simp only [catchEncodeError]
    rw [alertsOf_append, alertsOf_append, ha]
    simp only [alertsOf, List.append_nil]
  · rfl

theorem createPiHardwareEncodedVideo_batches_witness :
    ∃ s', createPiHardwareEncodedVideo
        ⟨2000, "t", fun _ => .resolved ⟨true, "", none⟩, .rejected "offline"⟩
        (List.range 120) 120 mounted = some s' ∧
      (uploadsOf s'.log).map (fun u => (u.1, u.2.1, u.2.2.length)) =
        [(1, 3, 50), (2, 3, 50), (3, 3, 20)] := by
  obtain ⟨⟨s', h1, h2⟩, -⟩ := createPiHardwareEncodedVideo_batches
    ⟨2000, "t", fun _ => .resolved ⟨true, "", none⟩, .rejected "offline"⟩
    (List.range 120) 120 mounted (by simp) (fun _ => ⟨_, rfl⟩)
  refine ⟨s', h1, ?_⟩
  rw [h2]
  simp only [mounted, uploadsOf, List.nil_append, List.map_map]
  decide

/-- C2 (failing input). One frame, the upload of batch 1 answered with a non-success
response (`ok = false`), the encode request answered with success: the encode request is
made, the download is triggered and no error is shown. -/
theorem createPiHardwareEncodedVideo_ignores_upload_response :
    (createPiHardwareEncodedVideo
        ⟨2000, "t", fun _ => .resolved ⟨false, "Internal Server Error", none⟩,
          .resolved ⟨true, "", some (true, "")⟩⟩
        [7] 1 mounted).map (fun s => (encodesOf s.log, downloadsOf s.log, alertsOf s.log)) =
      some ([(1, "video_cam_0_t_HW.mp4")], ["video_cam_0_t_HW.mp4"], []) := by
  decide

/-- C8 (failing input). Zero frames and an encode request answered with success: no upload
is made, the encode request is sent with frameCount 0, the download is triggered and no
error is shown. -/
theorem createPiHardwareEncodedVideo_zero_frames_downloads :
    (createPiHardwareEncodedVideo
        ⟨2000, "t", fun _ => .rejected "unused", .resolved ⟨true, "", some (true, "")⟩⟩
        [] 0 mounted).map
        (fun s => (uploadsOf s.log, encodesOf s.log, downloadsOf s.log, alertsOf s.log)) =
      some ([], [(0, "video_cam_0_t_HW.mp4")], ["video_cam_0_t_HW.mp4"], []) := by
  rfl

/-! ## Part names -/

theorem digitChar_toNat (d : Nat) (hd : d < 10) : (Nat.digitChar d).toNat - 48 = d := by
  interval_cases d <;> rfl

theorem digitChar_range (d : Nat) (hd : d < 10) :
    48 ≤ (Nat.digitChar d).toNat ∧ (Nat.digitChar d).toNat ≤ 57 := by
  interval_cases d <;> decide

theorem foldl_toDigitsCore (fuel : Nat) :
    ∀ (n : Nat) (ds : List Char), n < fuel →
      (Nat.toDigitsCore 10 fuel n ds).foldl (fun acc c => 10 * acc + (c.toNat - 48)) 0 =
        ds.foldl (fun acc c => 10 * acc + (c.toNat - 48)) n := by
  induction fuel with
  | zero => intro n ds h; omega
  | succ fuel ih =>
    intro n ds h
    simp only [Nat.toDigitsCore]
    have hd := digitChar_toNat (n % 10) (Nat.mod_lt _ (by decide))
    by_cases h0 : n / 10 = 0
    · simp only [h0, if_true, List.foldl_cons, hd]
      congr 1
      omega
    · simp only [h0, if_false]
      rw [ih (n / 10) _ (by omega), List.foldl_cons, hd]
      congr 1
      omega

theorem mem_toDigitsCore (fuel : Nat) :
    ∀ (n : Nat) (ds : List Char) (c : Char), c ∈ Nat.toDigitsCore 10 fuel n ds →
      (48 ≤ c.toNat ∧ c.toNat ≤ 57) ∨ c ∈ ds := by
  induction fuel with
  | zero => intro n ds c h; exact Or.inr (by simpa [Nat.toDigitsCore] using h)
  | succ fuel ih =>
    intro n ds c h
    simp only [Nat.toDigitsCore] at h
    have hr := digitChar_range (n % 10) (Nat.mod_lt _ (by decide))
    by_cases h0 : n / 10 = 0
    · simp only [h0, if_true, List.mem_cons] at h
      rcases h with rfl | h
      · exact Or.inl hr
      · exact Or.inr h
    · simp only [h0, if_false] at h
      rcases ih _ _ _ h with h | h
      · exact Or.inl h
      · rw [List.mem_cons] at h
        rcases h with rfl | h
        · exact Or.inl hr
        · exact Or.inr h

theorem pushn_data (c : Char) (k : Nat) (s : String) :
    (s.pushn c k).data = s.data ++ List.replicate k c := by
  induction k with
  | zero => simp [String.pushn, Nat.repeat]
  | succ n ih =>
    simp only [String.pushn, Nat.repeat] at ih ⊢
    simp [ih, List.replicate_succ']

theorem padStart6_data (n : Nat) :
    (padStart6 (toString n)).data =
      List.replicate (6 - (Nat.toDigits 10 n).length) '0' ++ Nat.toDigits 10 n := by
  have hdata : (toString n).data = Nat.toDigits 10 n := rfl
  have hlen : (toString n).length = (Nat.toDigits 10 n).length := rfl
  simp only [padStart6, String.data_append, pushn_data, hdata, hlen]
  rfl

theorem decimalValue_replicate_zero (k : Nat) (cs : List Char) :
    decimalValue (List.replicate k '0' ++ cs) = decimalValue cs := by
  induction k with
  | zero => rfl
  | succ k ih =>
    simp only [decimalValue, List.replicate_succ, List.cons_append, List.foldl_cons] at ih ⊢
    exact ih

/-- The padded digits of a frame index denote the index. -/
theorem decimalValue_padStart6 (n : Nat) : decimalValue (padStart6 (toString n)).data = n := by
  rw [padStart6_data, decimalValue_replicate_zero, decimalValue, Nat.toDigits,
    foldl_toDigitsCore _ _ _ (Nat.lt_succ_self n)]
  rfl

theorem frameName_data (n : Nat) :
    (frameName n).data = "frame_".data ++ ((padStart6 (toString n)).data ++ ".jpg".data) := by
  simp only [frameName, String.data_append, List.append_assoc]

/-- Frame names are distinct for distinct indices. -/
theorem frameName_injective (i j : Nat) (h : frameName i = frameName j) : i = j := by
  have hdata := congrArg String.data h
  rw [frameName_data, frameName_data] at hdata
  have h1 := List.append_cancel_left hdata
  have h2 := List.append_cancel_right h1
  have h3 := congrArg decimalValue h2
  rwa [decimalValue_padStart6, decimalValue_padStart6] at h3

theorem foldl_digits_shift (cs : List Char) :
    ∀ acc : Nat, cs.foldl (fun acc c => 10 * acc + (c.toNat - 48)) acc =
      acc * 10 ^ cs.length + decimalValue cs := by
  induction cs with
  | nil => intro acc; simp [decimalValue]
  | cons c cs ih =>
    intro acc
    simp only [decimalValue, List.foldl_cons, List.length_cons] at ih ⊢
    rw [ih (10 * acc + (c.toNat - 48)), ih (10 * 0 + (c.toNat - 48))]
    ring

theorem decimalValue_cons (c : Char) (cs : List Char) :
    decimalValue (c :: cs) = (c.toNat - 48) * 10 ^ cs.length + decimalValue cs := by
  simp only [decimalValue, List.foldl_cons]
  rw [foldl_digits_shift]
  simp [decimalValue]

theorem decimalValue_lt (cs : List Char) (hd : ∀ c ∈ cs, 48 ≤ c.toNat ∧ c.toNat ≤ 57) :
    decimalValue cs < 10 ^ cs.length := by
  induction cs with
  | nil => simp [decimalValue]
  | cons c cs ih =>
    rw [decimalValue_cons, List.length_cons, pow_succ]
    have h1 := ih (fun x hx => hd x (List.mem_cons_of_mem _ hx))
    have h2 := hd c (List.mem_cons_self _ _)
    have h3 : c.toNat - 48 ≤ 9 := by omega
    have h4 : (c.toNat - 48) * 10 ^ cs.length ≤ 9 * 10 ^ cs.length :=
      Nat.mul_le_mul_right _ h3
    omega

theorem char_lt_of_toNat_lt (a b : Char) (h : a.toNat < b.toNat) : a < b := by
  rw [Char.lt_def]
  exact h

theorem char_eq_of_toNat_eq (a b : Char) (h : a.toNat = b.toNat) : a = b := by
  apply Char.ext
  apply UInt32.ext
  exact h

/-- Among digit strings of one length, the one that denotes the smaller number comes first
in lexicographic order, also when both are followed by the same characters. -/
theorem lex_of_decimalValue_lt (suffix : List Char) :
    ∀ (xs ys : List Char), xs.length = ys.length →
      (∀ c ∈ xs, 48 ≤ c.toNat ∧ c.toNat ≤ 57) → (∀ c ∈ ys, 48 ≤ c.toNat ∧ c.toNat ≤ 57) →
      decimalValue xs < decimalValue ys → xs ++ suffix < ys ++ suffix := by
  intro xs
  induction xs with
  | nil =>
    intro ys hlen _ _ hval
    cases ys with
    | nil => simp [decimalValue] at hval
    | cons b ys => simp at hlen
  | cons a xs ih =>
    intro ys hlen hx hy hval
    cases ys with
    | nil => simp at hlen
    | cons b ys =>
      have hlen' : xs.length = ys.length := by simpa using hlen
      have hxs := fun c hc => hx c (List.mem_cons_of_mem _ hc)
      have hys := fun c hc => hy c (List.mem_cons_of_mem _ hc)
      have ha := hx a (List.mem_cons_self _ _)
      have hb := hy b (List.mem_cons_self _ _)
      have hvx := decimalValue_lt xs hxs
      have hvy := decimalValue_lt ys hys
      rw [decimalValue_cons, decimalValue_cons, hlen'] at hval
      rw [hlen'] at hvx
      rcases Nat.lt_trichotomy (a.toNat - 48) (b.toNat - 48) with hlt | heq | hgt
      · exact List.Lex.rel (char_lt_of_toNat_lt a b (by omega))
      · have hab : a = b := char_eq_of_toNat_eq a b (by omega)
        subst hab
        rw [heq] at hval
        exact List.Lex.cons (ih ys hlen' hxs hys (by omega))
      · exfalso
        have hmul : (b.toNat - 48 + 1) * 10 ^ ys.length ≤ (a.toNat - 48) * 10 ^ ys.length :=
          Nat.mul_le_mul_right _ hgt
        rw [Nat.add_mul, Nat.one_mul] at hmul
        omega

theorem padStart6_digits (n : Nat) :
    ∀ c ∈ (padStart6 (toString n)).data, 48 ≤ c.toNat ∧ c.toNat ≤ 57 := by
  intro c hc
  rw [padStart6_data, List.mem_append] at hc
  rcases hc with hc | hc
  · rw [List.mem_replicate] at hc
    rw [hc.2]
    decide
  · rcases mem_toDigitsCore _ _ _ _ hc with h | h
    · exact h
    · cases h

theorem padStart6_length (n : Nat) (hn : n < 10 ^ 6) :
    (padStart6 (toString n)).data.length = 6 := by
  have h := Nat.repr_length n 6 (by decide) hn
  have hlen : (Nat.repr n).length = (Nat.toDigits 10 n).length := rfl
  rw [hlen] at h
  rw [padStart6_data, List.length_append, List.length_replicate]
  omega

/-- C15 (counterexample). The name of frame 1000000 sorts before the name of frame
999999. -/
theorem frameName_order_breaks_at_seven_digits :
    (999999 : Nat) < 1000000
    ∧ frameName 999999 = "frame_999999.jpg" ∧ frameName 1000000 = "frame_1000000.jpg"
    ∧ frameName 1000000 < frameName 999999
    ∧ ¬ frameName 999999 < frameName 1000000 := by
  have hlt : frameName 1000000 < frameName 999999 := by
    rw [String.lt_iff_toList_lt]
    show (frameName 1000000).data < (frameName 999999).data
    decide
  exact ⟨by decide, by decide, by decide, hlt, fun h => lt_asymm hlt h⟩

/-- C15 (amended). For all frame indices i < j the two part names are distinct, and when
j < 1000000, so that both numbers fit the six padded digits, the name of i sorts strictly
before the name of j in lexicographic order. -/
theorem frameName_order (i j : Nat) (hij : i < j) :
    frameName i ≠ frameName j ∧ (j < 10 ^ 6 → frameName i < frameName j) := by
  refine ⟨fun h => by have := frameName_injective i j h; omega, fun hj => ?_⟩
  rw [String.lt_iff_toList_lt]
  show (frameName i).data < (frameName j).data
  rw [frameName_data, frameName_data]
  apply List.Lex.append_left
  apply lex_of_decimalValue_lt
  · rw [padStart6_length i (by omega), padStart6_length j hj]
  · exact padStart6_digits i
  · exact padStart6_digits j
  · rw [decimalValue_padStart6, decimalValue_padStart6]
    exact hij

theorem frameName_order_witness :
    frameName 49 ≠ frameName 50 ∧ frameName 49 < frameName 50 :=
  ⟨(frameName_order 49 50 (by decide)).1, (frameName_order 49 50 (by decide)).2 (by decide)⟩

/-! ## Arithmetic of doubles -/

theorem ilog2Aux_spec : ∀ (fuel n : Nat), n ≤ fuel → n ≠ 0 →
    2 ^ ilog2Aux fuel n ≤ n ∧ n < 2 ^ (ilog2Aux fuel n + 1) := by
  intro fuel
  induction fuel with
  | zero => intro n h hn; omega
  | succ fuel ih =>
    intro n h hn
    unfold ilog2Aux
    by_cases h2 : n < 2
    · rw [if_pos h2]
      have : n = 1 := by omega
      subst this
      constructor <;> norm_num
    · rw [if_neg h2]
      have hle : n / 2 ≤ fuel := by omega
      have hne : n / 2 ≠ 0 := by omega
      obtain ⟨h1, h3⟩ := ih (n / 2) hle hne
      constructor
      · rw [pow_succ]; omega
      · rw [pow_succ]; omega

theorem ilog2_spec (n : Nat) (hn : n ≠ 0) : 2 ^ ilog2 n ≤ n ∧ n < 2 ^ (ilog2 n + 1) :=
  ilog2Aux_spec n n (le_refl n) hn

theorem two_zpow_split (e : Int) :
    (2 : ℚ) ^ e = (2 : ℚ) ^ e.toNat / (2 : ℚ) ^ (-e).toNat := by
  rcases le_total 0 e with h | h
  · have h1 : (-e).toNat = 0 := by omega
    have h2 : ((e.toNat : Nat) : Int) = e := Int.toNat_of_nonneg h
    rw [h1, pow_zero, div_one]
    conv_lhs => rw [← h2]
    exact zpow_natCast 2 e.toNat
  · have h1 : e.toNat = 0 := by omega
    have h2 : (((-e).toNat : Nat) : Int) = -e := Int.toNat_of_nonneg (by omega)
    rw [h1, pow_zero, one_div, ← zpow_natCast, h2, zpow_neg, inv_inv]

theorem floorLog2_spec (p q : Nat) (hp : 0 < p) (hq : 0 < q) :
    (2 : ℚ) ^ floorLog2 p q ≤ (p : ℚ) / q ∧ (p : ℚ) / q < (2 : ℚ) ^ (floorLog2 p q + 1) := by
  obtain ⟨hp1, hp2⟩ := ilog2_spec p (by omega)
  obtain ⟨hq1, hq2⟩ := ilog2_spec q (by omega)
  have hqpos : (0 : ℚ) < q := by exact_mod_cast hq
  have hp1' : (2 : ℚ) ^ (ilog2 p : Int) ≤ p := by
    rw [zpow_natCast]; exact_mod_cast hp1
  have hp2' : (p : ℚ) < (2 : ℚ) ^ ((ilog2 p : Int) + 1) := by
    rw [show ((ilog2 p : Int) + 1) = ((ilog2 p + 1 : Nat) : Int) by push_cast; ring, zpow_natCast]
    exact_mod_cast hp2
  have hq1' : (2 : ℚ) ^ (ilog2 q : Int) ≤ q := by
    rw [zpow_natCast]; exact_mod_cast hq1
  have hq2' : (q : ℚ) < (2 : ℚ) ^ ((ilog2 q : Int) + 1) := by
    rw [show ((ilog2 q : Int) + 1) = ((ilog2 q + 1 : Nat) : Int) by push_cast; ring, zpow_natCast]
    exact_mod_cast hq2
  have h2pos : ∀ z : Int, (0 : ℚ) < (2 : ℚ) ^ z := fun z => zpow_pos (by norm_num) z
  -- the test of `floorLog2` says whether 2 ^ k ≤ p / q
  have htest : ∀ k : Int, (q * 2 ^ k.toNat ≤ p * 2 ^ (-k).toNat) ↔ (2 : ℚ) ^ k ≤ (p : ℚ) / q := by
    intro k
    rw [two_zpow_split k, div_le_div_iff₀ (by positivity) hqpos]
    constructor
    · intro h
      have : ((q * 2 ^ k.toNat : Nat) : ℚ) ≤ ((p * 2 ^ (-k).toNat : Nat) : ℚ) := by
        exact_mod_cast h
      push_cast at this
      linarith
    · intro h
      have : ((q * 2 ^ k.toNat : Nat) : ℚ) ≤ ((p * 2 ^ (-k).toNat : Nat) : ℚ) := by
        push_cast
        linarith
      exact_mod_cast this
  unfold floorLog2
  simp only []
  split
  · rename_i h
    refine ⟨(htest _).mp h, ?_⟩
    -- p / q < 2 ^ (lp + 1) / 2 ^ lq
    rw [div_lt_iff₀ hqpos]
    calc (p : ℚ) < (2 : ℚ) ^ ((ilog2 p : Int) + 1) := hp2'
      _ = (2 : ℚ) ^ ((ilog2 p : Int) - ilog2 q + 1) * (2 : ℚ) ^ (ilog2 q : Int) := by
          rw [← zpow_add₀ (by norm_num)]; congr 1; ring
      _ ≤ (2 : ℚ) ^ ((ilog2 p : Int) - ilog2 q + 1) * q :=
          mul_le_mul_of_nonneg_left hq1' (le_of_lt (h2pos _))
  · rename_i h
    have hlt : (p : ℚ) / q < (2 : ℚ) ^ ((ilog2 p : Int) - ilog2 q) := by
      by_contra hcon
      exact h ((htest _).mpr (not_lt.mp hcon))
    refine ⟨?_, by rw [sub_add_cancel]; exact hlt⟩
    rw [le_div_iff₀ hqpos]
    calc (2 : ℚ) ^ ((ilog2 p : Int) - ilog2 q - 1) * q
        ≤ (2 : ℚ) ^ ((ilog2 p : Int) - ilog2 q - 1) * (2 : ℚ) ^ ((ilog2 q : Int) + 1) :=
          mul_le_mul_of_nonneg_left (le_of_lt hq2') (le_of_lt (h2pos _))
      _ = (2 : ℚ) ^ (ilog2 p : Int) := by
          rw [← zpow_add₀ (by norm_num)]; congr 1; ring
      _ ≤ p := hp1'

theorem roundHalfEven_spec (p q : Nat) (hq : 0 < q) :
    |((roundHalfEven p q : Nat) : ℚ) - (p : ℚ) / q| ≤ 1 / 2 := by
  have hqpos : (0 : ℚ) < q := by exact_mod_cast hq
  have hdiv : (p : ℚ) = (q : ℚ) * ((p / q : Nat) : ℚ) + ((p % q : Nat) : ℚ) := by
    exact_mod_cast (Nat.div_add_mod p q).symm
  have hmod : ((p % q : Nat) : ℚ) < q := by exact_mod_cast Nat.mod_lt p hq
  have hmod0 : (0 : ℚ) ≤ ((p % q : Nat) : ℚ) := by positivity
  have hpq : (p : ℚ) / q = ((p / q : Nat) : ℚ) + ((p % q : Nat) : ℚ) / q := by
    rw [hdiv]; field_simp; ring
  rw [abs_le]
  unfold roundHalfEven
  split
  · rename_i h
    have h' : 2 * ((p % q : Nat) : ℚ) < q := by exact_mod_cast h
    have hr : ((p % q : Nat) : ℚ) / q < 1 / 2 := by
      rw [div_lt_iff₀ hqpos]; linarith
    have hr0 : 0 ≤ ((p % q : Nat) : ℚ) / q := by positivity
    rw [hpq]; constructor <;> linarith
  · rename_i h
    have h' : (q : ℚ) ≤ 2 * ((p % q : Nat) : ℚ) := by exact_mod_cast not_lt.mp h
    have hr : 1 / 2 ≤ ((p % q : Nat) : ℚ) / q := by
      rw [le_div_iff₀ hqpos]; linarith
    have hr1 : ((p % q : Nat) : ℚ) / q < 1 := by
      rw [div_lt_iff₀ hqpos]; linarith
    split
    · rw [hpq]; push_cast; constructor <;> linarith
    · rename_i h2
      have h2' : 2 * ((p % q : Nat) : ℚ) ≤ q := by exact_mod_cast not_lt.mp h2
      have hr2 : ((p % q : Nat) : ℚ) / q ≤ 1 / 2 := by
        rw [div_le_iff₀ hqpos]; linarith
      split
      · rw [hpq]; constructor <;> linarith
      · rw [hpq]; push_cast; constructor <;> linarith

/-- In the range of the normal doubles, rounding a positive rational gives a finite double
within a relative error of 2^-53. -/
theorem round_normal (neg : Bool) (p q : Nat) (hp : 0 < p) (hq : 0 < q)
    (hlo : (2 : ℚ) ^ (-1022 : Int) ≤ (p : ℚ) / q) (hhi : (p : ℚ) / q < (2 : ℚ) ^ (1023 : Int)) :
    ∃ m e, Double.round neg p q = .finite neg m e ∧
      |(m : ℚ) * (2 : ℚ) ^ e - (p : ℚ) / q| ≤ (p : ℚ) / q / 2 ^ 53 := by
  obtain ⟨hL1, hL2⟩ := floorLog2_spec p q hp hq
  have h2 : (1 : ℚ) < 2 := by norm_num
  have hLlo : -1022 ≤ floorLog2 p q := by
    have : (2 : ℚ) ^ (-1022 : Int) < (2 : ℚ) ^ (floorLog2 p q + 1) := lt_of_le_of_lt hlo hL2
    have := (zpow_lt_zpow_iff_right₀ h2).mp this
    omega
  have hLhi : floorLog2 p q ≤ 1022 := by
    have : (2 : ℚ) ^ (floorLog2 p q) < (2 : ℚ) ^ (1023 : Int) := lt_of_le_of_lt hL1 hhi
    have := (zpow_lt_zpow_iff_right₀ h2).mp this
    omega
  have he : max (floorLog2 p q - 52) (-1074) = floorLog2 p q - 52 := max_eq_left (by omega)
  have hfin : ¬ (971 < floorLog2 p q - 52 ∨ (floorLog2 p q - 52 = 971 ∧
      2 ^ 53 ≤ roundHalfEven (p * 2 ^ (-(floorLog2 p q - 52)).toNat)
        (q * 2 ^ (floorLog2 p q - 52).toNat))) := by
    rintro (h | ⟨h, -⟩) <;> omega
  refine ⟨roundHalfEven (p * 2 ^ (-(floorLog2 p q - 52)).toNat)
      (q * 2 ^ (floorLog2 p q - 52).toNat), floorLog2 p q - 52, ?_, ?_⟩
  · unfold Double.round
    rw [if_neg (by omega)]
    simp only [he]
    rw [if_neg hfin]
  · have hqpos : (0 : ℚ) < q := by exact_mod_cast hq
    have hepos : (0 : ℚ) < (2 : ℚ) ^ (floorLog2 p q - 52) := zpow_pos (by norm_num) _
    have hr := roundHalfEven_spec (p * 2 ^ (-(floorLog2 p q - 52)).toNat)
      (q * 2 ^ (floorLog2 p q - 52).toNat) (by positivity)
    have hratio : (((p * 2 ^ (-(floorLog2 p q - 52)).toNat : Nat) : ℚ)) /
        ((q * 2 ^ (floorLog2 p q - 52).toNat : Nat) : ℚ) =
        (p : ℚ) / q / (2 : ℚ) ^ (floorLog2 p q - 52) := by
      rw [two_zpow_split (floorLog2 p q - 52)]
      push_cast
      field_simp
    rw [hratio] at hr
    -- scale the error of the mantissa by 2 ^ e
    have hscale : |(roundHalfEven (p * 2 ^ (-(floorLog2 p q - 52)).toNat)
          (q * 2 ^ (floorLog2 p q - 52).toNat) : ℚ) * (2 : ℚ) ^ (floorLog2 p q - 52) -
          (p : ℚ) / q| ≤ 1 / 2 * (2 : ℚ) ^ (floorLog2 p q - 52) := by
      have := mul_le_mul_of_nonneg_right hr (le_of_lt hepos)
      rw [← abs_of_pos hepos, ← abs_mul, abs_of_pos hepos, sub_mul,
        div_mul_cancel₀ _ (ne_of_gt hepos)] at this
      exact this
    refine le_trans hscale ?_
    have hsplit : (2 : ℚ) ^ (floorLog2 p q) =
        (2 : ℚ) ^ (floorLog2 p q - 52) * (2 : ℚ) ^ (52 : Int) := by
      rw [← zpow_add₀ (by norm_num)]; congr 1; ring
    have h52 : (2 : ℚ) ^ (52 : Int) = 2 ^ 52 := by norm_cast
    rw [hsplit, h52] at hL1
    rw [le_div_iff₀ (by positivity)]
    have : (2 : ℚ) ^ 53 = 2 * 2 ^ 52 := by norm_num
    rw [this]
    linarith

/-- Rounding is exact on the integers below 2^53. -/
theorem ofInt_exact (n : Nat) (hn : n < 2 ^ 53) :
    ∃ m e, Double.ofInt (n : Int) = .finite false m e ∧ (m : ℚ) * (2 : ℚ) ^ e = n := by
  by_cases h0 : n = 0
  · subst h0
    exact ⟨0, 0, by simp [Double.ofInt, Double.round], by simp⟩
  · obtain ⟨hL1, hL2⟩ := floorLog2_spec n 1 (by omega) (by omega)
    have h2 : (1 : ℚ) < 2 := by norm_num
    have hLlo : 0 ≤ floorLog2 n 1 := by
      have h1 : (1 : ℚ) ≤ n := by exact_mod_cast (by omega : 1 ≤ n)
      have : (2 : ℚ) ^ (0 : Int) < (2 : ℚ) ^ (floorLog2 n 1 + 1) := by
        rw [zpow_zero]; simp only [Nat.cast_one, div_one] at hL2; linarith
      have := (zpow_lt_zpow_iff_right₀ h2).mp this
      omega
    have hLhi : floorLog2 n 1 ≤ 52 := by
      have hn' : (n : ℚ) < (2 : ℚ) ^ (53 : Int) := by
        have : ((n : Nat) : ℚ) < ((2 ^ 53 : Nat) : ℚ) := by exact_mod_cast hn
        rw [show (2 : ℚ) ^ (53 : Int) = ((2 ^ 53 : Nat) : ℚ) by norm_cast]
        exact this
      have : (2 : ℚ) ^ (floorLog2 n 1) < (2 : ℚ) ^ (53 : Int) := by
        simp only [Nat.cast_one, div_one] at hL1; linarith
      have := (zpow_lt_zpow_iff_right₀ h2).mp this
      omega
    have he : max (floorLog2 n 1 - 52) (-1074) = floorLog2 n 1 - 52 := max_eq_left (by omega)
    have hk : (floorLog2 n 1 - 52).toNat = 0 := by omega
    have hround : ∀ p : Nat, roundHalfEven p 1 = p := by
      intro p; simp [roundHalfEven, Nat.mod_one]
    refine ⟨n * 2 ^ (-(floorLog2 n 1 - 52)).toNat, floorLog2 n 1 - 52, ?_, ?_⟩
    · unfold Double.ofInt Double.round
      have hneg : decide ((n : Int) < 0) = false := by simp
      simp only [Int.natAbs_ofNat, hneg]
      rw [if_neg h0]
      simp only [he, hk, pow_zero, mul_one, hround]
      rw [if_neg (by rintro (h | ⟨h, -⟩) <;> omega)]
    · rw [two_zpow_split (floorLog2 n 1 - 52), hk]
      push_cast
      field_simp

/-- The function `Math.round` on a finite double is `floor (x + 1/2)`. -/
theorem mathRound_finite (neg : Bool) (m : Nat) (e : Int) :
    mathRound (.finite neg m e) = .finite ⌊(Double.finite neg m e).toRat + 1 / 2⌋ := by
  unfold mathRound Double.toRat
  simp only []
  congr 1
  have hd : (0 : Int) < 2 * ((2 ^ (-e).toNat : Nat) : Int) := by positivity
  rw [Int.fdiv_eq_ediv _ (le_of_lt hd)]
  symm
  rw [Int.floor_eq_iff]
  have hdq : (0 : ℚ) < ((2 * ((2 ^ (-e).toNat : Nat) : Int) : Int) : ℚ) := by exact_mod_cast hd
  have hval : (if neg = true then (-1 : ℚ) else 1) * (m : ℚ) * (2 : ℚ) ^ e + 1 / 2 =
      ((2 * (if neg = true then -((m * 2 ^ e.toNat : Nat) : Int)
          else ((m * 2 ^ e.toNat : Nat) : Int)) + ((2 ^ (-e).toNat : Nat) : Int) : Int) : ℚ) /
        ((2 * ((2 ^ (-e).toNat : Nat) : Int) : Int) : ℚ) := by
    rw [two_zpow_split e]
    cases neg <;> simp <;> field_simp <;> ring
  rw [hval]
  constructor
  · rw [le_div_iff₀ hdq]
    have := Int.ediv_mul_le (2 * (if neg = true then -((m * 2 ^ e.toNat : Nat) : Int)
        else ((m * 2 ^ e.toNat : Nat) : Int)) + ((2 ^ (-e).toNat : Nat) : Int)) (ne_of_gt hd)
    exact_mod_cast this
  · rw [div_lt_iff₀ hdq]
    have := Int.lt_ediv_add_one_mul_self (2 * (if neg = true then -((m * 2 ^ e.toNat : Nat) : Int)
        else ((m * 2 ^ e.toNat : Nat) : Int)) + ((2 ^ (-e).toNat : Nat) : Int)) hd
    exact_mod_cast this

theorem quotient_error_aux (a q D d y u : ℚ) (ha0 : 0 ≤ a) (hq0 : 0 ≤ q) (hD : 0 < D)
    (hu0 : 0 ≤ u) (hdlo : 3 / 4 * D ≤ d) (hd : |d - D| ≤ u * D) (had : a * d = q * D)
    (hy : |y - a| ≤ u * a) : |y - q| ≤ 4 * u * q := by
  obtain ⟨hd1, hd2⟩ := abs_le.mp hd
  obtain ⟨hy1, hy2⟩ := abs_le.mp hy
  have hdpos : 0 < d := by linarith
  have ha : a ≤ 4 / 3 * q := by
    have h1 : a * (3 / 4 * D) ≤ a * d := mul_le_mul_of_nonneg_left hdlo ha0
    have h3 : (3 / 4 * a) * D ≤ q * D := by linarith
    have := le_of_mul_le_mul_right h3 hD
    linarith
  have hdiff : |a - q| ≤ 4 / 3 * u * q := by
    have hkey : (a - q) * d = q * (D - d) := by
      rw [sub_mul, had]; ring
    have hDd : |D - d| ≤ u * D := by
      rw [abs_le]; constructor <;> linarith
    have habs : |a - q| * d ≤ q * (u * D) := by
      have h := congrArg abs hkey
      rw [abs_mul, abs_mul, abs_of_pos hdpos, abs_of_nonneg hq0] at h
      rw [h]
      exact mul_le_mul_of_nonneg_left hDd hq0
    have h1 : |a - q| * (3 / 4 * D) ≤ |a - q| * d :=
      mul_le_mul_of_nonneg_left hdlo (abs_nonneg _)
    have h3 : (3 / 4 * |a - q|) * D ≤ (u * q) * D := by linarith
    have := le_of_mul_le_mul_right h3 hD
    linarith
  obtain ⟨hf1, hf2⟩ := abs_le.mp hdiff
  have huq : 0 ≤ u * q := mul_nonneg hu0 hq0
  have hua : u * a ≤ 4 / 3 * (u * q) := by
    have := mul_le_mul_of_nonneg_left ha hu0
    linarith
  rw [abs_le]
  constructor <;> linarith

theorem quotient_error (n D d y u : ℚ) (hn : 0 ≤ n) (hD : 0 < D) (hu0 : 0 ≤ u)
    (hu : u ≤ 1 / 4) (hd : |d - D| ≤ u * D) (hy : |y - n / d| ≤ u * (n / d)) :
    |y - n / D| ≤ 4 * u * (n / D) := by
  obtain ⟨hd1, hd2⟩ := abs_le.mp hd
  have hdlo : 3 / 4 * D ≤ d := by nlinarith
  have hdpos : 0 < d := by linarith
  exact quotient_error_aux (n / d) (n / D) D d y u (by positivity) (by positivity) hD hu0 hdlo
    hd (by rw [div_mul_cancel₀ _ (ne_of_gt hdpos), div_mul_cancel₀ _ (ne_of_gt hD)]) hy


/-- Dividing two positive finite doubles whose exact quotient is in the range of the normal
doubles gives a finite double within a relative error of 2^-53 of the quotient. -/
theorem div_normal (ma mb : Nat) (ea eb : Int) (hma : 0 < ma) (hmb : 0 < mb)
    (hlo : (2 : ℚ) ^ (-1022 : Int) ≤ ((ma : ℚ) * 2 ^ ea) / ((mb : ℚ) * 2 ^ eb))
    (hhi : ((ma : ℚ) * 2 ^ ea) / ((mb : ℚ) * 2 ^ eb) < (2 : ℚ) ^ (1023 : Int)) :
    ∃ m e, (Double.finite false ma ea).div (.finite false mb eb) = .finite false m e ∧
      |(m : ℚ) * (2 : ℚ) ^ e - ((ma : ℚ) * 2 ^ ea) / ((mb : ℚ) * 2 ^ eb)| ≤
        ((ma : ℚ) * 2 ^ ea) / ((mb : ℚ) * 2 ^ eb) / 2 ^ 53 := by
  have hratio : (((ma * 2 ^ (ea - eb).toNat : Nat) : ℚ)) / ((mb * 2 ^ (eb - ea).toNat : Nat) : ℚ)
      = ((ma : ℚ) * 2 ^ ea) / ((mb : ℚ) * 2 ^ eb) := by
    have hsplit := two_zpow_split (ea - eb)
    rw [neg_sub] at hsplit
    have hsub : (2 : ℚ) ^ (ea - eb) = (2 : ℚ) ^ ea / (2 : ℚ) ^ eb := zpow_sub₀ (by norm_num) _ _
    have h1 : (0 : ℚ) < (2 : ℚ) ^ eb := zpow_pos (by norm_num) _
    have h2 : (0 : ℚ) < (2 : ℚ) ^ (eb - ea).toNat := by positivity
    have hmbq : (0 : ℚ) < mb := by exact_mod_cast hmb
    push_cast
    rw [mul_div_mul_comm, ← hsplit, hsub, mul_div_mul_comm]
  have hdiv : (Double.finite false ma ea).div (.finite false mb eb) =
      Double.round false (ma * 2 ^ (ea - eb).toNat) (mb * 2 ^ (eb - ea).toNat) := by
    simp [Double.div, Nat.pos_iff_ne_zero.mp hmb]
  rw [hdiv, ← hratio]
  rw [← hratio] at hlo hhi
  exact round_normal false _ _ (by positivity) (by positivity) hlo hhi

/-- The value that `computeFps` returns for a frame count and a positive number of elapsed
milliseconds, both below 2^53, is an integer within 1/2 + q / 2^51 of the exact quotient
q = frameCount / (elapsedMs / 1000). -/
theorem computeFps_close (n : Nat) (elapsedMs : Int) (hpos : 0 < elapsedMs)
    (hE : elapsedMs < 2 ^ 53) (hn : n < 2 ^ 53) :
    ∃ k : Int, computeFps n elapsedMs = .finite k ∧
      |(k : ℚ) - (n : ℚ) / ((elapsedMs : ℚ) / 1000)| ≤
        1 / 2 + (n : ℚ) / ((elapsedMs : ℚ) / 1000) / 2 ^ 51 := by
  obtain ⟨E, rfl⟩ : ∃ E : Nat, elapsedMs = (E : Int) := ⟨elapsedMs.toNat, by omega⟩
  simp only [Int.cast_natCast]
  have hEpos : 0 < E := by omega
  have hElt : E < 2 ^ 53 := by omega
  have hEq1 : (1 : ℚ) ≤ E := by exact_mod_cast hEpos
  have hEq2 : (E : ℚ) < 2 ^ 53 := by exact_mod_cast hElt
  obtain ⟨mE, eE, hEd, hEv⟩ := ofInt_exact E hElt
  obtain ⟨mK, eK, hKd, hKv⟩ := ofInt_exact 1000 (by norm_num)
  simp only [Nat.cast_ofNat] at hKd hKv
  obtain ⟨mn, en, hnd, hnv⟩ := ofInt_exact n hn
  have h2e : ∀ z : Int, (0 : ℚ) < (2 : ℚ) ^ z := fun z => zpow_pos (by norm_num) z
  have hmE : 0 < mE := by
    rcases Nat.eq_zero_or_pos mE with h | h
    · rw [h] at hEv; simp at hEv; linarith
    · exact h
  have hmK : 0 < mK := by
    rcases Nat.eq_zero_or_pos mK with h | h
    · rw [h] at hKv; simp at hKv
    · exact h
  -- the duration in seconds
  have hDval : ((mE : ℚ) * 2 ^ eE) / ((mK : ℚ) * 2 ^ eK) = (E : ℚ) / 1000 := by
    rw [hEv, hKv]
  have hp1022 : (2 : ℚ) ^ (-1022 : Int) ≤ 1 / 2 ^ 64 := by
    rw [zpow_neg, ← one_div]
    apply one_div_le_one_div_of_le (by positivity)
    rw [show ((1022 : Int)) = ((1022 : Nat) : Int) by norm_cast, zpow_natCast]
    exact pow_le_pow_right₀ (by norm_num) (by norm_num)
  have hp1023 : (2 : ℚ) ^ 128 ≤ (2 : ℚ) ^ (1023 : Int) := by
    rw [show ((1023 : Int)) = ((1023 : Nat) : Int) by norm_cast, zpow_natCast]
    exact pow_le_pow_right₀ (by norm_num) (by norm_num)
  obtain ⟨md, ed, hdd, hdv⟩ := div_normal mE mK eE eK hmE hmK
    (by rw [hDval]; refine le_trans hp1022 ?_
        rw [div_le_div_iff₀ (by positivity) (by norm_num)]
        have : (1000 : ℚ) ≤ 2 ^ 64 := by norm_num
        linarith)
    (by rw [hDval]; refine lt_of_lt_of_le ?_ hp1023
        rw [div_lt_iff₀ (by norm_num)]
        have : (2 : ℚ) ^ 53 ≤ 2 ^ 128 * 1000 := by norm_num
        linarith)
  rw [hDval] at hdv
  set D : ℚ := (E : ℚ) / 1000 with hD
  set d : ℚ := (md : ℚ) * 2 ^ ed with hd
  have hDpos : 0 < D := by positivity
  have hDlo : 1 / 1000 ≤ D := by rw [hD]; linarith [div_le_div_of_nonneg_right hEq1 (by norm_num : (0:ℚ) ≤ 1000)]
  have hDhi : D < 2 ^ 53 / 1000 := by
    rw [hD]; exact div_lt_div_of_pos_right hEq2 (by norm_num)
  have hu : (0 : ℚ) < 1 / 2 ^ 53 := by positivity
  obtain ⟨hd1, hd2⟩ := abs_le.mp hdv
  have hdlo : D * (1 - 1 / 2 ^ 53) ≤ d := by
    have : D / 2 ^ 53 = D * (1 / 2 ^ 53) := by ring
    linarith
  have hdhi : d ≤ D * (1 + 1 / 2 ^ 53) := by
    have : D / 2 ^ 53 = D * (1 / 2 ^ 53) := by ring
    linarith
  have hdpos : 0 < d := by
    have : (0 : ℚ) < D * (1 - 1 / 2 ^ 53) := by
      apply mul_pos hDpos; norm_num
    linarith
  have hmd : 0 < md := by
    rcases Nat.eq_zero_or_pos md with h | h
    · rw [hd, h] at hdpos; simp at hdpos
    · exact h
  unfold computeFps
  rw [hnd, hEd, hKd, hdd]
  by_cases hn0 : n = 0
  · -- no frames: the quotient is an exact zero
    subst hn0
    have hmn : mn = 0 := by
      have h := hnv
      simp only [Nat.cast_zero, mul_eq_zero, Nat.cast_eq_zero] at h
      rcases h with h | h
      · exact h
      · exact absurd h (ne_of_gt (h2e en))
    subst hmn
    refine ⟨0, ?_, by simp⟩
    have hdiv : (Double.finite false 0 en).div (.finite false md ed) = .finite false 0 0 := by
      simp [Double.div, Nat.pos_iff_ne_zero.mp hmd, Double.round]
    rw [hdiv]
    rfl
  · have hnpos : 0 < n := Nat.pos_of_ne_zero hn0
    have hnq1 : (1 : ℚ) ≤ n := by exact_mod_cast hnpos
    have hnq2 : (n : ℚ) < 2 ^ 53 := by exact_mod_cast hn
    have hmn : 0 < mn := by
      rcases Nat.eq_zero_or_pos mn with h | h
      · rw [h] at hnv; simp at hnv; linarith
      · exact h
    have hYval : ((mn : ℚ) * 2 ^ en) / ((md : ℚ) * 2 ^ ed) = (n : ℚ) / d := by
      rw [hnv]
    have hdlo' : 1 / 2000 ≤ d := by
      have : (1 : ℚ) / 2000 ≤ D * (1 - 1 / 2 ^ 53) := by
        have h1 : (1 : ℚ) / 2 ≤ 1 - 1 / 2 ^ 53 := by norm_num
        calc (1 : ℚ) / 2000 = 1 / 1000 * (1 / 2) := by norm_num
          _ ≤ D * (1 - 1 / 2 ^ 53) := mul_le_mul hDlo h1 (by norm_num) (le_of_lt hDpos)
      linarith
    have hdhi' : d ≤ 2 ^ 53 := by
      have : D * (1 + 1 / 2 ^ 53) ≤ 2 ^ 53 := by
        have h1 : (1 : ℚ) + 1 / 2 ^ 53 ≤ 2 := by norm_num
        calc D * (1 + 1 / 2 ^ 53) ≤ 2 ^ 53 / 1000 * 2 :=
              mul_le_mul (le_of_lt hDhi) h1 (by norm_num) (by norm_num)
          _ ≤ 2 ^ 53 := by norm_num
      linarith
    obtain ⟨my, ey, hyd, hyv⟩ := div_normal mn md en ed hmn hmd
      (by rw [hYval]; refine le_trans hp1022 ?_
          rw [div_le_div_iff₀ (by positivity) hdpos]
          have h1 : (2 : ℚ) ^ 64 * 1 ≤ 2 ^ 64 * (n : ℚ) :=
            mul_le_mul_of_nonneg_left hnq1 (by positivity)
          have h3 : (2 : ℚ) ^ 53 ≤ 2 ^ 64 * 1 := by norm_num
          linarith)
      (by rw [hYval]; refine lt_of_lt_of_le ?_ hp1023
          rw [div_lt_iff₀ hdpos]
          have h1 : (2 : ℚ) ^ 128 * (1 / 2000) ≤ 2 ^ 128 * d :=
            mul_le_mul_of_nonneg_left hdlo' (by positivity)
          have h3 : (2 : ℚ) ^ 53 ≤ 2 ^ 128 * (1 / 2000) := by norm_num
          linarith)
    rw [hYval] at hyv
    rw [hyd, mathRound_finite]
    set y : ℚ := (my : ℚ) * 2 ^ ey with hy
    have hyrat : (Double.finite false my ey).toRat = y := by
      simp [Double.toRat, hy]
    rw [hyrat]
    refine ⟨⌊y + 1 / 2⌋, rfl, ?_⟩
    -- the quotient in doubles against the exact quotient
    set q : ℚ := (n : ℚ) / D with hq
    have hyq : |y - q| ≤ q / 2 ^ 51 := by
      have h := quotient_error (n : ℚ) D d y (1 / 2 ^ 53) (by positivity) hDpos (by positivity)
        (by norm_num) (by rw [one_div_mul_eq_div]; exact hdv)
        (by rw [one_div_mul_eq_div]; exact hyv)
      have e : 4 * (1 / 2 ^ 53) * ((n : ℚ) / D) = q / 2 ^ 51 := by
        rw [hq]; ring
      rw [e] at h
      exact h
    have hfl1 : (⌊y + 1 / 2⌋ : ℚ) ≤ y + 1 / 2 := Int.floor_le _
    have hfl2 : y + 1 / 2 < (⌊y + 1 / 2⌋ : ℚ) + 1 := Int.lt_floor_add_one _
    obtain ⟨hq1, hq2⟩ := abs_le.mp hyq
    rw [abs_le]
    constructor <;> linarith

/-- Adding two non-negative finite doubles whose exact sum is zero or in the range of the
normal doubles gives a non-negative finite double within a relative error of 2^-53 of the
sum. -/
theorem add_normal (ma mb : Nat) (ea eb : Int)
    (hrange : (ma : ℚ) * 2 ^ ea + (mb : ℚ) * 2 ^ eb = 0 ∨
      ((2 : ℚ) ^ (-1022 : Int) ≤ (ma : ℚ) * 2 ^ ea + (mb : ℚ) * 2 ^ eb ∧
        (ma : ℚ) * 2 ^ ea + (mb : ℚ) * 2 ^ eb < (2 : ℚ) ^ (1023 : Int))) :
    ∃ m e, (Double.finite false ma ea).add (.finite false mb eb) = .finite false m e ∧
      |(m : ℚ) * (2 : ℚ) ^ e - ((ma : ℚ) * 2 ^ ea + (mb : ℚ) * 2 ^ eb)| ≤
        ((ma : ℚ) * 2 ^ ea + (mb : ℚ) * 2 ^ eb) / 2 ^ 53 := by
  have h2e : ∀ z : Int, (0 : ℚ) < (2 : ℚ) ^ z := fun z => zpow_pos (by norm_num) z
  -- the two mantissas at the common exponent
  have hshift : ∀ (m : Nat) (x e : Int), e ≤ x →
      ((m * 2 ^ (x - e).toNat : Nat) : ℚ) * (2 : ℚ) ^ e = (m : ℚ) * 2 ^ x := by
    intro m x e hle
    have h1 : (((x - e).toNat : Nat) : Int) = x - e := Int.toNat_of_nonneg (by omega)
    push_cast
    rw [mul_assoc, ← zpow_natCast, h1, ← zpow_add₀ (by norm_num)]
    congr 2
    ring
  have hsum : (((ma * 2 ^ (ea - min ea eb).toNat + mb * 2 ^ (eb - min ea eb).toNat : Nat) : ℚ)) *
      (2 : ℚ) ^ (min ea eb) = (ma : ℚ) * 2 ^ ea + (mb : ℚ) * 2 ^ eb := by
    rw [Nat.cast_add, add_mul, hshift ma ea _ (min_le_left _ _),
      hshift mb eb _ (min_le_right _ _)]
  have hadd : (Double.finite false ma ea).add (.finite false mb eb) =
      if ma * 2 ^ (ea - min ea eb).toNat + mb * 2 ^ (eb - min ea eb).toNat = 0 then
        .finite false 0 0
      else Double.round false
        ((ma * 2 ^ (ea - min ea eb).toNat + mb * 2 ^ (eb - min ea eb).toNat) *
          2 ^ (min ea eb).toNat) (2 ^ (-(min ea eb)).toNat) := by
    unfold Double.add
    simp only [Bool.false_eq_true, if_false, Bool.and_self]
    have hcast : ((ma * 2 ^ (ea - min ea eb).toNat : Nat) : Int) +
        ((mb * 2 ^ (eb - min ea eb).toNat : Nat) : Int) =
        ((ma * 2 ^ (ea - min ea eb).toNat + mb * 2 ^ (eb - min ea eb).toNat : Nat) : Int) := by
      push_cast; ring
    rw [hcast]
    by_cases h0 : ma * 2 ^ (ea - min ea eb).toNat + mb * 2 ^ (eb - min ea eb).toNat = 0
    · rw [if_pos h0, if_pos (by exact_mod_cast h0)]
    · rw [if_neg h0, if_neg (by exact_mod_cast h0)]
      have hneg : decide ((((ma * 2 ^ (ea - min ea eb).toNat +
          mb * 2 ^ (eb - min ea eb).toNat : Nat) : Int)) < 0) = false := by
        simp only [decide_eq_false_iff_not, not_lt]
        exact Int.natCast_nonneg _
      rw [hneg, Int.natAbs_ofNat]
  rw [hadd]
  by_cases h0 : ma * 2 ^ (ea - min ea eb).toNat + mb * 2 ^ (eb - min ea eb).toNat = 0
  · rw [if_pos h0]
    rw [h0] at hsum
    refine ⟨0, 0, rfl, ?_⟩
    rw [← hsum]
    simp
  · rw [if_neg h0]
    have hpos : 0 < ma * 2 ^ (ea - min ea eb).toNat + mb * 2 ^ (eb - min ea eb).toNat :=
      Nat.pos_of_ne_zero h0
    have hratio : ((((ma * 2 ^ (ea - min ea eb).toNat + mb * 2 ^ (eb - min ea eb).toNat) *
          2 ^ (min ea eb).toNat : Nat) : ℚ)) / (((2 ^ (-(min ea eb)).toNat : Nat) : ℚ)) =
        (ma : ℚ) * 2 ^ ea + (mb : ℚ) * 2 ^ eb := by
      rw [← hsum, two_zpow_split (min ea eb)]
      push_cast
      rw [mul_div_assoc]
    have hne : (ma : ℚ) * 2 ^ ea + (mb : ℚ) * 2 ^ eb ≠ 0 := by
      rw [← hsum]
      have : (0 : ℚ) < ((ma * 2 ^ (ea - min ea eb).toNat +
          mb * 2 ^ (eb - min ea eb).toNat : Nat) : ℚ) := by exact_mod_cast hpos
      exact ne_of_gt (mul_pos this (h2e _))
    rcases hrange with h | ⟨hlo, hhi⟩
    · exact absurd h hne
    · rw [← hratio] at hlo hhi ⊢
      exact round_normal false _ _ (by positivity) (by positivity) hlo hhi

theorem toRat_finite_false (m : Nat) (e : Int) :
    (Double.finite false m e).toRat = (m : ℚ) * 2 ^ e := by
  simp [Double.toRat]

theorem zpow_range_facts :
    (2 : ℚ) ^ (-1022 : Int) ≤ (2 : ℚ) ^ (-1000 : Int) / 64
    ∧ 2 ^ 16 * (2 : ℚ) ^ (1000 : Int) < (2 : ℚ) ^ (1023 : Int)
    ∧ (2 : ℚ) ^ (-1000 : Int) * (2 : ℚ) ^ (1000 : Int) = 1
    ∧ (0 : ℚ) < (2 : ℚ) ^ (-1000 : Int) ∧ (0 : ℚ) < (2 : ℚ) ^ (1000 : Int)
    ∧ (0 : ℚ) < (2 : ℚ) ^ (-1022 : Int) := by
  have h64 : ((64 : ℚ)) = (2 : ℚ) ^ (6 : Int) := by norm_num
  have h16 : ((2 : ℚ) ^ 16) = (2 : ℚ) ^ (16 : Int) := by norm_cast
  refine ⟨?_, ?_, ?_, zpow_pos (by norm_num) _, zpow_pos (by norm_num) _,
    zpow_pos (by norm_num) _⟩
  · rw [h64, ← zpow_sub₀ (by norm_num)]
    exact zpow_le_zpow_right₀ (by norm_num) (by norm_num)
  · rw [h16, ← zpow_add₀ (by norm_num)]
    exact zpow_lt_zpow_right₀ (by norm_num) (by norm_num)
  · rw [← zpow_add₀ (by norm_num)]
    norm_num

/-- Adding up at most 20 intervals from the left in doubles gives a finite double within a
relative error of 2 * 20 / 2^53 of their exact sum. -/
theorem foldl_add_close :
    ∀ (l : List Double) (k m : Nat) (e : Int) (T : ℚ),
      (∀ w ∈ l, w.IsInterval) → k + l.length ≤ 20 →
      |(m : ℚ) * 2 ^ e - T| ≤ 2 * (k : ℚ) / 2 ^ 53 * T →
      (T = 0 ∨ (2 : ℚ) ^ (-1000 : Int) ≤ T) → T ≤ (k : ℚ) * (2 : ℚ) ^ (1000 : Int) →
      ∃ m' e', l.foldl Double.add (.finite false m e) = .finite false m' e' ∧
        |(m' : ℚ) * 2 ^ e' - (T + (l.map Double.toRat).sum)| ≤
          2 * ((k + l.length : Nat) : ℚ) / 2 ^ 53 * (T + (l.map Double.toRat).sum) ∧
        (T + (l.map Double.toRat).sum = 0 ∨
          (2 : ℚ) ^ (-1000 : Int) ≤ T + (l.map Double.toRat).sum) ∧
        T + (l.map Double.toRat).sum ≤ ((k + l.length : Nat) : ℚ) * (2 : ℚ) ^ (1000 : Int) := by
  obtain ⟨hf1, hf2, hf3, hbpos, hBpos, hlopos⟩ := zpow_range_facts
  intro l
  induction l with
  | nil =>
    intro k m e T _ _ hclose hT0 hTB
    exact ⟨m, e, rfl, by simpa using hclose, by simpa using hT0, by simpa using hTB⟩
  | cons w rest ih =>
    intro k m e T hall hk hclose hT0 hTB
    obtain ⟨mw, ew, rfl, hw⟩ := hall w (List.mem_cons_self _ _)
    have hrest : ∀ x ∈ rest, x.IsInterval := fun x hx => hall x (List.mem_cons_of_mem _ hx)
    have hk' : k + 1 + rest.length ≤ 20 := by simp only [List.length_cons] at hk; omega
    have hk19 : (k : ℚ) ≤ 19 := by
      have : k ≤ 19 := by simp only [List.length_cons] at hk; omega
      exact_mod_cast this
    have hk0 : (0 : ℚ) ≤ k := by positivity
    set v : ℚ := (m : ℚ) * 2 ^ e with hv
    set vw : ℚ := (mw : ℚ) * 2 ^ ew with hvw
    have hv0 : 0 ≤ v := by positivity
    have hvw0 : 0 ≤ vw := by positivity
    have hTnn : 0 ≤ T := by
      rcases hT0 with h | h
      · rw [h]
      · linarith
    -- the relative error so far, as one atom
    set X : ℚ := 2 * (k : ℚ) / 2 ^ 53 * T with hX
    have hX0 : 0 ≤ X := by positivity
    have hXT : X ≤ T / 2 := by
      have h1 : 2 * (k : ℚ) / 2 ^ 53 ≤ 1 / 2 := by
        rw [div_le_iff₀ (by positivity)]
        have : (2 : ℚ) * 19 ≤ 1 / 2 * 2 ^ 53 := by norm_num
        linarith
      have := mul_le_mul_of_nonneg_right h1 hTnn
      rw [hX]; linarith
    obtain ⟨hc1, hc2⟩ := abs_le.mp hclose
    have hvw_cases : vw = 0 ∨ ((2 : ℚ) ^ (-1000 : Int) ≤ vw ∧ vw ≤ (2 : ℚ) ^ (1000 : Int)) := by
      rcases hw with h | h
      · left; rw [hvw, h]; simp
      · right; exact h
    have hvwB : vw ≤ (2 : ℚ) ^ (1000 : Int) := by
      rcases hvw_cases with h | h
      · rw [h]; exact le_of_lt hBpos
      · exact h.2
    have hkB : (k : ℚ) * (2 : ℚ) ^ (1000 : Int) ≤ 19 * (2 : ℚ) ^ (1000 : Int) :=
      mul_le_mul_of_nonneg_right hk19 (le_of_lt hBpos)
    have hrange : v + vw = 0 ∨ ((2 : ℚ) ^ (-1022 : Int) ≤ v + vw ∧
        v + vw < (2 : ℚ) ^ (1023 : Int)) := by
      by_cases hs : v + vw = 0
      · exact Or.inl hs
      · right
        clear ih hall hrest
        generalize (2 : ℚ) ^ (-1000 : Int) = b at *
        generalize (2 : ℚ) ^ (1000 : Int) = B at *
        generalize (2 : ℚ) ^ (-1022 : Int) = lo at *
        generalize (2 : ℚ) ^ (1023 : Int) = hi at *
        constructor
        · rcases hvw_cases with h | h
          · have hvpos : 0 < v := by
              rcases lt_or_eq_of_le hv0 with h' | h'
              · exact h'
              · exfalso; apply hs; rw [← h', h]; simp
            have hTpos : 0 < T := by
              rcases lt_or_eq_of_le hTnn with h' | h'
              · exact h'
              · exfalso; rw [← h'] at hXT hc1 hc2; linarith
            rcases hT0 with h' | h'
            · linarith
            · linarith
          · linarith [h.1]
        · linarith
    obtain ⟨m1, e1, hadd, hclose1⟩ := add_normal m mw e ew hrange
    rw [← hv, ← hvw] at hclose1
    obtain ⟨hd1, hd2⟩ := abs_le.mp hclose1
    have hY0 : 0 ≤ 2 * (k : ℚ) / 2 ^ 53 * vw := by positivity
    have hexp : 2 * ((k + 1 : Nat) : ℚ) / 2 ^ 53 * (T + vw) =
        X + 2 * (k : ℚ) / 2 ^ 53 * vw + 2 / 2 ^ 53 * T + 2 / 2 ^ 53 * vw := by
      rw [hX]; push_cast; ring
    have hus : (v + vw) / 2 ^ 53 ≤ 2 / 2 ^ 53 * T + 1 / 2 ^ 53 * vw := by
      have : v ≤ 2 * T := by linarith
      have h53 : (0 : ℚ) < 2 ^ 53 := by positivity
      rw [div_le_iff₀ h53]
      have e1 : (2 / 2 ^ 53 * T + 1 / 2 ^ 53 * vw) * 2 ^ 53 = 2 * T + vw := by
        field_simp
      rw [e1]; linarith
    have hvw53 : 1 / 2 ^ 53 * vw ≤ 2 / 2 ^ 53 * vw := by
      apply mul_le_mul_of_nonneg_right _ hvw0
      norm_num
    have hstep : |(m1 : ℚ) * 2 ^ e1 - (T + vw)| ≤ 2 * ((k + 1 : Nat) : ℚ) / 2 ^ 53 * (T + vw) := by
      rw [hexp, abs_le]
      constructor <;> linarith
    have hT0' : T + vw = 0 ∨ (2 : ℚ) ^ (-1000 : Int) ≤ T + vw := by
      rcases hvw_cases with h | h
      · rw [h, add_zero]; exact hT0
      · right; linarith [h.1]
    have hTB' : T + vw ≤ ((k + 1 : Nat) : ℚ) * (2 : ℚ) ^ (1000 : Int) := by
      push_cast; linarith
    obtain ⟨m', e', hfold, hfin, hfin0, hfinB⟩ := ih (k + 1) m1 e1 (T + vw) hrest hk' hstep
      hT0' hTB'
    have hlist : T + (List.map Double.toRat (Double.finite false mw ew :: rest)).sum =
        T + vw + (List.map Double.toRat rest).sum := by
      rw [List.map_cons, List.sum_cons, toRat_finite_false]; ring
    have hcount : k + (Double.finite false mw ew :: rest).length = k + 1 + rest.length := by
      simp only [List.length_cons]; omega
    rw [hlist, hcount]
    refine ⟨m', e', ?_, hfin, hfin0, hfinB⟩
    rw [List.foldl_cons, hadd]
    exact hfold

theorem mean_error (T vS L a u ε : ℚ) (hT : 0 ≤ T) (hL : 0 < L) (hu : 0 ≤ u) (hε : ε ≤ 1)
    (hS : |vS - T| ≤ ε * T) (ha : |a - vS / L| ≤ u * (vS / L)) :
    |a - T / L| ≤ (ε + 2 * u) * (T / L) := by
  have hM0 : 0 ≤ T / L := by positivity
  have hw : |vS / L - T / L| ≤ ε * (T / L) := by
    rw [← sub_div, abs_div, abs_of_pos hL, ← mul_div_assoc]
    exact div_le_div_of_nonneg_right hS (le_of_lt hL)
  obtain ⟨hw1, hw2⟩ := abs_le.mp hw
  obtain ⟨ha1, ha2⟩ := abs_le.mp ha
  have hεM : ε * (T / L) ≤ T / L := by
    have := mul_le_mul_of_nonneg_right hε hM0
    linarith
  have huw : u * (vS / L) ≤ u * (2 * (T / L)) :=
    mul_le_mul_of_nonneg_left (by linarith) hu
  rw [abs_le]
  constructor <;> nlinarith

/-- The value that `calculatedFps` returns for a window of at most 20 intervals with a
positive sum is an integer within 1/2 + q / 2^45 of q = 1000 / mean, the mean being the
exact sum of the window divided by its length. -/
theorem calculatedFps_close (frames : List Double) (hlen : frames.length ≤ 20)
    (hrange : ∀ w ∈ frames, w.IsInterval) (hsum : 0 < (frames.map Double.toRat).sum) :
    ∃ k : Int, calculatedFps frames = .finite k ∧
      |(k : ℚ) - 1000 / ((frames.map Double.toRat).sum / frames.length)| ≤
        1 / 2 + 1000 / ((frames.map Double.toRat).sum / frames.length) / 2 ^ 45 := by
  obtain ⟨hf1, hf2, hf3, hbpos, hBpos, hlopos⟩ := zpow_range_facts
  have hzero : Double.ofInt 0 = .finite false 0 0 := rfl
  obtain ⟨mS, eS, hfold, hS, hS0, hSB⟩ := foldl_add_close frames 0 0 0 0 hrange (by omega)
    (by simp) (Or.inl rfl) (by simp)
  simp only [zero_add] at hS hS0 hSB
  set T : ℚ := (frames.map Double.toRat).sum with hT
  have hLpos : 0 < frames.length := by
    rcases Nat.eq_zero_or_pos frames.length with h | h
    · rw [List.length_eq_zero] at h
      rw [hT, h] at hsum
      simp at hsum
    · exact h
  obtain ⟨mL, eL, hLd, hLv⟩ := ofInt_exact frames.length
    (lt_of_le_of_lt hlen (by norm_num))
  obtain ⟨mK, eK, hKd, hKv⟩ := ofInt_exact 1000 (by norm_num)
  simp only [Nat.cast_ofNat] at hKd hKv
  set L : ℚ := (frames.length : ℚ) with hL
  have hL1 : 1 ≤ L := by rw [hL]; exact_mod_cast hLpos
  have hL20 : L ≤ 20 := by rw [hL]; exact_mod_cast hlen
  set vS : ℚ := (mS : ℚ) * 2 ^ eS with hvS
  have h2e : ∀ z : Int, (0 : ℚ) < (2 : ℚ) ^ z := fun z => zpow_pos (by norm_num) z
  -- the error of the sum, as a multiple of T
  have hε : 2 * L / 2 ^ 53 ≤ 40 / 2 ^ 53 := by
    apply div_le_div_of_nonneg_right _ (by positivity)
    linarith
  have hST : |vS - T| ≤ 40 / 2 ^ 53 * T :=
    le_trans hS (mul_le_mul_of_nonneg_right hε (le_of_lt hsum))
  obtain ⟨hS1, hS2⟩ := abs_le.mp hST
  have hvSlo : T / 2 ≤ vS := by
    have : 40 / 2 ^ 53 * T ≤ T / 2 := by
      have h1 : (40 : ℚ) / 2 ^ 53 ≤ 1 / 2 := by norm_num
      have := mul_le_mul_of_nonneg_right h1 (le_of_lt hsum)
      linarith
    linarith
  have hvShi : vS ≤ 2 * T := by
    have : 40 / 2 ^ 53 * T ≤ T := by
      have h1 : (40 : ℚ) / 2 ^ 53 ≤ 1 := by norm_num
      have := mul_le_mul_of_nonneg_right h1 (le_of_lt hsum)
      linarith
    linarith
  have hvSpos : 0 < vS := by linarith
  have hmS : 0 < mS := by
    rcases Nat.eq_zero_or_pos mS with h | h
    · rw [hvS, h] at hvSpos; simp at hvSpos
    · exact h
  have hmL : 0 < mL := by
    rcases Nat.eq_zero_or_pos mL with h | h
    · rw [h] at hLv; simp at hLv; linarith
    · exact h
  have hmK : 0 < mK := by
    rcases Nat.eq_zero_or_pos mK with h | h
    · rw [h] at hKv; simp at hKv
    · exact h
  have hLB : L * (2 : ℚ) ^ (1000 : Int) ≤ 20 * (2 : ℚ) ^ (1000 : Int) :=
    mul_le_mul_of_nonneg_right hL20 (le_of_lt hBpos)
  -- the first division: the mean
  have hratio1 : ((mS : ℚ) * 2 ^ eS) / ((mL : ℚ) * 2 ^ eL) = vS / L := by rw [hLv]
  have hrange1 : (2 : ℚ) ^ (-1022 : Int) ≤ vS / L ∧ vS / L < (2 : ℚ) ^ (1023 : Int) := by
    clear hfold hrange hLd hKd
    generalize (2 : ℚ) ^ (-1000 : Int) = b at *
    generalize (2 : ℚ) ^ (1000 : Int) = B at *
    generalize (2 : ℚ) ^ (-1022 : Int) = lo at *
    generalize (2 : ℚ) ^ (1023 : Int) = hi at *
    have hTb : b ≤ T := by
      rcases hS0 with h | h
      · linarith only [h, hsum]
      · exact h
    have hLpos' : 0 < L := by linarith only [hL1]
    have hhi0 : 0 < hi := by
      have : 0 < 2 ^ 16 * B := by positivity
      linarith only [this, hf2]
    constructor
    · rw [le_div_iff₀ hLpos']
      have := mul_le_mul_of_nonneg_left hL20 (le_of_lt hlopos)
      linarith only [this, hf1, hTb, hvSlo, hbpos]
    · rw [div_lt_iff₀ hLpos']
      have := mul_le_mul_of_nonneg_left hL1 (le_of_lt hhi0)
      have h16 : (40 : ℚ) * B ≤ 2 ^ 16 * B :=
        mul_le_mul_of_nonneg_right (by norm_num) (le_of_lt hBpos)
      linarith only [this, h16, hf2, hvShi, hSB, hLB]
  obtain ⟨ma, ea, had, hav⟩ := div_normal mS mL eS eL hmS hmL
    (by rw [hratio1]; exact hrange1.1) (by rw [hratio1]; exact hrange1.2)
  rw [hratio1] at hav
  set a : ℚ := (ma : ℚ) * 2 ^ ea with ha
  set M : ℚ := T / L with hM
  have hMpos : 0 < M := by positivity
  have haM : |a - M| ≤ 42 / 2 ^ 53 * M := by
    have h := mean_error T vS L a (1 / 2 ^ 53) (40 / 2 ^ 53) (le_of_lt hsum) (by linarith)
      (by positivity) (by norm_num) hST (by rw [one_div_mul_eq_div]; exact hav)
    have e : (40 / 2 ^ 53 + 2 * (1 / 2 ^ 53)) * (T / L) = 42 / 2 ^ 53 * M := by
      rw [hM]; ring
    rw [e] at h
    exact h
  obtain ⟨haM1, haM2⟩ := abs_le.mp haM
  have h42 : 42 / 2 ^ 53 * M ≤ M / 2 := by
    have h1 : (42 : ℚ) / 2 ^ 53 ≤ 1 / 2 := by norm_num
    have := mul_le_mul_of_nonneg_right h1 (le_of_lt hMpos)
    linarith
  have halo : M / 2 ≤ a := by linarith
  have hahi : a ≤ 2 * M := by linarith
  have hapos : 0 < a := by linarith
  have hma : 0 < ma := by
    rcases Nat.eq_zero_or_pos ma with h | h
    · rw [ha, h] at hapos; simp at hapos
    · exact h
  -- the second division: 1000 / mean
  have hratio2 : ((mK : ℚ) * 2 ^ eK) / ((ma : ℚ) * 2 ^ ea) = 1000 / a := by rw [hKv]
  have hMlo_hi : (2 : ℚ) ^ (-1000 : Int) / 20 ≤ M ∧ M ≤ 20 * (2 : ℚ) ^ (1000 : Int) := by
    clear hfold hrange hLd hKd had
    generalize (2 : ℚ) ^ (-1000 : Int) = b at *
    generalize (2 : ℚ) ^ (1000 : Int) = B at *
    have hTb : b ≤ T := by
      rcases hS0 with h | h
      · linarith only [h, hsum]
      · exact h
    have hLpos' : 0 < L := by linarith only [hL1]
    constructor
    · rw [hM, div_le_div_iff₀ (by norm_num) hLpos']
      have := mul_le_mul_of_nonneg_left hL20 (le_of_lt hbpos)
      linarith only [this, hTb]
    · rw [hM, div_le_iff₀ hLpos']
      have h1 : 20 * B * 1 ≤ 20 * B * L :=
        mul_le_mul_of_nonneg_left hL1 (by positivity)
      linarith only [h1, hSB, hLB]
  have hrange2 : (2 : ℚ) ^ (-1022 : Int) ≤ 1000 / a ∧ 1000 / a < (2 : ℚ) ^ (1023 : Int) := by
    clear hfold hrange hLd hKd had
    obtain ⟨hMlo, hMhi⟩ := hMlo_hi
    generalize (2 : ℚ) ^ (-1000 : Int) = b at *
    generalize (2 : ℚ) ^ (1000 : Int) = B at *
    generalize (2 : ℚ) ^ (-1022 : Int) = lo at *
    generalize (2 : ℚ) ^ (1023 : Int) = hi at *
    have ha40 : a ≤ 40 * B := by linarith only [hahi, hMhi]
    have hab : b / 40 ≤ a := by linarith only [halo, hMlo]
    have hhi0 : 0 < hi := by
      have : 0 < 2 ^ 16 * B := by positivity
      linarith only [this, hf2]
    constructor
    · rw [le_div_iff₀ hapos]
      have h1 : lo * a ≤ lo * (40 * B) := mul_le_mul_of_nonneg_left ha40 (le_of_lt hlopos)
      have h2 : lo * B ≤ b / 64 * B := mul_le_mul_of_nonneg_right hf1 (le_of_lt hBpos)
      have h3 : b / 64 * B = 1 / 64 := by rw [div_mul_eq_mul_div, hf3]
      have h4 : lo * (40 * B) = 40 * (lo * B) := by ring
      linarith only [h1, h2, h3, h4]
    · rw [div_lt_iff₀ hapos]
      have h1 : hi * (b / 40) ≤ hi * a := mul_le_mul_of_nonneg_left hab (le_of_lt hhi0)
      have h2 : 2 ^ 16 * B * (b / 40) < hi * (b / 40) :=
        mul_lt_mul_of_pos_right hf2 (by positivity)
      have h3 : 2 ^ 16 * B * (b / 40) = 2 ^ 16 / 40 := by
        have : 2 ^ 16 * B * (b / 40) = 2 ^ 16 / 40 * (b * B) := by ring
        rw [this, hf3, mul_one]
      have h4 : (1000 : ℚ) < 2 ^ 16 / 40 := by norm_num
      linarith only [h1, h2, h3, h4]
  obtain ⟨my, ey, hyd, hyv⟩ := div_normal mK ma eK ea hmK hma
    (by rw [hratio2]; exact hrange2.1) (by rw [hratio2]; exact hrange2.2)
  rw [hratio2] at hyv
  set y : ℚ := (my : ℚ) * 2 ^ ey with hy
  have hyq : |y - 1000 / M| ≤ 1000 / M / 2 ^ 45 := by
    have hq0 : (0 : ℚ) ≤ 1000 / a := by positivity
    have h := quotient_error 1000 M a y (42 / 2 ^ 53) (by norm_num) hMpos (by positivity)
      (by norm_num) haM
      (le_trans hyv (by
        rw [div_eq_mul_one_div, mul_comm]
        exact mul_le_mul_of_nonneg_right (by norm_num) hq0))
    have hq1 : (0 : ℚ) ≤ 1000 / M := by positivity
    refine le_trans h ?_
    rw [div_eq_mul_one_div (1000 / M), mul_comm (1000 / M)]
    exact mul_le_mul_of_nonneg_right (by norm_num) hq1
  refine ⟨⌊y + 1 / 2⌋, ?_, ?_⟩
  · unfold calculatedFps
    simp only []
    rw [hzero, hfold, hLd, had, hKd, hyd, mathRound_finite, toRat_finite_false]
  · have hfl1 : (⌊y + 1 / 2⌋ : ℚ) ≤ y + 1 / 2 := Int.floor_le _
    have hfl2 : y + 1 / 2 < (⌊y + 1 / 2⌋ : ℚ) + 1 := Int.lt_floor_add_one _
    obtain ⟨hq1, hq2⟩ := abs_le.mp hyq
    rw [abs_le]
    constructor <;> linarith

theorem toRat_ofInt (n : Nat) (hn : n < 2 ^ 53) : (Double.ofInt (n : Int)).toRat = n := by
  obtain ⟨m, e, hd, hv⟩ := ofInt_exact n hn
  rw [hd, toRat_finite_false, hv]

theorem ofInt_isInterval (n : Nat) (hn : n < 2 ^ 53) : (Double.ofInt (n : Int)).IsInterval := by
  obtain ⟨m, e, hd, hv⟩ := ofInt_exact n hn
  refine ⟨m, e, hd, ?_⟩
  by_cases h0 : m = 0
  · exact Or.inl h0
  · right
    have hn0 : n ≠ 0 := by
      rintro rfl
      simp only [Nat.cast_zero, mul_eq_zero, Nat.cast_eq_zero] at hv
      rcases hv with h | h
      · exact h0 h
      · exact absurd h (ne_of_gt (zpow_pos (by norm_num) e))
    have h1 : (1 : ℚ) ≤ n := by exact_mod_cast Nat.pos_of_ne_zero hn0
    have h2 : (n : ℚ) ≤ 2 ^ 53 := by exact_mod_cast le_of_lt hn
    rw [hv]
    constructor
    · refine le_trans ?_ h1
      rw [show (1 : ℚ) = (2 : ℚ) ^ (0 : Int) by norm_num]
      exact zpow_le_zpow_right₀ (by norm_num) (by norm_num)
    · refine le_trans h2 ?_
      rw [show (2 : ℚ) ^ 53 = (2 : ℚ) ^ (53 : Int) by norm_cast]
      exact zpow_le_zpow_right₀ (by norm_num) (by norm_num)

/-- Subtracting a non-negative finite double from one that is not smaller, the exact
difference being zero or in the range of the normal doubles, gives a non-negative finite
double within a relative error of 2^-53 of the difference. -/
theorem sub_normal (ma mb : Nat) (ea eb : Int)
    (hle : (mb : ℚ) * 2 ^ eb ≤ (ma : ℚ) * 2 ^ ea)
    (hrange : (ma : ℚ) * 2 ^ ea - (mb : ℚ) * 2 ^ eb = 0 ∨
      ((2 : ℚ) ^ (-1022 : Int) ≤ (ma : ℚ) * 2 ^ ea - (mb : ℚ) * 2 ^ eb ∧
        (ma : ℚ) * 2 ^ ea - (mb : ℚ) * 2 ^ eb < (2 : ℚ) ^ (1023 : Int))) :
    ∃ m e, (Double.finite false ma ea).sub (.finite false mb eb) = .finite false m e ∧
      (m = 0 ↔ (ma : ℚ) * 2 ^ ea - (mb : ℚ) * 2 ^ eb = 0) ∧
      |(m : ℚ) * (2 : ℚ) ^ e - ((ma : ℚ) * 2 ^ ea - (mb : ℚ) * 2 ^ eb)| ≤
        ((ma : ℚ) * 2 ^ ea - (mb : ℚ) * 2 ^ eb) / 2 ^ 53 := by
  have h2e : ∀ z : Int, (0 : ℚ) < (2 : ℚ) ^ z := fun z => zpow_pos (by norm_num) z
  have hshift : ∀ (m : Nat) (x e : Int), e ≤ x →
      ((m * 2 ^ (x - e).toNat : Nat) : ℚ) * (2 : ℚ) ^ e = (m : ℚ) * 2 ^ x := by
    intro m x e hle
    have h1 : (((x - e).toNat : Nat) : Int) = x - e := Int.toNat_of_nonneg (by omega)
    push_cast
    rw [mul_assoc, ← zpow_natCast, h1, ← zpow_add₀ (by norm_num)]
    congr 2
    ring
  set pa : Nat := ma * 2 ^ (ea - min ea eb).toNat with hpa
  set pb : Nat := mb * 2 ^ (eb - min ea eb).toNat with hpb
  have hva : (pa : ℚ) * (2 : ℚ) ^ (min ea eb) = (ma : ℚ) * 2 ^ ea :=
    hshift ma ea _ (min_le_left _ _)
  have hvb : (pb : ℚ) * (2 : ℚ) ^ (min ea eb) = (mb : ℚ) * 2 ^ eb :=
    hshift mb eb _ (min_le_right _ _)
  have hpab : pb ≤ pa := by
    rw [← hva, ← hvb] at hle
    have := le_of_mul_le_mul_right hle (h2e (min ea eb))
    exact_mod_cast this
  have hdiff : ((pa - pb : Nat) : ℚ) * (2 : ℚ) ^ (min ea eb) =
      (ma : ℚ) * 2 ^ ea - (mb : ℚ) * 2 ^ eb := by
    rw [Nat.cast_sub hpab, sub_mul, hva, hvb]
  have hsub : (Double.finite false ma ea).sub (.finite false mb eb) =
      if pa - pb = 0 then .finite false 0 0
      else Double.round false ((pa - pb) * 2 ^ (min ea eb).toNat)
        (2 ^ (-(min ea eb)).toNat) := by
    unfold Double.sub Double.neg Double.add
    simp only [Bool.not_false, Bool.false_eq_true, if_false, if_true, Bool.false_and]
    have hcast : ((pa : Nat) : Int) + -((pb : Nat) : Int) = ((pa - pb : Nat) : Int) := by
      rw [Nat.cast_sub hpab]; ring
    rw [← hpa, ← hpb, hcast]
    by_cases h0 : pa - pb = 0
    · rw [if_pos h0, if_pos (by exact_mod_cast h0)]
    · rw [if_neg h0, if_neg (by exact_mod_cast h0)]
      have hneg : decide ((((pa - pb : Nat) : Int)) < 0) = false := by
        simp only [decide_eq_false_iff_not, not_lt]
        exact Int.natCast_nonneg _
      rw [hneg, Int.natAbs_ofNat]
  rw [hsub]
  by_cases h0 : pa - pb = 0
  · rw [if_pos h0]
    rw [h0] at hdiff
    refine ⟨0, 0, rfl, ?_, ?_⟩
    · rw [← hdiff]; simp
    · rw [← hdiff]; simp
  · rw [if_neg h0]
    have hpos : 0 < pa - pb := Nat.pos_of_ne_zero h0
    have hratio : ((((pa - pb) * 2 ^ (min ea eb).toNat : Nat) : ℚ)) /
        (((2 ^ (-(min ea eb)).toNat : Nat) : ℚ)) =
        (ma : ℚ) * 2 ^ ea - (mb : ℚ) * 2 ^ eb := by
      rw [← hdiff, two_zpow_split (min ea eb)]
      push_cast
      rw [mul_div_assoc]
    have hdpos : 0 < (ma : ℚ) * 2 ^ ea - (mb : ℚ) * 2 ^ eb := by
      rw [← hdiff]
      have : (0 : ℚ) < ((pa - pb : Nat) : ℚ) := by exact_mod_cast hpos
      exact mul_pos this (h2e _)
    rcases hrange with h | ⟨hlo, hhi⟩
    · exact absurd h (ne_of_gt hdpos)
    · have hlo' := hlo
      rw [← hratio] at hlo hhi
      obtain ⟨m, e, hr, hclose⟩ := round_normal false _ _ (by positivity) (by positivity)
        hlo hhi
      rw [hratio] at hclose
      refine ⟨m, e, hr, ?_, hclose⟩
      constructor
      · intro hm
        exfalso
        rw [hm] at hclose
        simp only [Nat.cast_zero, zero_mul, zero_sub, abs_neg, abs_of_pos hdpos] at hclose
        have : ((ma : ℚ) * 2 ^ ea - (mb : ℚ) * 2 ^ eb) / 2 ^ 53 <
            (ma : ℚ) * 2 ^ ea - (mb : ℚ) * 2 ^ eb := by
          rw [div_lt_iff₀ (by positivity)]
          have : (1 : ℚ) < 2 ^ 53 := by norm_num
          nlinarith
        linarith
      · intro h
        exact absurd h (ne_of_gt hdpos)

/-- The double of a reading of `k` microseconds, for `0 < k < 2^51`. -/
theorem ofMicros_close (k : Nat) (hk : 0 < k) (hk51 : k < 2 ^ 51) :
    ∃ m e, Double.ofMicros (k : Int) = .finite false m e ∧
      |(m : ℚ) * (2 : ℚ) ^ e - (k : ℚ) / 1000| ≤ (k : ℚ) / 1000 / 2 ^ 53 := by
  have hneg : decide ((k : Int) < 0) = false := by simp
  have hk1 : (1 : ℚ) ≤ k := by exact_mod_cast hk
  have hk2 : (k : ℚ) < 2 ^ 51 := by exact_mod_cast hk51
  unfold Double.ofMicros
  rw [hneg, Int.natAbs_ofNat]
  have h := round_normal false k 1000 hk (by norm_num)
    (by
      have h1 : (2 : ℚ) ^ (-1022 : Int) ≤ (2 : ℚ) ^ (-10 : Int) :=
        zpow_le_zpow_right₀ (by norm_num) (by norm_num)
      have h2 : (2 : ℚ) ^ (-10 : Int) = 1 / 1024 := by norm_num
      rw [h2] at h1
      refine le_trans h1 ?_
      push_cast
      rw [div_le_div_iff₀ (by norm_num) (by norm_num)]
      linarith)
    (by
      have h1 : (2 : ℚ) ^ (51 : Int) ≤ (2 : ℚ) ^ (1023 : Int) :=
        zpow_le_zpow_right₀ (by norm_num) (by norm_num)
      have h2 : (2 : ℚ) ^ (51 : Int) = 2 ^ 51 := by norm_cast
      rw [h2] at h1
      refine lt_of_lt_of_le ?_ h1
      push_cast
      rw [div_lt_iff₀ (by norm_num)]
      linarith)
  simpa using h

/-! ## The frame rate sent to the server -/

theorem fpsOf_append (l₁ l₂ : List Effect) : fpsOf (l₁ ++ l₂) = fpsOf l₁ ++ fpsOf l₂ := by
  induction l₁ with
  | nil => rfl
  | cons e l ih => cases e <;> simp [fpsOf, ih]

theorem uploadLoop_fps (env : EncodeEnv) (frames : List DataUrl) (n : Nat) (fps : JsNumber)
    (tb : Nat) :
    ∀ (fuel batchStart currentBatch : Nat) (log : List Effect) (r : TryResult),
      uploadLoop env frames n fps tb fuel batchStart currentBatch log = some r →
      ∃ extra, r.log = log ++ extra ∧ ∀ x ∈ fpsOf extra, x = fps := by
  intro fuel
  induction fuel with
  | zero =>
    intro batchStart currentBatch log r h
    simp [uploadLoop] at h
  | succ fuel ih =>
    intro batchStart currentBatch log r h
    unfold uploadLoop at h
    by_cases hb : batchStart < n
    · simp only [hb, if_true] at h
      cases hparts : batchParts frames batchStart (min (batchStart + batchSize) n - batchStart) with
      | none =>
        simp only [hparts, Option.some.injEq] at h
        subst h
        exact ⟨[], by simp, by simp [fpsOf]⟩
      | some parts =>
        simp only [hparts] at h
        cases hup : env.upload (currentBatch + 1) with
        | rejected message =>
          simp only [hup, Option.some.injEq] at h
          subst h
          exact ⟨[Effect.uploadFrames fps env.timestamp (currentBatch + 1) tb parts], rfl,
            by simp [fpsOf]⟩
        | resolved resp =>
          simp only [hup] at h
          obtain ⟨extra, hlog, hfps⟩ := ih _ _ _ _ h
          refine ⟨Effect.uploadFrames fps env.timestamp (currentBatch + 1) tb parts :: extra,
            by rw [hlog]; simp, ?_⟩
          intro x hx
          simp only [fpsOf, List.mem_cons] at hx
          rcases hx with rfl | hx
          · rfl
          · exact hfps x hx
    · simp only [hb, if_false, Option.some.injEq] at h
      subst h
      exact ⟨[], by simp, by simp [fpsOf]⟩

/-- Every `fps` field that one run of `createPiHardwareEncodedVideo` sends carries the value
computed once, at the start of the function, from `Date.now()` and the recorded start. -/
theorem createPiHardwareEncodedVideo_fps (env : EncodeEnv) (frames : List DataUrl) (n : Nat)
    (s : AppState) :
    ∃ s' sent, createPiHardwareEncodedVideo env frames n s = some s' ∧
      fpsOf s'.log = fpsOf s.log ++ sent ∧
      ∀ x ∈ sent, x = computeFps n (env.now - s.recordingStartTime) := by
  have htotal := createPiHardwareEncodedVideo_total env frames n s
  unfold createPiHardwareEncodedVideo at htotal ⊢
  simp only [] at htotal ⊢
  cases hloop : uploadLoop env frames n (computeFps n (env.now - s.recordingStartTime))
    ((n + batchSize - 1) / batchSize) (n + 1) 0 0 s.log with
  | none => rw [hloop] at htotal; cases htotal
  | some res =>
    obtain ⟨extra, hlog, hextra⟩ := uploadLoop_fps _ _ _ _ _ _ _ _ _ _ hloop
    obtain ⟨log, thrown⟩ := res
    simp only at hlog
    subst hlog
    cases thrown with
    | some message =>
      refine ⟨_, fpsOf extra, rfl, ?_, hextra⟩
      simp [catchEncodeError, fpsOf_append, fpsOf]
    | none =>
      have hall : ∀ x ∈ fpsOf extra ++ [computeFps n (env.now - s.recordingStartTime)],
          x = computeFps n (env.now - s.recordingStartTime) := by
        intro x hx
        rcases List.mem_append.mp hx with hx | hx
        · exact hextra x hx
        · rw [List.mem_singleton] at hx; rw [hx]
      simp only []
      cases env.encode with
      | rejected message =>
        refine ⟨_, _, rfl, ?_, hall⟩
        simp [catchEncodeError, fpsOf_append, fpsOf]
      | resolved r =>
        simp only []
        split
        · refine ⟨_, _, rfl, ?_, hall⟩
          simp [catchEncodeError, fpsOf_append, fpsOf]
        · split
          · refine ⟨_, _, rfl, ?_, hall⟩
            simp [catchEncodeError, fpsOf_append, fpsOf]
          · split
            · refine ⟨_, _, rfl, ?_, hall⟩
              simp [catchEncodeError, fpsOf_append, fpsOf]
            · refine ⟨_, _, rfl, ?_, hall⟩
              simp [fpsOf_append, fpsOf]

/-- C16 (counterexample). With 100 frames and 3000 ms the two upload batches and the encode
request all carry fps 33, which is not 100 / 3. With 7 frames and 560 ms they carry 12,
which is not even the exact quotient 12.5 rounded, 13: in doubles 7 / 0.56 is below 12.5.
And for one recording, started at 1000 ms and stopped at 3000 ms with 100 frames, the value
sent is 50 when the worker's `complete` message is handled at 3000 ms and 49 when it is
handled at 3050 ms: the elapsed time does not end at the stop. -/
theorem fps_sent_is_not_the_quotient :
    (createPiHardwareEncodedVideo
        ⟨3000, "t", fun _ => .resolved ⟨true, "", none⟩, .resolved ⟨true, "", some (true, "")⟩⟩
        (List.range 100) 100 mounted).map (fun s => fpsOf s.log) =
      some [.finite 33, .finite 33, .finite 33]
    ∧ ((33 : Int) : ℚ) ≠ (100 : ℚ) / ((3000 : ℚ) / 1000)
    ∧ (createPiHardwareEncodedVideo
        ⟨560, "t", fun _ => .resolved ⟨true, "", none⟩, .resolved ⟨true, "", some (true, "")⟩⟩
        (List.range 7) 7 mounted).map (fun s => fpsOf s.log) =
      some [.finite 12, .finite 12]
    ∧ ⌊(7 : ℚ) / ((560 : ℚ) / 1000) + 1 / 2⌋ = 13
    ∧ (workerOnmessage
        ⟨3000, "t", fun _ => .resolved ⟨true, "", none⟩, .resolved ⟨true, "", some (true, "")⟩⟩
        (handleStopRecording (handleStartRecording 1000 mounted))
        (.complete (List.range 100) 100)).map (fun s => fpsOf s.log) =
      some [.finite 50, .finite 50, .finite 50]
    ∧ (workerOnmessage
        ⟨3050, "t", fun _ => .resolved ⟨true, "", none⟩, .resolved ⟨true, "", some (true, "")⟩⟩
        (handleStopRecording (handleStartRecording 1000 mounted))
        (.complete (List.range 100) 100)).map (fun s => fpsOf s.log) =
      some [.finite 49, .finite 49, .finite 49]
    ∧ ((49 : Int) : ℚ) ≠ (100 : ℚ) / (((3000 : ℚ) - 1000) / 1000) := by
  refine ⟨rfl, by norm_num, rfl, ?_, rfl, rfl, by norm_num⟩
  rw [Int.floor_eq_iff]
  norm_num

/-- C16 (amended). Every `fps` field that `createPiHardwareEncodedVideo` sends, in the upload
batches and in the encode request, is `Math.round(frameCount / elapsedSeconds)` evaluated
in doubles, `elapsedSeconds` being the elapsed milliseconds divided by 1000 in doubles and
the elapsed time running from the recorded start timestamp to the reading of `Date.now()`
with which the function starts, for every frame count and every positive elapsed time.
For frame counts and elapsed milliseconds below 2^53 the value sent is an integer within
1/2 + q / 2^51 of the exact quotient q = frameCount / elapsedSeconds. -/
theorem fps_sent_is_rounded_double_quotient (env : EncodeEnv) (frames : List DataUrl)
    (n : Nat) (s : AppState) (hpos : 0 < env.now - s.recordingStartTime) :
    ∃ s' sent, createPiHardwareEncodedVideo env frames n s = some s' ∧
      fpsOf s'.log = fpsOf s.log ++ sent ∧
      (∀ x ∈ sent, x = mathRound ((Double.ofInt n).div
        ((Double.ofInt (env.now - s.recordingStartTime)).div (Double.ofInt 1000)))) ∧
      (n < 2 ^ 53 → env.now - s.recordingStartTime < 2 ^ 53 →
        ∃ k : Int, (∀ x ∈ sent, x = .finite k) ∧
          |(k : ℚ) - (n : ℚ) / (((env.now - s.recordingStartTime : Int) : ℚ) / 1000)| ≤
            1 / 2 + (n : ℚ) / (((env.now - s.recordingStartTime : Int) : ℚ) / 1000) / 2 ^ 51) := by
  obtain ⟨s', sent, hrun, hlog, hsent⟩ := createPiHardwareEncodedVideo_fps env frames n s
  refine ⟨s', sent, hrun, hlog, hsent, fun hn hE => ?_⟩
  obtain ⟨k, hk, hclose⟩ := computeFps_close n (env.now - s.recordingStartTime) hpos hE hn
  exact ⟨k, fun x hx => by rw [hsent x hx, hk], hclose⟩

theorem fps_sent_is_rounded_double_quotient_witness :
    ∃ s' sent k, createPiHardwareEncodedVideo
        ⟨560, "t", fun _ => .resolved ⟨true, "", none⟩, .rejected "offline"⟩
        (List.range 7) 7 mounted = some s' ∧
      fpsOf s'.log = fpsOf mounted.log ++ sent ∧
      (∀ x ∈ sent, x = JsNumber.finite k) ∧
      |(k : ℚ) - ((7 : Nat) : ℚ) / ((((560 : Int) - mounted.recordingStartTime : Int) : ℚ)
          / 1000)| ≤
        1 / 2 + ((7 : Nat) : ℚ) / ((((560 : Int) - mounted.recordingStartTime : Int) : ℚ)
          / 1000) / 2 ^ 51 := by
  obtain ⟨s', sent, hrun, hlog, -, hclose⟩ := fps_sent_is_rounded_double_quotient
    ⟨560, "t", fun _ => .resolved ⟨true, "", none⟩, .rejected "offline"⟩
    (List.range 7) 7 mounted (by decide)
  obtain ⟨k, hk, hb⟩ := hclose (by norm_num) (by decide)
  exact ⟨s', sent, k, hrun, hlog, hk, hb⟩

/-- With all `frameCount` frames present, the upload loop throws only what a rejected
`fetch` throws: it never reads an undefined frame. -/
theorem uploadLoop_throws_only_rejections (env : EncodeEnv) (frames : List DataUrl) (n : Nat)
    (fps : JsNumber) (tb : Nat) (hlen : n ≤ frames.length) :
    ∀ (fuel batchStart currentBatch : Nat) (log : List Effect) (r : TryResult),
      uploadLoop env frames n fps tb fuel batchStart currentBatch log = some r →
      ∀ message, r.thrown = some message → ∃ k, env.upload k = .rejected message := by
  intro fuel
  induction fuel with
  | zero =>
    intro batchStart currentBatch log r h
    simp [uploadLoop] at h
  | succ fuel ih =>
    intro batchStart currentBatch log r h message hthrown
    unfold uploadLoop at h
    by_cases hb : batchStart < n
    · have hparts := batchParts_eq_map frames (min (batchStart + batchSize) n - batchStart)
        batchStart (by omega)
      simp only [hb, if_true, hparts] at h
      cases hup : env.upload (currentBatch + 1) with
      | rejected msg =>
        simp only [hup, Option.some.injEq] at h
        subst h
        simp only [Option.some.injEq] at hthrown
        subst hthrown
        exact ⟨_, hup⟩
      | resolved resp =>
        simp only [hup] at h
        exact ih _ _ _ _ h message hthrown
    · simp only [hb, if_false, Option.some.injEq] at h
      subst h
      cases hthrown

/-! ## The display loop -/

/-- C17 (failing input). The component is mounted and its display loop runs; the user
starts a recording: `handleStartRecording` goes through, `isRecording` is true and
`startTimer` has scheduled the interval 1. React then re-runs the display-loop effect for
the change of `isRecording`: its clean-up clears the interval of `recordingTimerRef`. The
recording is on, `recordingTimerRef` still names interval 1, and no interval is scheduled
any more, before any stop. -/
theorem effect_cleanup_cancels_recording_timer :
    (handleStartRecording 1000 mounted).isRecording = true
    ∧ (handleStartRecording 1000 mounted).recordingTimerRef = some 1
    ∧ (handleStartRecording 1000 mounted).intervals = [1]
    ∧ (commitEffects 1001 (handleStartRecording 1000 mounted)
        (displayLoopSetup 0 mounted unmountedLoop)).1.isRecording = true
    ∧ (commitEffects 1001 (handleStartRecording 1000 mounted)
        (displayLoopSetup 0 mounted unmountedLoop)).1.recordingTimerRef = some 1
    ∧ (commitEffects 1001 (handleStartRecording 1000 mounted)
        (displayLoopSetup 0 mounted unmountedLoop)).1.intervals = [] := by
  refine ⟨rfl, rfl, rfl, rfl, rfl, rfl⟩

/-- The general form of C17's defect: after every successful `handleStartRecording` from
Idle, the re-run of the display-loop effect leaves the timer just created unscheduled. -/
theorem commitEffects_after_start_clears_timer (now t : Int) (s : AppState) (l : LoopState)
    (hidle : s.isRecording = false) (hworker : s.workerRef = true) (hdeps : l.deps = false) :
    (handleStartRecording now s).recordingTimerRef = some (s.nextTimerId + 1)
    ∧ s.nextTimerId + 1 ∈ (handleStartRecording now s).intervals
    ∧ s.nextTimerId + 1 ∉ (commitEffects t (handleStartRecording now s) l).1.intervals := by
  simp [handleStartRecording, startTimer, commitEffects, displayLoopCleanup, hidle, hworker,
    hdeps]

theorem framesPosted_append (l₁ l₂ : List Effect) :
    framesPosted (l₁ ++ l₂) = framesPosted l₁ ++ framesPosted l₂ := by
  induction l₁ with
  | nil => rfl
  | cons e l ih =>
    cases e with
    | postMessage m => cases m <;> simp [framesPosted, ih]
    | _ => simp [framesPosted, ih]

/-- C13 (counterexample). A recording is on and the display runs at 144 Hz: two ticks
6944 microseconds apart, less than the target interval of 1000/60 ms, both enqueue their
frame to the worker. -/
theorem updateFrame_enqueues_without_gating :
    framesPosted (runFrames
        (commitEffects 1001 (handleStartRecording 1000 mounted)
          (displayLoopSetup 0 mounted unmountedLoop)).1
        (commitEffects 1001 (handleStartRecording 1000 mounted)
          (displayLoopSetup 0 mounted unmountedLoop)).2
        [⟨2000000, true, 640, 480, none, some 1, 2000100⟩,
          ⟨2006944, true, 640, 480, none, some 2, 2007000⟩]).1.log = [1, 2]
    ∧ ¬ (1000 * 1000 ≤ ((2006944 : Int) - 2000000) * 60) := by
  refine ⟨rfl, by decide⟩

/-- C13 (amended). While the loop sees a recording (`recordingStateRef`) and the worker
exists, an animation frame enqueues a frame if and only if the image is loaded with non-zero
width and the capture does not throw, whatever the time since the frame enqueued before: no
frame is dropped for coming early, and a tick with the image not loaded enqueues none. -/
theorem updateFrame_enqueues_on_every_loaded_tick (t : FrameTick) (s : AppState)
    (l : LoopState) (id : Nat) (hpending : l.pendingFrame = some id)
    (hrec : l.recordingStateRef = true) (hworker : s.workerRef = true) :
    framesPosted (updateFrame t s l).1.log = framesPosted s.log ++
      (if t.complete = true ∧ t.naturalWidth ≠ 0 then
        match t.direct, t.dataUrl with
        | some src, _ => [src]
        | none, some data => [data]
        | none, none => []
      else []) := by
  obtain ⟨ts, complete, width, height, direct, dataUrl, now⟩ := t
  by_cases hc : ¬l.canvasWidth = width ∨ ¬l.canvasHeight = height <;>
  by_cases hw : width = 0 <;> cases complete <;> cases direct <;> cases dataUrl <;>
    simp [updateFrame, hpending, hrec, hworker, hw, hc, framesPosted_append, framesPosted]

theorem updateFrame_enqueues_on_every_loaded_tick_witness :
    framesPosted (updateFrame ⟨2006944, true, 640, 480, none, some 2, 2007000⟩
        (updateFrame ⟨2000000, true, 640, 480, none, some 1, 2000100⟩
          (commitEffects 1001 (handleStartRecording 1000 mounted)
            (displayLoopSetup 0 mounted unmountedLoop)).1
          (commitEffects 1001 (handleStartRecording 1000 mounted)
            (displayLoopSetup 0 mounted unmountedLoop)).2).1
        (updateFrame ⟨2000000, true, 640, 480, none, some 1, 2000100⟩
          (commitEffects 1001 (handleStartRecording 1000 mounted)
            (displayLoopSetup 0 mounted unmountedLoop)).1
          (commitEffects 1001 (handleStartRecording 1000 mounted)
            (displayLoopSetup 0 mounted unmountedLoop)).2).2).1.log = [1] ++ [2] :=
  updateFrame_enqueues_on_every_loaded_tick ⟨2006944, true, 640, 480, none, some 2, 2007000⟩
    (updateFrame ⟨2000000, true, 640, 480, none, some 1, 2000100⟩
      (commitEffects 1001 (handleStartRecording 1000 mounted)
        (displayLoopSetup 0 mounted unmountedLoop)).1
      (commitEffects 1001 (handleStartRecording 1000 mounted)
        (displayLoopSetup 0 mounted unmountedLoop)).2).1
    (updateFrame ⟨2000000, true, 640, 480, none, some 1, 2000100⟩
      (commitEffects 1001 (handleStartRecording 1000 mounted)
        (displayLoopSetup 0 mounted unmountedLoop)).1
      (commitEffects 1001 (handleStartRecording 1000 mounted)
        (displayLoopSetup 0 mounted unmountedLoop)).2).2
    3 rfl rfl rfl

/-- What one animation frame does to the loop: the request is renewed, `lastFrameTime`
becomes the timestamp, the difference to the previous `lastFrameTime` is pushed on the
window, and the display is either refreshed (image loaded and more than 500 ms since
`lastUpdate`) or left alone. -/
theorem updateFrame_loop (t : FrameTick) (s : AppState) (l : LoopState) (id : Nat)
    (hpending : l.pendingFrame = some id) :
    (updateFrame t s l).2.pendingFrame = some (l.nextFrameId + 1)
    ∧ (updateFrame t s l).2.lastFrameTime = t.timestamp
    ∧ (updateFrame t s l).2.fpsData.frames =
        pushWindow l.fpsData.frames
          ((Double.ofMicros t.timestamp).sub (Double.ofMicros l.lastFrameTime))
    ∧ ((t.complete = true ∧ t.naturalWidth ≠ 0 ∧ 500 * 1000 < t.now - l.fpsData.lastUpdate ∧
          (updateFrame t s l).2.fpsData.lastUpdate = t.now ∧
          (updateFrame t s l).2.fpsLog = l.fpsLog ++
            [(t.now, calculatedFps (updateFrame t s l).2.fpsData.frames)] ∧
          (updateFrame t s l).2.fps = calculatedFps (updateFrame t s l).2.fpsData.frames)
        ∨ ((updateFrame t s l).2.fpsData.lastUpdate = l.fpsData.lastUpdate ∧
          (updateFrame t s l).2.fpsLog = l.fpsLog ∧ (updateFrame t s l).2.fps = l.fps)) := by
  obtain ⟨ts, complete, width, height, direct, dataUrl, now⟩ := t
  by_cases hu : 500000 < now - l.fpsData.lastUpdate <;>
  by_cases hc : ¬l.canvasWidth = width ∨ ¬l.canvasHeight = height <;>
  by_cases hw : width = 0 <;> cases complete <;>
    simp [updateFrame, hpending, hw, hc, hu]

theorem updateFrame_idle (t : FrameTick) (s : AppState) (l : LoopState)
    (hpending : l.pendingFrame = none) : updateFrame t s l = (s, l) := by
  simp [updateFrame, hpending]

theorem updateFrame_display_cases (t : FrameTick) (s : AppState) (l : LoopState) :
    (t.complete = true ∧ t.naturalWidth ≠ 0 ∧ 500 * 1000 < t.now - l.fpsData.lastUpdate ∧
        (updateFrame t s l).2.fpsData.lastUpdate = t.now ∧
        (updateFrame t s l).2.fpsLog = l.fpsLog ++
          [(t.now, calculatedFps (updateFrame t s l).2.fpsData.frames)] ∧
        (updateFrame t s l).2.fps = calculatedFps (updateFrame t s l).2.fpsData.frames)
      ∨ ((updateFrame t s l).2.fpsData.lastUpdate = l.fpsData.lastUpdate ∧
        (updateFrame t s l).2.fpsLog = l.fpsLog ∧ (updateFrame t s l).2.fps = l.fps) := by
  cases hp : l.pendingFrame with
  | none => rw [updateFrame_idle t s l hp]; exact Or.inr ⟨rfl, rfl, rfl⟩
  | some id => exact (updateFrame_loop t s l id hp).2.2.2

theorem runFrames_update_chain :
    ∀ (ticks : List FrameTick) (s : AppState) (l : LoopState),
      ∃ new, (runFrames s l ticks).2.fpsLog = l.fpsLog ++ new ∧
        List.Chain (fun a b => 500 * 1000 < b - a) l.fpsData.lastUpdate
          (new.map Prod.fst) := by
  intro ticks
  induction ticks with
  | nil => intro s l; exact ⟨[], by simp [runFrames], List.Chain.nil⟩
  | cons t ts ih =>
    intro s l
    obtain ⟨new, hlog, hchain⟩ := ih (updateFrame t s l).1 (updateFrame t s l).2
    rcases updateFrame_display_cases t s l with ⟨-, -, hgap, hlast, hl, -⟩ | ⟨hlast, hl, -⟩
    · refine ⟨(t.now, calculatedFps (updateFrame t s l).2.fpsData.frames) :: new, ?_, ?_⟩
      · rw [runFrames, hlog, hl]; simp
      · rw [hlast] at hchain
        exact List.Chain.cons hgap hchain
    · refine ⟨new, by rw [runFrames, hlog, hl], ?_⟩
      rwa [hlast] at hchain

/-- C14. On every tick, in every state of the loop: the displayed FPS value is set only
when the image is loaded and the reading of `performance.now()` is more than 500 ms after
`lastUpdate`, which then becomes that reading; a tick with the image not loaded leaves the
displayed value alone. The effect body sets `lastUpdate` to the reading of the set-up. Hence
over every sequence of ticks each refresh comes more than 500 ms after the one before
(after `lastUpdate`, for the first), and any two of them are more than 500 ms apart. -/
theorem fps_display_refreshes_500ms_apart (now : Int) (s : AppState) (l : LoopState)
    (t : FrameTick) (ticks : List FrameTick) :
    ((updateFrame t s l).2.fpsLog ≠ l.fpsLog →
        500 * 1000 < t.now - l.fpsData.lastUpdate ∧ t.complete = true ∧ t.naturalWidth ≠ 0 ∧
        (updateFrame t s l).2.fpsData.lastUpdate = t.now ∧
        (updateFrame t s l).2.fpsLog = l.fpsLog ++ [(t.now, (updateFrame t s l).2.fps)])
    ∧ (¬ (t.complete = true ∧ t.naturalWidth ≠ 0) →
        (updateFrame t s l).2.fps = l.fps ∧ (updateFrame t s l).2.fpsLog = l.fpsLog)
    ∧ (¬ 500 * 1000 < t.now - l.fpsData.lastUpdate →
        (updateFrame t s l).2.fps = l.fps ∧ (updateFrame t s l).2.fpsLog = l.fpsLog)
    ∧ (displayLoopSetup now s l).fpsData.lastUpdate = now
    ∧ ∃ new, (runFrames s l ticks).2.fpsLog = l.fpsLog ++ new ∧
        List.Chain (fun a b => 500 * 1000 < b - a) l.fpsData.lastUpdate (new.map Prod.fst) ∧
        List.Pairwise (fun a b => 500 * 1000 < b - a)
          (l.fpsData.lastUpdate :: new.map Prod.fst) := by
  refine ⟨?_, ?_, ?_, rfl, ?_⟩
  · intro hchanged
    rcases updateFrame_display_cases t s l with ⟨hc, hw, hgap, hlast, hl, hfps⟩ | ⟨-, hl, -⟩
    · exact ⟨hgap, hc, hw, hlast, by rw [hfps]; exact hl⟩
    · exact absurd hl hchanged
  · intro hnot
    rcases updateFrame_display_cases t s l with ⟨hc, hw, -⟩ | ⟨-, hl, hfps⟩
    · exact absurd ⟨hc, hw⟩ hnot
    · exact ⟨hfps, hl⟩
  · intro hnot
    rcases updateFrame_display_cases t s l with ⟨-, -, hgap, -⟩ | ⟨-, hl, hfps⟩
    · exact absurd hgap hnot
    · exact ⟨hfps, hl⟩
  · obtain ⟨new, hlog, hchain⟩ := runFrames_update_chain ticks s l
    refine ⟨new, hlog, hchain, ?_⟩
    haveI : IsTrans Int (fun a b => 500 * 1000 < b - a) := ⟨fun a b c h1 h2 => by omega⟩
    exact List.chain_iff_pairwise.mp hchain

theorem fps_display_refreshes_500ms_apart_witness :
    (runFrames mounted (displayLoopSetup 0 mounted unmountedLoop)
        [⟨16000, true, 640, 480, none, none, 16100⟩,
          ⟨500000, true, 640, 480, none, none, 500100⟩,
          ⟨516000, true, 640, 480, none, none, 516100⟩,
          ⟨1000000, false, 0, 0, none, none, 1000200⟩,
          ⟨1016000, true, 640, 480, none, none, 1016100⟩]).2.fpsLog.map Prod.fst =
      [500100, 1016100]
    ∧ ∃ new, (runFrames mounted (displayLoopSetup 0 mounted unmountedLoop)
        [⟨16000, true, 640, 480, none, none, 16100⟩,
          ⟨500000, true, 640, 480, none, none, 500100⟩,
          ⟨516000, true, 640, 480, none, none, 516100⟩,
          ⟨1000000, false, 0, 0, none, none, 1000200⟩,
          ⟨1016000, true, 640, 480, none, none, 1016100⟩]).2.fpsLog =
        (displayLoopSetup 0 mounted unmountedLoop).fpsLog ++ new ∧
      List.Chain (fun a b => 500 * 1000 < b - a)
        (displayLoopSetup 0 mounted unmountedLoop).fpsData.lastUpdate (new.map Prod.fst) ∧
      List.Pairwise (fun a b => 500 * 1000 < b - a)
        ((displayLoopSetup 0 mounted unmountedLoop).fpsData.lastUpdate :: new.map Prod.fst) :=
  ⟨rfl, (fps_display_refreshes_500ms_apart 0 mounted
    (displayLoopSetup 0 mounted unmountedLoop) ⟨16000, true, 640, 480, none, none, 16100⟩
    [⟨16000, true, 640, 480, none, none, 16100⟩,
      ⟨500000, true, 640, 480, none, none, 500100⟩,
      ⟨516000, true, 640, 480, none, none, 516100⟩,
      ⟨1000000, false, 0, 0, none, none, 1000200⟩,
      ⟨1016000, true, 640, 480, none, none, 1016100⟩]).2.2.2.2⟩

theorem pushWindow_lastN (all : List Double) (elapsed : Double) :
    pushWindow (all.drop (all.length - 20)) elapsed =
      (all ++ [elapsed]).drop ((all ++ [elapsed]).length - 20) := by
  simp only [pushWindow, List.length_append, List.length_drop, List.length_singleton]
  by_cases h : all.length < 20
  · have h0 : all.length - 20 = 0 := by omega
    have h1 : all.length + 1 - 20 = 0 := by omega
    have h2 : ¬ all.length - 0 + 1 > 20 := by omega
    simp only [h0, h1, h2, if_false, List.drop_zero]
  · have h2 : all.length - (all.length - 20) + 1 > 20 := by omega
    have h3 : all.length + 1 - 20 = (all.length - 20) + 1 := by omega
    have h4 : all.length - 20 + 1 ≤ all.length := by omega
    have h5 : 1 ≤ (all.drop (all.length - 20)).length := by
      rw [List.length_drop]; omega
    simp only [h2, if_true, h3]
    rw [List.drop_append_of_le_length h4, List.drop_append_of_le_length h5, List.drop_drop]

theorem runFrames_window :
    ∀ (ticks : List FrameTick) (s : AppState) (l : LoopState) (all : List Double) (id : Nat),
      l.pendingFrame = some id → l.fpsData.frames = all.drop (all.length - 20) →
      (runFrames s l ticks).2.fpsData.frames =
        (all ++ interFrameIntervals (l.lastFrameTime :: ticks.map (fun t => t.timestamp))).drop
          ((all ++ interFrameIntervals
            (l.lastFrameTime :: ticks.map (fun t => t.timestamp))).length - 20) := by
  intro ticks
  induction ticks with
  | nil =>
    intro s l all id _ hw
    simpa [runFrames, interFrameIntervals] using hw
  | cons t ts ih =>
    intro s l all id hp hw
    obtain ⟨hp', hlast, hframes, -⟩ := updateFrame_loop t s l id hp
    rw [hw, pushWindow_lastN] at hframes
    have h := ih (updateFrame t s l).1 (updateFrame t s l).2
      (all ++ [(Double.ofMicros t.timestamp).sub (Double.ofMicros l.lastFrameTime)]) _ hp'
      hframes
    rw [hlast] at h
    simpa [runFrames, interFrameIntervals, List.append_assoc] using h

theorem interFrameIntervals_length (a : Int) (ts : List Int) :
    (interFrameIntervals (a :: ts)).length = ts.length := by
  induction ts generalizing a with
  | nil => rfl
  | cons b rest ih => simp [interFrameIntervals, ih]

theorem ofMicros_nonneg (k : Nat) (hk51 : k < 2 ^ 51) :
    ∃ m e, Double.ofMicros (k : Int) = .finite false m e ∧
      |(m : ℚ) * (2 : ℚ) ^ e - (k : ℚ) / 1000| ≤ (k : ℚ) / 1000 / 2 ^ 53 := by
  rcases Nat.eq_zero_or_pos k with h | h
  · subst h
    exact ⟨0, 0, rfl, by simp⟩
  · exact ofMicros_close k h hk51

/-- The double that the subtraction of two readings returns, the later one first, is an
interval in the sense of `Double.IsInterval`, for readings below 2^51 microseconds. -/
theorem sub_ofMicros_isInterval (a b : Int) (ha : 0 ≤ a) (hab : a ≤ b) (hb : b < 2 ^ 51) :
    ((Double.ofMicros b).sub (Double.ofMicros a)).IsInterval := by
  obtain ⟨A, rfl⟩ : ∃ A : Nat, a = (A : Int) := ⟨a.toNat, by omega⟩
  obtain ⟨B, rfl⟩ : ∃ B : Nat, b = (B : Int) := ⟨b.toNat, by omega⟩
  have hAB : A ≤ B := by omega
  have hB51 : B < 2 ^ 51 := by omega
  have hA51 : A < 2 ^ 51 := by omega
  obtain ⟨mA, eA, hAd, hAv⟩ := ofMicros_nonneg A hA51
  obtain ⟨mB, eB, hBd, hBv⟩ := ofMicros_nonneg B hB51
  rcases Nat.eq_or_lt_of_le hAB with hEq | hLt
  · subst hEq
    rw [hAd] at hBd
    injection hBd with _ hm he
    subst hm; subst he
    obtain ⟨m, e, hs, hz, -⟩ := sub_normal mA mA eA eA (le_refl _) (Or.inl (sub_self _))
    rw [hAd, hs]
    exact ⟨m, e, rfl, Or.inl (hz.mpr (sub_self _))⟩
  · set vA : ℚ := (mA : ℚ) * 2 ^ eA with hvA
    set vB : ℚ := (mB : ℚ) * 2 ^ eB with hvB
    have hAq0 : (0 : ℚ) ≤ A := by positivity
    have hBq : (A : ℚ) + 1 ≤ B := by exact_mod_cast hLt
    have hsumq : (A : ℚ) + B < 2 ^ 52 := by
      have : A + B < 2 ^ 52 := by omega
      exact_mod_cast this
    have hB51q : (B : ℚ) < 2 ^ 51 := by exact_mod_cast hB51
    obtain ⟨hA1, hA2⟩ := abs_le.mp hAv
    obtain ⟨hB1, hB2⟩ := abs_le.mp hBv
    have e1 : (A : ℚ) / 1000 / 2 ^ 53 = (A : ℚ) / (1000 * 2 ^ 53) := by rw [div_div]
    have e2 : (B : ℚ) / 1000 / 2 ^ 53 = (B : ℚ) / (1000 * 2 ^ 53) := by rw [div_div]
    have hδlo : 1 / 2000 ≤ vB - vA := by
      have h1 : ((A : ℚ) + B) / (1000 * 2 ^ 53) ≤ 1 / 2000 := by
        rw [div_le_div_iff₀ (by positivity) (by norm_num)]
        have : (2 : ℚ) ^ 52 * 2000 = 1 * (1000 * 2 ^ 53) := by norm_num
        nlinarith
      have h2 : (B : ℚ) / 1000 - (A : ℚ) / 1000 ≥ 1 / 1000 := by
        have : (B : ℚ) / 1000 - (A : ℚ) / 1000 = ((B : ℚ) - A) / 1000 := by ring
        rw [this, ge_iff_le, div_le_div_iff₀ (by norm_num) (by norm_num)]
        linarith
      have h3 : ((A : ℚ) + B) / (1000 * 2 ^ 53) =
          (A : ℚ) / (1000 * 2 ^ 53) + (B : ℚ) / (1000 * 2 ^ 53) := by ring
      rw [e1] at hA1 hA2
      rw [e2] at hB1 hB2
      linarith
    have hδhi : vB - vA ≤ 2 ^ 43 := by
      have hvA0 : 0 ≤ vA := by positivity
      have h1 : (B : ℚ) / 1000 ≤ 2 ^ 51 / 1000 :=
        div_le_div_of_nonneg_right (le_of_lt hB51q) (by norm_num)
      have h2 : (B : ℚ) / 1000 / 2 ^ 53 ≤ (B : ℚ) / 1000 := by
        apply div_le_self (by positivity)
        norm_num
      have h3 : (2 : ℚ) ^ 51 / 1000 * 2 ≤ 2 ^ 43 := by norm_num
      linarith
    have hzf : (2 : ℚ) ^ (-1022 : Int) ≤ 1 / 2000 ∧ (2 : ℚ) ^ 43 < (2 : ℚ) ^ (1023 : Int) ∧
        (2 : ℚ) ^ (-1000 : Int) ≤ 1 / 4000 ∧ (2 : ℚ) ^ 44 ≤ (2 : ℚ) ^ (1000 : Int) := by
      have h12 : (2 : ℚ) ^ (-12 : Int) = 1 / 4096 := by norm_num
      have h43 : (2 : ℚ) ^ (43 : Int) = 2 ^ 43 := by norm_cast
      have h44 : (2 : ℚ) ^ (44 : Int) = 2 ^ 44 := by norm_cast
      refine ⟨?_, ?_, ?_, ?_⟩
      · have := zpow_le_zpow_right₀ (a := (2 : ℚ)) (by norm_num) (show (-1022 : Int) ≤ -12 by norm_num)
        rw [h12] at this
        refine le_trans this (by norm_num)
      · rw [← h43]
        exact zpow_lt_zpow_right₀ (by norm_num) (by norm_num)
      · have := zpow_le_zpow_right₀ (a := (2 : ℚ)) (by norm_num) (show (-1000 : Int) ≤ -12 by norm_num)
        rw [h12] at this
        refine le_trans this (by norm_num)
      · rw [← h44]
        exact zpow_le_zpow_right₀ (by norm_num) (by norm_num)
    obtain ⟨hz1, hz2, hz3, hz4⟩ := hzf
    obtain ⟨m, e, hs, hz, hclose⟩ := sub_normal mB mA eB eA (by linarith)
      (Or.inr ⟨le_trans hz1 hδlo, lt_of_le_of_lt hδhi hz2⟩)
    rw [hAd, hBd, hs]
    refine ⟨m, e, rfl, Or.inr ?_⟩
    obtain ⟨hc1, hc2⟩ := abs_le.mp hclose
    have hδ53 : (vB - vA) / 2 ^ 53 ≤ (vB - vA) / 2 := by
      apply div_le_div_of_nonneg_left (by linarith) (by norm_num) (by norm_num)
    constructor
    · refine le_trans hz3 ?_
      linarith
    · refine le_trans ?_ hz4
      have : (2 : ℚ) ^ 44 = 2 * 2 ^ 43 := by norm_num
      linarith

theorem interFrameIntervals_isInterval (ts : List Int) :
    ∀ a : Int, 0 ≤ a → List.Chain (fun x y => x ≤ y) a ts → a < 2 ^ 51 →
      (∀ t ∈ ts, t < 2 ^ 51) → ∀ w ∈ interFrameIntervals (a :: ts), w.IsInterval := by
  induction ts with
  | nil => intro a _ _ _ _ w hw; simp [interFrameIntervals] at hw
  | cons b rest ih =>
    intro a ha hchain ha51 hbound w hw
    rw [List.chain_cons] at hchain
    simp only [interFrameIntervals, List.mem_cons] at hw
    rcases hw with rfl | hw
    · exact sub_ofMicros_isInterval a b ha hchain.1 (hbound b (List.mem_cons_self _ _))
    · exact ih b (le_trans ha hchain.1) hchain.2 (hbound b (List.mem_cons_self _ _))
        (fun t ht => hbound t (List.mem_cons_of_mem _ ht)) w hw

/-- In every run of the display loop from its set-up in which the timestamps of the
animation frames do not decrease and stay below 2^51 microseconds, every entry of the
window is an interval in the sense of `Double.IsInterval`. -/
theorem window_entries_are_intervals (now : Int) (s : AppState) (l : LoopState)
    (ticks : List FrameTick)
    (hsorted : List.Chain (fun x y => x ≤ y) (0 : Int) (ticks.map (fun t => t.timestamp)))
    (hbound : ∀ t ∈ ticks, t.timestamp < 2 ^ 51) :
    ∀ w ∈ (runFrames s (displayLoopSetup now s l) ticks).2.fpsData.frames, w.IsInterval := by
  have hwin := runFrames_window ticks s (displayLoopSetup now s l) [] (l.nextFrameId + 1)
    rfl rfl
  simp only [List.nil_append] at hwin
  have hzero : (displayLoopSetup now s l).lastFrameTime = 0 := rfl
  rw [hzero] at hwin
  intro w hw
  rw [hwin] at hw
  exact interFrameIntervals_isInterval _ 0 (le_refl _) hsorted (by norm_num)
    (fun t ht => by
      obtain ⟨x, hx, rfl⟩ := List.mem_map.mp ht
      exact hbound x hx) w (List.mem_of_mem_drop hw)

theorem runFrames_snoc (ticks : List FrameTick) (t : FrameTick) :
    ∀ (s : AppState) (l : LoopState),
      runFrames s l (ticks ++ [t]) =
        updateFrame t (runFrames s l ticks).1 (runFrames s l ticks).2 := by
  induction ticks with
  | nil => intro s l; rfl
  | cons t0 rest ih => intro s l; exact ih _ _

/-- In a run of the display loop from its set-up whose timestamps do not decrease and stay
below 2^51 microseconds, when the last tick refreshes the display and the window sums to
more than zero, the value shown is an integer within 1/2 + q / 2^45 of q = 1000 / mean of
the window. -/
theorem fps_shown_close_after_run (now : Int) (s : AppState) (l : LoopState)
    (ticks : List FrameTick) (t : FrameTick)
    (hsorted : List.Chain (fun x y => x ≤ y) (0 : Int)
      ((ticks ++ [t]).map (fun t => t.timestamp)))
    (hbound : ∀ x ∈ ticks ++ [t], x.timestamp < 2 ^ 51)
    (hrefresh : (runFrames s (displayLoopSetup now s l) (ticks ++ [t])).2.fpsLog ≠
      (runFrames s (displayLoopSetup now s l) ticks).2.fpsLog)
    (hsum : 0 < ((runFrames s (displayLoopSetup now s l) (ticks ++ [t])).2.fpsData.frames.map
      Double.toRat).sum) :
    ∃ k : Int, (runFrames s (displayLoopSetup now s l) (ticks ++ [t])).2.fps = .finite k ∧
      |(k : ℚ) - 1000 /
          (((runFrames s (displayLoopSetup now s l) (ticks ++ [t])).2.fpsData.frames.map
            Double.toRat).sum /
            (runFrames s (displayLoopSetup now s l) (ticks ++ [t])).2.fpsData.frames.length)| ≤
        1 / 2 + 1000 /
          (((runFrames s (displayLoopSetup now s l) (ticks ++ [t])).2.fpsData.frames.map
            Double.toRat).sum /
            (runFrames s (displayLoopSetup now s l) (ticks ++ [t])).2.fpsData.frames.length) /
          2 ^ 45 := by
  have hint := window_entries_are_intervals now s l (ticks ++ [t]) hsorted hbound
  have hwin := runFrames_window (ticks ++ [t]) s (displayLoopSetup now s l) []
    (l.nextFrameId + 1) rfl rfl
  have hlen : (runFrames s (displayLoopSetup now s l) (ticks ++ [t])).2.fpsData.frames.length
      ≤ 20 := by
    rw [hwin, List.length_drop]
    omega
  rw [runFrames_snoc] at hrefresh hint hlen hsum ⊢
  rcases updateFrame_display_cases t (runFrames s (displayLoopSetup now s l) ticks).1
      (runFrames s (displayLoopSetup now s l) ticks).2 with ⟨-, -, -, -, -, hfps⟩ | ⟨-, hl, -⟩
  · rw [hfps]
    exact calculatedFps_close _ hlen hint hsum
  · exact absurd hl hrefresh

/-- C18 (counterexample). The loop is set up 4.99 s after the time origin. After its first
tick, at timestamp 5 s, the window holds one entry, 5000 ms, although no two ticks have
happened yet. After the ticks at 5.016 s and 5.5 s the window is 5000, 16 and 484 ms, the
display is refreshed and shows 1, while 1000 divided by the mean of the window is 6/11.
In a loop set up at the time origin, with ticks every 142 ms from 64 ms on, the refresh at
1200 ms finds a window of nine entries, 64 ms and eight times 142 ms, of mean 1200/9 ms,
and shows 7: not 1000 divided by the mean, 7.5, and not that value rounded, 8. -/
theorem window_first_entry_and_rounding :
    (runFrames mounted (displayLoopSetup 4990000 mounted unmountedLoop)
        [⟨5000000, true, 640, 480, none, none, 5000100⟩]).2.fpsData.frames =
      [Double.ofInt 5000]
    ∧ interFrameIntervals [5000000] = []
    ∧ (runFrames mounted (displayLoopSetup 4990000 mounted unmountedLoop)
        [⟨5000000, true, 640, 480, none, none, 5000100⟩,
          ⟨5016000, true, 640, 480, none, none, 5016100⟩,
          ⟨5500000, true, 640, 480, none, none, 5500100⟩]).2.fpsData.frames =
      [Double.ofInt 5000, Double.ofInt 16, Double.ofInt 484]
    ∧ (runFrames mounted (displayLoopSetup 4990000 mounted unmountedLoop)
        [⟨5000000, true, 640, 480, none, none, 5000100⟩,
          ⟨5016000, true, 640, 480, none, none, 5016100⟩,
          ⟨5500000, true, 640, 480, none, none, 5500100⟩]).2.fpsLog =
      [(5500100, .finite 1)]
    ∧ ((1 : Int) : ℚ) ≠ 1000 / (((5000 : ℚ) + 16 + 484) / 3)
    ∧ (runFrames mounted (displayLoopSetup 0 mounted unmountedLoop)
        [⟨64000, true, 640, 480, none, none, 64100⟩,
          ⟨206000, true, 640, 480, none, none, 206100⟩,
          ⟨348000, true, 640, 480, none, none, 348100⟩,
          ⟨490000, true, 640, 480, none, none, 490100⟩,
          ⟨632000, true, 640, 480, none, none, 632100⟩,
          ⟨774000, true, 640, 480, none, none, 774100⟩,
          ⟨916000, true, 640, 480, none, none, 916100⟩,
          ⟨1058000, true, 640, 480, none, none, 1058100⟩,
          ⟨1200000, true, 640, 480, none, none, 1200100⟩]).2.fpsData.frames =
      [Double.ofInt 64, Double.ofInt 142, Double.ofInt 142, Double.ofInt 142,
        Double.ofInt 142, Double.ofInt 142, Double.ofInt 142, Double.ofInt 142,
        Double.ofInt 142]
    ∧ (runFrames mounted (displayLoopSetup 0 mounted unmountedLoop)
        [⟨64000, true, 640, 480, none, none, 64100⟩,
          ⟨206000, true, 640, 480, none, none, 206100⟩,
          ⟨348000, true, 640, 480, none, none, 348100⟩,
          ⟨490000, true, 640, 480, none, none, 490100⟩,
          ⟨632000, true, 640, 480, none, none, 632100⟩,
          ⟨774000, true, 640, 480, none, none, 774100⟩,
          ⟨916000, true, 640, 480, none, none, 916100⟩,
          ⟨1058000, true, 640, 480, none, none, 1058100⟩,
          ⟨1200000, true, 640, 480, none, none, 1200100⟩]).2.fpsLog =
      [(632100, .finite 8), (1200100, .finite 7)]
    ∧ (1000 : ℚ) / (((64 : ℚ) + 8 * 142) / 9) = 15 / 2
    ∧ ⌊(1000 : ℚ) / (((64 : ℚ) + 8 * 142) / 9) + 1 / 2⌋ = 8 := by
  refine ⟨rfl, rfl, rfl, rfl, by norm_num, rfl, rfl, by norm_num, ?_⟩
  rw [Int.floor_eq_iff]
  norm_num

/-- C18 (amended). From the set-up of the loop, after every sequence of ticks the window
holds at most 20 entries in arrival order: it is the last 20 of the values pushed, which
are one value pushed by the first tick followed by the differences between the timestamps
of consecutive ticks; once more than 20 ticks have run it is exactly the last 20 such
differences. Whenever a tick refreshes the display, the value shown is
`Math.round(1000 / avgFrameTime)` evaluated in doubles, `avgFrameTime` being the sum of the
window as it is after that tick, added up from the left, divided by its length; when that
window holds at most 20 entries, none negative and each zero or between 2^-1000 and 2^1000
ms, with a positive sum, the value shown is an integer within 1/2 + q / 2^45 of
q = 1000 / mean. -/
theorem window_is_last_20_intervals (now : Int) (s s₁ : AppState) (l l₁ : LoopState)
    (t : FrameTick) (ticks : List FrameTick) :
    (runFrames s (displayLoopSetup now s l) ticks).2.fpsData.frames.length ≤ 20
    ∧ (ticks ≠ [] → ∃ first,
        (runFrames s (displayLoopSetup now s l) ticks).2.fpsData.frames =
          (first :: interFrameIntervals (ticks.map (fun t => t.timestamp))).drop
            (ticks.length - 20))
    ∧ (20 < ticks.length →
        (runFrames s (displayLoopSetup now s l) ticks).2.fpsData.frames =
          (interFrameIntervals (ticks.map (fun t => t.timestamp))).drop
            (ticks.length - 1 - 20))
    ∧ ((updateFrame t s₁ l₁).2.fpsLog ≠ l₁.fpsLog →
        (updateFrame t s₁ l₁).2.fps =
          mathRound ((Double.ofInt 1000).div
            (((updateFrame t s₁ l₁).2.fpsData.frames.foldl Double.add (Double.ofInt 0)).div
              (Double.ofInt (updateFrame t s₁ l₁).2.fpsData.frames.length))))
    ∧ ((updateFrame t s₁ l₁).2.fpsLog ≠ l₁.fpsLog →
        (updateFrame t s₁ l₁).2.fpsData.frames.length ≤ 20 →
        (∀ w ∈ (updateFrame t s₁ l₁).2.fpsData.frames, w.IsInterval) →
        0 < ((updateFrame t s₁ l₁).2.fpsData.frames.map Double.toRat).sum →
        ∃ k : Int, (updateFrame t s₁ l₁).2.fps = .finite k ∧
          |(k : ℚ) - 1000 / (((updateFrame t s₁ l₁).2.fpsData.frames.map Double.toRat).sum /
              (updateFrame t s₁ l₁).2.fpsData.frames.length)| ≤
            1 / 2 + 1000 / (((updateFrame t s₁ l₁).2.fpsData.frames.map Double.toRat).sum /
              (updateFrame t s₁ l₁).2.fpsData.frames.length) / 2 ^ 45) := by
  have hwin := runFrames_window ticks s (displayLoopSetup now s l) [] (l.nextFrameId + 1)
    rfl rfl
  simp only [List.nil_append] at hwin
  have hzero : (displayLoopSetup now s l).lastFrameTime = 0 := rfl
  rw [hzero] at hwin
  have hlen := interFrameIntervals_length 0 (ticks.map (fun t => t.timestamp))
  rw [List.length_map] at hlen
  refine ⟨?_, ?_, ?_, ?_, ?_⟩
  · rw [hwin, List.length_drop, hlen]
    omega
  · intro hne
    cases ticks with
    | nil => exact absurd rfl hne
    | cons t0 rest =>
      refine ⟨(Double.ofMicros t0.timestamp).sub (Double.ofMicros 0), ?_⟩
      rw [hwin, hlen]
      rfl
  · intro hmany
    cases ticks with
    | nil => simp at hmany
    | cons t0 rest =>
      rw [hwin, hlen]
      simp only [List.map_cons, interFrameIntervals, List.length_cons] at hmany ⊢
      have hd : rest.length + 1 - 20 = (rest.length + 1 - 1 - 20) + 1 := by omega
      rw [hd, List.drop_succ_cons]
  · intro hchanged
    rcases updateFrame_display_cases t s₁ l₁ with ⟨-, -, -, -, -, hfps⟩ | ⟨-, hl, -⟩
    · rw [hfps]; rfl
    · exact absurd hl hchanged
  · intro hchanged hlen20 hint hsum
    rcases updateFrame_display_cases t s₁ l₁ with ⟨-, -, -, -, -, hfps⟩ | ⟨-, hl, -⟩
    · rw [hfps]
      exact calculatedFps_close _ hlen20 hint hsum
    · exact absurd hl hchanged

theorem window_is_last_20_intervals_witness :
    (runFrames mounted (displayLoopSetup 4990000 mounted unmountedLoop)
        [⟨5000000, true, 640, 480, none, none, 5000100⟩,
          ⟨5016000, true, 640, 480, none, none, 5016100⟩,
          ⟨5500000, true, 640, 480, none, none, 5500100⟩]).2.fpsData.frames.length ≤ 20
    ∧ (∃ first, (runFrames mounted (displayLoopSetup 4990000 mounted unmountedLoop)
        [⟨5000000, true, 640, 480, none, none, 5000100⟩,
          ⟨5016000, true, 640, 480, none, none, 5016100⟩,
          ⟨5500000, true, 640, 480, none, none, 5500100⟩]).2.fpsData.frames =
        (first :: interFrameIntervals
          (List.map (fun t => t.timestamp)
            [(⟨5000000, true, 640, 480, none, none, 5000100⟩ : FrameTick),
              ⟨5016000, true, 640, 480, none, none, 5016100⟩,
              ⟨5500000, true, 640, 480, none, none, 5500100⟩])).drop (3 - 20))
    ∧ ∃ k : Int, (updateFrame ⟨5500000, true, 640, 480, none, none, 5500100⟩
          (runFrames mounted (displayLoopSetup 4990000 mounted unmountedLoop)
            [⟨5000000, true, 640, 480, none, none, 5000100⟩,
              ⟨5016000, true, 640, 480, none, none, 5016100⟩]).1
          (runFrames mounted (displayLoopSetup 4990000 mounted unmountedLoop)
            [⟨5000000, true, 640, 480, none, none, 5000100⟩,
              ⟨5016000, true, 640, 480, none, none, 5016100⟩]).2).2.fps = .finite k ∧
        |(k : ℚ) - 1000 / ((5000 + 16 + 484 : ℚ) / 3)| ≤
          1 / 2 + 1000 / ((5000 + 16 + 484 : ℚ) / 3) / 2 ^ 45 := by
  refine ⟨(window_is_last_20_intervals 4990000 mounted mounted unmountedLoop unmountedLoop
      ⟨5000000, true, 640, 480, none, none, 5000100⟩
      [⟨5000000, true, 640, 480, none, none, 5000100⟩,
        ⟨5016000, true, 640, 480, none, none, 5016100⟩,
        ⟨5500000, true, 640, 480, none, none, 5500100⟩]).1,
    (window_is_last_20_intervals 4990000 mounted mounted unmountedLoop unmountedLoop
      ⟨5000000, true, 640, 480, none, none, 5000100⟩
      [⟨5000000, true, 640, 480, none, none, 5000100⟩,
        ⟨5016000, true, 640, 480, none, none, 5016100⟩,
        ⟨5500000, true, 640, 480, none, none, 5500100⟩]).2.1 (by simp), ?_⟩
  have hwindow : (updateFrame ⟨5500000, true, 640, 480, none, none, 5500100⟩
        (runFrames mounted (displayLoopSetup 4990000 mounted unmountedLoop)
          [⟨5000000, true, 640, 480, none, none, 5000100⟩,
            ⟨5016000, true, 640, 480, none, none, 5016100⟩]).1
        (runFrames mounted (displayLoopSetup 4990000 mounted unmountedLoop)
          [⟨5000000, true, 640, 480, none, none, 5000100⟩,
            ⟨5016000, true, 640, 480, none, none, 5016100⟩]).2).2.fpsData.frames =
      [Double.ofInt ((5000 : Nat) : Int), Double.ofInt ((16 : Nat) : Int),
        Double.ofInt ((484 : Nat) : Int)] := rfl
  have hsum : (List.map Double.toRat [Double.ofInt ((5000 : Nat) : Int),
      Double.ofInt ((16 : Nat) : Int), Double.ofInt ((484 : Nat) : Int)]).sum =
      (5000 + 16 + 484 : ℚ) := by
    simp only [List.map_cons, List.map_nil, List.sum_cons, List.sum_nil,
      toRat_ofInt 5000 (by norm_num), toRat_ofInt 16 (by norm_num),
      toRat_ofInt 484 (by norm_num)]
    norm_num
  have h := (window_is_last_20_intervals 4990000 mounted
      (runFrames mounted (displayLoopSetup 4990000 mounted unmountedLoop)
        [⟨5000000, true, 640, 480, none, none, 5000100⟩,
          ⟨5016000, true, 640, 480, none, none, 5016100⟩]).1 unmountedLoop
      (runFrames mounted (displayLoopSetup 4990000 mounted unmountedLoop)
        [⟨5000000, true, 640, 480, none, none, 5000100⟩,
          ⟨5016000, true, 640, 480, none, none, 5016100⟩]).2
      ⟨5500000, true, 640, 480, none, none, 5500100⟩ []).2.2.2.2
    (by decide) (by decide)
    (by
      rw [hwindow]
      intro w hw
      simp only [List.mem_cons, List.mem_singleton, List.not_mem_nil, or_false] at hw
      rcases hw with rfl | rfl | rfl
      · exact ofInt_isInterval 5000 (by norm_num)
      · exact ofInt_isInterval 16 (by norm_num)
      · exact ofInt_isInterval 484 (by norm_num))
    (by rw [hwindow, hsum]; norm_num)
  rw [hwindow, hsum] at h
  simpa using h

end App

namespace App.Worker

/-! ## The recording worker -/

/-- C3 (failing input). Frames 1..10 are processed and the worker parks at its yield after
the 10th; frame 11 and then stop are delivered before the timer of the yield fires. The
`complete` message carries frames 1..10 and count 10: frame 11, accepted into the queue,
is processed only after the message was posted. Were the timer to fire before stop, all
eleven frames would be delivered. -/
theorem stop_during_yield_drops_queued_frame :
    (run init
        [(0, .message .start), (1, .message (.frame 1)), (2, .message (.frame 2)),
          (3, .message (.frame 3)), (4, .message (.frame 4)), (5, .message (.frame 5)),
          (6, .message (.frame 6)), (7, .message (.frame 7)), (8, .message (.frame 8)),
          (9, .message (.frame 9)), (10, .message (.frame 10)), (11, .message (.frame 11)),
          (12, .message .stop), (13, .timer)]).map
        (fun w => (completions w.posted, w.frames, w.frameCount)) =
      some ([([1, 2, 3, 4, 5, 6, 7, 8, 9, 10], 10)], [11], 11)
    ∧ (run init
        [(0, .message .start), (1, .message (.frame 1)), (2, .message (.frame 2)),
          (3, .message (.frame 3)), (4, .message (.frame 4)), (5, .message (.frame 5)),
          (6, .message (.frame 6)), (7, .message (.frame 7)), (8, .message (.frame 8)),
          (9, .message (.frame 9)), (10, .message (.frame 10)), (11, .message (.frame 11)),
          (12, .timer), (13, .message .stop)]).map
        (fun w => (completions w.posted, w.frames, w.frameCount)) =
      some ([([1, 2, 3, 4, 5, 6, 7, 8, 9, 10, 11], 11)], [], 11) := by
  constructor <;> rfl

/-- Totality: with the fuel of `fuelFor`, `processFrameQueue` runs until it parks or
returns. -/
theorem processFrameQueue_isSome (now : Int) :
    ∀ (fuel : Nat) (entry : Entry) (notify : Bool) (w : WorkerState),
      fuelFor entry w ≤ fuel → (processFrameQueue now fuel entry notify w).isSome = true := by
  intro fuel
  induction fuel with
  | zero =>
    intro entry notify w h
    cases entry <;> simp [fuelFor] at h
  | succ fuel ih =>
    intro entry notify w h
    cases entry with
    | call =>
      unfold processFrameQueue
      split
      · rfl
      · rename_i hguard
        apply ih
        simp only [fuelFor, List.length_take, List.length_drop] at h ⊢
        have hq : w.processingQueue.length ≠ 0 := by
          intro h0; simp [h0] at hguard
        omega
    | resume rest =>
      cases rest with
      | nil =>
        unfold processFrameQueue
        simp only []
        split
        · have hcall := ih .call false { w with isProcessing := false }
            (by simp only [fuelFor] at h ⊢; omega)
          cases hres : processFrameQueue now fuel .call false { w with isProcessing := false } with
          | none => rw [hres] at hcall; cases hcall
          | some w1 => rfl
        · rfl
      | cons frame rest =>
        have key : ∀ w1 : WorkerState,
            w1.processingQueue.length = w.processingQueue.length →
            (if w1.frameCount % 10 = 0 then
              some { w1 with suspended := w1.suspended ++ [⟨rest, notify⟩] }
            else processFrameQueue now fuel (.resume rest) notify w1).isSome = true := by
          intro w1 hq
          split
          · rfl
          · apply ih
            simp only [fuelFor, List.length_cons] at h ⊢
            omega
        unfold processFrameQueue
        refine key _ ?_
        dsimp only
        split <;> rfl

/-- Totality: every task of the worker's event loop runs to its end. -/
theorem step_isSome (w : WorkerState) (now : Int) (e : Event) : (step w now e).isSome = true := by
  cases e with
  | message m =>
    cases m with
    | start => rfl
    | frame data =>
      simp only [step, onmessage]
      split
      · split
        · exact processFrameQueue_isSome now _ _ _ _ (Nat.le_refl _)
        · rfl
      · rfl
    | stop => exact processFrameQueue_isSome now _ _ _ _ (Nat.le_refl _)
  | timer =>
    simp only [step, onTimer]
    split
    · rfl
    · exact processFrameQueue_isSome now _ _ _ _ (Nat.le_refl _)

theorem completions_append (l₁ l₂ : List FromWorker) :
    completions (l₁ ++ l₂) = completions l₁ ++ completions l₂ := by
  induction l₁ with
  | nil => rfl
  | cons m l ih => cases m <;> simp [completions, ih]

/-- Conservation: an invocation of `processFrameQueue` on which nothing hangs, entered while
no other invocation is parked, moves frames from its batch and the queue to `frames` in
order, without losing or repeating any, until it parks or everything is moved. -/
theorem processFrameQueue_conserves (now : Int) :
    ∀ (fuel : Nat) (entry : Entry) (w : WorkerState),
      fuelFor entry w ≤ fuel → w.suspended = [] → w.frameCount = w.frames.length →
      w.isProcessing = (match entry with | .call => false | .resume _ => true) →
      ∃ w', processFrameQueue now fuel entry false w = some w' ∧
        w'.isRecording = w.isRecording ∧ w'.frameCount = w'.frames.length ∧
        completions w'.posted = completions w.posted ∧
        ((w'.isProcessing = false ∧ w'.suspended = [] ∧ w'.processingQueue = [] ∧
            w'.frames = w.frames ++ entry.pending w) ∨
          (w'.isProcessing = true ∧ ∃ rest, w'.suspended = [⟨rest, false⟩] ∧
            w'.frames ++ rest ++ w'.processingQueue = w.frames ++ entry.pending w)) := by
  intro fuel
  induction fuel with
  | zero =>
    intro entry w h
    cases entry <;> simp [fuelFor] at h
  | succ fuel ih =>
    intro entry w hfuel hsusp hcount hproc
    cases entry with
    | call =>
      simp only at hproc
      unfold processFrameQueue
      by_cases hq : w.processingQueue = []
      · refine ⟨w, by simp [hproc, hq, settle], rfl, hcount, rfl, Or.inl ?_⟩
        simp [hproc, hsusp, hq, Entry.pending]
      · have hlen : w.processingQueue.length ≠ 0 := by
          intro h0; exact hq (List.length_eq_zero.mp h0)
        obtain ⟨w', hrun, hrec, hcnt, hcomp, hres⟩ := ih
          (.resume (w.processingQueue.take 5))
          { w with isProcessing := true, processingQueue := w.processingQueue.drop 5 }
          (by simp only [fuelFor, List.length_take, List.length_drop] at hfuel ⊢; omega)
          hsusp hcount rfl
        refine ⟨w', by simp [hproc, hlen, hrun], hrec, hcnt, hcomp, ?_⟩
        simpa [Entry.pending, List.take_append_drop] using hres
    | resume rest =>
      simp only at hproc
      cases rest with
      | nil =>
        unfold processFrameQueue
        by_cases hq : w.processingQueue = []
        · refine ⟨{ w with isProcessing := false }, by simp [hq, settle], rfl, hcount, rfl,
            Or.inl ?_⟩
          simp [hsusp, hq, Entry.pending]
        · have hlen : 0 < w.processingQueue.length := List.length_pos.mpr hq
          obtain ⟨w', hrun, hrec, hcnt, hcomp, hres⟩ := ih .call
            { w with isProcessing := false }
            (by simp only [fuelFor, List.length_nil] at hfuel ⊢; omega) hsusp hcount rfl
          refine ⟨w', by simp [hlen, hrun, settle], hrec, hcnt, hcomp, ?_⟩
          simpa [Entry.pending] using hres
      | cons frame rest =>
        have key : ∀ w1 : WorkerState,
            w1.frames = w.frames ++ [frame] → w1.frameCount = w.frameCount + 1 →
            w1.processingQueue = w.processingQueue → w1.isProcessing = true →
            w1.suspended = [] → w1.isRecording = w.isRecording →
            completions w1.posted = completions w.posted →
            ∃ w', (if w1.frameCount % 10 = 0 then
                some { w1 with suspended := w1.suspended ++ [⟨rest, false⟩] }
              else processFrameQueue now fuel (.resume rest) false w1) = some w' ∧
              w'.isRecording = w.isRecording ∧ w'.frameCount = w'.frames.length ∧
              completions w'.posted = completions w.posted ∧
              ((w'.isProcessing = false ∧ w'.suspended = [] ∧ w'.processingQueue = [] ∧
                  w'.frames = w.frames ++ (Entry.resume (frame :: rest)).pending w) ∨
                (w'.isProcessing = true ∧ ∃ rest', w'.suspended = [⟨rest', false⟩] ∧
                  w'.frames ++ rest' ++ w'.processingQueue =
                    w.frames ++ (Entry.resume (frame :: rest)).pending w)) := by
          intro w1 hf hc hqueue hp hs hr hcomp
          have hc1 : w1.frameCount = w1.frames.length := by
            rw [hc, hf, hcount]; simp
          by_cases hpark : w1.frameCount % 10 = 0
          · refine ⟨{ w1 with suspended := w1.suspended ++ [⟨rest, false⟩] },
              by rw [if_pos hpark], hr, hc1, hcomp, Or.inr ⟨hp, rest, ?_, ?_⟩⟩
            · simp [hs]
            · simp [hf, hqueue, Entry.pending]
          · obtain ⟨w', hrun, hrec, hcnt, hcomp', hres⟩ := ih (.resume rest) w1
              (by simp only [fuelFor, List.length_cons, hqueue] at hfuel ⊢; omega) hs hc1 hp
            refine ⟨w', by rw [if_neg hpark]; exact hrun, hrec.trans hr, hcnt,
              hcomp'.trans hcomp, ?_⟩
            simpa [Entry.pending, hf, hqueue, List.append_assoc] using hres
        unfold processFrameQueue
        refine key _ ?_ ?_ ?_ ?_ ?_ ?_ ?_
        all_goals dsimp only
        all_goals split
        all_goals simp [hproc, hsusp, completions_append, completions]

/-- A start delivered while no invocation is parked opens a session with nothing accepted. -/
theorem step_start_inv (now : Int) (w : WorkerState) (hsusp : w.suspended = []) :
    ∃ w', step w now (.message .start) = some w' ∧
      SessionInv (completions w.posted) [] w' := by
  refine ⟨_, rfl, rfl, rfl, ?_, Or.inl ⟨rfl, hsusp, rfl, rfl⟩⟩
  simp [completions_append, completions]

/-- A frame delivered during a session is accepted and the invariant is kept. -/
theorem step_frame_inv (now : Int) (base : List (List DataUrl × Nat))
    (accepted : List DataUrl) (w : WorkerState) (data : DataUrl)
    (h : SessionInv base accepted w) :
    ∃ w', step w now (.message (.frame data)) = some w' ∧
      SessionInv base (accepted ++ [data]) w' := by
  obtain ⟨hrec, hcount, hbase, hcases⟩ := h
  rcases hcases with ⟨hproc, hsusp, hqueue, hframes⟩ | ⟨hproc, rest, hsusp, hframes⟩
  · obtain ⟨w', hrun, hrec', hcount', hcomp', hres⟩ := processFrameQueue_conserves now
      (fuelFor .call { w with processingQueue := w.processingQueue ++ [data] }) .call
      { w with processingQueue := w.processingQueue ++ [data] } (Nat.le_refl _) hsusp hcount
      hproc
    have hstep : step w now (.message (.frame data)) = some w' := by
      rw [← hrun]
      simp [step, onmessage, hrec, hproc]
    refine ⟨w', hstep, hrec'.trans hrec, hcount', hcomp'.trans hbase, ?_⟩
    simpa [Entry.pending, hqueue, hframes] using hres
  · refine ⟨{ w with processingQueue := w.processingQueue ++ [data] },
      by simp [step, onmessage, hrec, hproc], hrec, hcount, hbase,
      Or.inr ⟨hproc, rest, hsusp, ?_⟩⟩
    simp [← hframes, List.append_assoc]

/-- The timer of a yield firing during a session keeps the invariant. -/
theorem step_timer_inv (now : Int) (base : List (List DataUrl × Nat))
    (accepted : List DataUrl) (w : WorkerState) (h : SessionInv base accepted w) :
    ∃ w', step w now .timer = some w' ∧ SessionInv base accepted w' := by
  obtain ⟨hrec, hcount, hbase, hcases⟩ := h
  rcases hcases with ⟨hproc, hsusp, hqueue, hframes⟩ | ⟨hproc, rest, hsusp, hframes⟩
  · exact ⟨w, by simp [step, onTimer, hsusp],
      hrec, hcount, hbase, Or.inl ⟨hproc, hsusp, hqueue, hframes⟩⟩
  · obtain ⟨w', hrun, hrec', hcount', hcomp', hres⟩ := processFrameQueue_conserves now
      (fuelFor (.resume rest) { w with suspended := [] }) (.resume rest)
      { w with suspended := [] } (Nat.le_refl _) rfl hcount hproc
    have hstep : step w now .timer = some w' := by
      rw [← hrun]
      simp [step, onTimer, hsusp]
    refine ⟨w', hstep, hrec'.trans hrec, hcount', hcomp'.trans hbase, ?_⟩
    simpa [Entry.pending, ← hframes, List.append_assoc] using hres

/-- Frames and timers in any order keep the invariant; the accepted frames grow by the
frames delivered. -/
theorem run_session_inv :
    ∀ (sched : List (Int × Event)),
      (∀ e ∈ sched, e.2 = .timer ∨ ∃ data, e.2 = .message (.frame data)) →
      ∀ (base : List (List DataUrl × Nat)) (accepted : List DataUrl) (w : WorkerState),
        SessionInv base accepted w →
        ∃ w', run w sched = some w' ∧
          SessionInv base (accepted ++ deliveredFrames sched) w' := by
  intro sched
  induction sched with
  | nil =>
    intro _ base accepted w h
    exact ⟨w, rfl, by simpa [deliveredFrames] using h⟩
  | cons e rest ih =>
    intro hs base accepted w h
    obtain ⟨now, ev⟩ := e
    have hrest : ∀ e ∈ rest, e.2 = .timer ∨ ∃ data, e.2 = .message (.frame data) :=
      fun e he => hs e (List.mem_cons_of_mem _ he)
    rcases hs (now, ev) (List.mem_cons_self _ _) with htimer | ⟨data, hframe⟩
    · simp only at htimer
      subst htimer
      obtain ⟨w1, hstep, hinv⟩ := step_timer_inv now base accepted w h
      obtain ⟨w', hrun, hinv'⟩ := ih hrest base accepted w1 hinv
      exact ⟨w', by simp [run, hstep, hrun], by simpa [deliveredFrames] using hinv'⟩
    · simp only at hframe
      subst hframe
      obtain ⟨w1, hstep, hinv⟩ := step_frame_inv now base accepted w data h
      obtain ⟨w', hrun, hinv'⟩ := ih hrest base (accepted ++ [data]) w1 hinv
      exact ⟨w', by simp [run, hstep, hrun],
        by simpa [deliveredFrames, List.append_assoc] using hinv'⟩

/-- A stop delivered during a session posts at once one `complete` message: it carries
`frames` as they are, with their number as count. These are a prefix of the accepted
frames, and all of them when no invocation is parked. -/
theorem step_stop_inv (now : Int) (base : List (List DataUrl × Nat))
    (accepted : List DataUrl) (w : WorkerState) (h : SessionInv base accepted w) :
    ∃ w', step w now (.message .stop) = some w' ∧
      completions w'.posted = base ++ [(w.frames, w.frames.length)] ∧
      w.frames <+: accepted ∧ (w.isProcessing = false → w.frames = accepted) := by
  obtain ⟨hrec, hcount, hbase, hcases⟩ := h
  rcases hcases with ⟨hproc, hsusp, hqueue, hframes⟩ | ⟨hproc, rest, hsusp, hframes⟩
  · refine ⟨postComplete { w with isRecording := false }, ?_, ?_, ?_, fun _ => hframes⟩
    · simp [step, onmessage, fuelFor, processFrameQueue, hproc, hqueue, settle]
    · simp [postComplete, completions_append, completions, hbase, hcount]
    · rw [hframes]
  · refine ⟨postComplete { w with isRecording := false }, ?_, ?_, ?_, ?_⟩
    · simp [step, onmessage, fuelFor, processFrameQueue, hproc, settle]
    · simp [postComplete, completions_append, completions, hbase, hcount]
    · exact ⟨rest ++ w.processingQueue, by rw [← List.append_assoc]; exact hframes⟩
    · intro hfalse; rw [hproc] at hfalse; cases hfalse

theorem run_append (w : WorkerState) (s₁ s₂ : List (Int × Event)) :
    run w (s₁ ++ s₂) = (run w s₁).bind (fun w' => run w' s₂) := by
  induction s₁ generalizing w with
  | nil => rfl
  | cons e rest ih =>
    obtain ⟨now, ev⟩ := e
    simp only [List.cons_append, run]
    cases step w now ev with
    | none => rfl
    | some w1 => exact ih w1

/-- What holds of C3 on the code: in a session start, frames and yield timers in any order,
stop, on a freshly loaded worker, exactly one `complete` message is posted; its frames are
a prefix of the delivered frames d1, .., dN in their order (none duplicated or reordered,
possibly a tail missing), its count is their number, and they are all N frames whenever no
invocation is parked at the yield when stop is delivered. -/
theorem session_complete_is_prefix (t₀ t₁ : Int) (sched : List (Int × Event))
    (hs : ∀ e ∈ sched, e.2 = .timer ∨ ∃ data, e.2 = .message (.frame data)) :
    ∃ w₁ w frames,
      run init ((t₀, .message .start) :: sched) = some w₁
      ∧ run init ((t₀, .message .start) :: sched ++ [(t₁, .message .stop)]) = some w
      ∧ completions w.posted = [(frames, frames.length)]
      ∧ frames <+: deliveredFrames sched
      ∧ (w₁.isProcessing = false → frames = deliveredFrames sched) := by
  obtain ⟨w0, hstart, hinv0⟩ := step_start_inv t₀ init rfl
  obtain ⟨w₁, hrun, hinv1⟩ := run_session_inv sched hs _ _ w0 hinv0
  obtain ⟨w, hstop, hcomp, hpre, hall⟩ := step_stop_inv t₁ _ _ w₁ hinv1
  have h1 : run init ((t₀, .message .start) :: sched) = some w₁ := by
    simp [run, hstart, hrun]
  refine ⟨w₁, w, w₁.frames, h1, ?_, ?_, ?_, ?_⟩
  · rw [run_append, h1]
    simp [run, hstop]
  · simpa [init, completions] using hcomp
  · simpa using hpre
  · simpa using hall

/-! ## Counts of the complete messages -/

/-- An invocation of `processFrameQueue` on which nothing hangs keeps what `TaskInv` needs:
it parks only invocations on which nothing hangs, leaves the queue empty unless
`isProcessing` is set, keeps `frameCount` equal to the length of `frames`, and posts no
`complete` message. -/
theorem processFrameQueue_keeps (now : Int) :
    ∀ (fuel : Nat) (entry : Entry) (w w' : WorkerState),
      processFrameQueue now fuel entry false w = some w' →
      (∀ c ∈ w.suspended, c.notify = false) →
      (entry = .call ∨ (w.isProcessing = false → w.processingQueue = [])) →
      (∀ c ∈ w'.suspended, c.notify = false) ∧
        (w'.isProcessing = false → w'.processingQueue = []) ∧
        (w.frameCount = w.frames.length → w'.frameCount = w'.frames.length) ∧
        completions w'.posted = completions w.posted := by
  intro fuel
  induction fuel with
  | zero =>
    intro entry w w' h
    simp [processFrameQueue] at h
  | succ fuel ih =>
    intro entry w w' hrun hsusp hpre
    cases entry with
    | call =>
      unfold processFrameQueue at hrun
      by_cases hguard : (w.isProcessing || w.processingQueue.length == 0) = true
      · simp only [hguard, if_true, settle, Option.some.injEq] at hrun
        simp only [Bool.false_eq_true, if_false] at hrun
        subst hrun
        refine ⟨hsusp, ?_, id, rfl⟩
        intro hp
        simp only [hp, Bool.false_or, beq_iff_eq] at hguard
        exact List.length_eq_zero.mp hguard
      · simp only [hguard, if_false] at hrun
        obtain ⟨h1, h2, h3, h4⟩ := ih _ _ _ hrun hsusp (Or.inr (by simp))
        exact ⟨h1, h2, h3, h4⟩
    | resume rest =>
      have hq : w.isProcessing = false → w.processingQueue = [] := by
        rcases hpre with h | h
        · cases h
        · exact h
      cases rest with
      | nil =>
        unfold processFrameQueue at hrun
        by_cases hlen : w.processingQueue.length > 0
        · simp only [hlen, if_true] at hrun
          cases hcall : processFrameQueue now fuel .call false { w with isProcessing := false } with
          | none => simp [hcall] at hrun
          | some w1 =>
            simp only [hcall, settle, Option.some.injEq] at hrun
            simp only [Bool.false_eq_true, if_false] at hrun
            subst hrun
            exact ih .call { w with isProcessing := false } w1 hcall hsusp (Or.inl rfl)
        · simp only [hlen, if_false, settle, Option.some.injEq] at hrun
          simp only [Bool.false_eq_true, if_false] at hrun
          subst hrun
          refine ⟨hsusp, ?_, id, rfl⟩
          intro _
          exact List.length_eq_zero.mp (by simpa using hlen)
      | cons frame rest =>
        have key : ∀ w1 : WorkerState,
            w1.frames = w.frames ++ [frame] → w1.frameCount = w.frameCount + 1 →
            w1.processingQueue = w.processingQueue → w1.isProcessing = w.isProcessing →
            w1.suspended = w.suspended → completions w1.posted = completions w.posted →
            (if w1.frameCount % 10 = 0 then
                some { w1 with suspended := w1.suspended ++ [⟨rest, false⟩] }
              else processFrameQueue now fuel (.resume rest) false w1) = some w' →
            (∀ c ∈ w'.suspended, c.notify = false) ∧
              (w'.isProcessing = false → w'.processingQueue = []) ∧
              (w.frameCount = w.frames.length → w'.frameCount = w'.frames.length) ∧
              completions w'.posted = completions w.posted := by
          intro w1 hf hc hqueue hp hs hcomp hrun1
          have hc1 : w.frameCount = w.frames.length → w1.frameCount = w1.frames.length := by
            intro h; rw [hc, hf, h]; simp
          by_cases hpark : w1.frameCount % 10 = 0
          · simp only [hpark, if_true, Option.some.injEq] at hrun1
            subst hrun1
            refine ⟨?_, ?_, hc1, hcomp⟩
            · intro c hcmem
              simp only [hs, List.mem_append, List.mem_singleton] at hcmem
              rcases hcmem with hcmem | rfl
              · exact hsusp c hcmem
              · rfl
            · intro hfalse
              simp only at hfalse ⊢
              rw [hqueue]
              exact hq (hp ▸ hfalse)
          · simp only [hpark, if_false] at hrun1
            obtain ⟨h1, h2, h3, h4⟩ := ih _ _ _ hrun1 (by rw [hs]; exact hsusp)
              (Or.inr (by rw [hp, hqueue]; exact hq))
            exact ⟨h1, h2, fun h => h3 (hc1 h), h4.trans hcomp⟩
        unfold processFrameQueue at hrun
        refine key _ ?_ ?_ ?_ ?_ ?_ ?_ hrun
        all_goals dsimp only
        all_goals split
        all_goals simp [completions_append, completions]

/-- One task keeps `TaskInv`; a stop must find a session open, after it none is open,
and after a start one is. -/
theorem step_keeps_inv (now : Int) (e : Event) (sessionOpen : Bool) (w w' : WorkerState)
    (hinv : TaskInv sessionOpen w) (hstep : step w now e = some w')
    (hstop : e = .message .stop → sessionOpen = true) :
    TaskInv (sessionOpenAfter sessionOpen e) w' := by
  obtain ⟨hsusp, hqueue, hcount, hcomp⟩ := hinv
  cases e with
  | timer =>
    simp only [step, onTimer] at hstep
    cases hs : w.suspended with
    | nil =>
      simp only [hs, Option.some.injEq] at hstep
      subst hstep
      exact ⟨hsusp, hqueue, hcount, hcomp⟩
    | cons c cs =>
      simp only [hs] at hstep
      have hc : c.notify = false := hsusp c (by rw [hs]; exact List.mem_cons_self _ _)
      rw [hc] at hstep
      obtain ⟨h1, h2, h3, h4⟩ := processFrameQueue_keeps now _ _ _ _ hstep
        (fun c' hc' => hsusp c' (by rw [hs]; exact List.mem_cons_of_mem _ hc'))
        (Or.inr hqueue)
      exact ⟨h1, h2, fun ho => h3 (hcount ho), by rw [h4]; exact hcomp⟩
  | message m =>
    cases m with
    | start =>
      simp only [step, onmessage, Option.some.injEq] at hstep
      subst hstep
      refine ⟨hsusp, fun _ => rfl, fun _ => rfl, ?_⟩
      simpa [completions_append, completions] using hcomp
    | frame data =>
      cases hrec : w.isRecording with
      | false =>
        simp [step, onmessage, hrec] at hstep
        subst hstep
        exact ⟨hsusp, hqueue, hcount, hcomp⟩
      | true =>
        cases hproc : w.isProcessing with
        | true =>
          simp [step, onmessage, hrec, hproc] at hstep
          subst hstep
          exact ⟨hsusp, fun h => by simp [hproc] at h, hcount, hcomp⟩
        | false =>
          simp [step, onmessage, hrec, hproc] at hstep
          obtain ⟨h1, h2, h3, h4⟩ := processFrameQueue_keeps now _ _ _ _ hstep hsusp
            (Or.inl rfl)
          exact ⟨h1, h2, fun ho => h3 (hcount ho), by rw [h4]; exact hcomp⟩
    | stop =>
      have hopen := hstop rfl
      have hguard : (w.isProcessing || w.processingQueue.length == 0) = true := by
        cases hp : w.isProcessing with
        | true => rfl
        | false => simp [hqueue hp]
      simp only [step, onmessage, fuelFor, processFrameQueue, hguard, if_true, settle,
        postComplete, Option.some.injEq] at hstep
      subst hstep
      refine ⟨hsusp, hqueue, fun h => (by cases h), ?_⟩
      intro p hp
      simp only [completions_append, completions, List.mem_append, List.mem_singleton] at hp
      rcases hp with hp | rfl
      · exact hcomp p hp
      · exact hcount hopen

/-- Every schedule whose start and stop messages alternate runs to its end and keeps
`TaskInv`. -/
theorem run_keeps_inv :
    ∀ (sched : List (Int × Event)) (sessionOpen : Bool) (w : WorkerState),
      TaskInv sessionOpen w → alternates (!sessionOpen) sched = true →
      ∃ w', run w sched = some w' ∧ ∀ p ∈ completions w'.posted, p.2 = p.1.length := by
  intro sched
  induction sched with
  | nil =>
    intro sessionOpen w hinv _
    exact ⟨w, rfl, hinv.2.2.2⟩
  | cons e rest ih =>
    intro sessionOpen w hinv halt
    obtain ⟨now, ev⟩ := e
    have hsome := step_isSome w now ev
    cases hstep : step w now ev with
    | none => rw [hstep] at hsome; cases hsome
    | some w1 =>
      simp only [run, hstep]
      cases ev with
      | timer =>
        exact ih sessionOpen w1 (step_keeps_inv now .timer sessionOpen w w1 hinv hstep
          (fun h => by cases h)) (by simpa [alternates] using halt)
      | message m =>
        cases m with
        | start =>
          simp only [alternates, Bool.and_eq_true] at halt
          exact ih true w1 (step_keeps_inv now (.message .start) sessionOpen w w1 hinv hstep
            (fun h => by cases h)) (by simpa using halt.2)
        | frame data =>
          exact ih sessionOpen w1 (step_keeps_inv now (.message (.frame data)) sessionOpen
            w w1 hinv hstep (fun h => by cases h)) (by simpa [alternates] using halt)
        | stop =>
          simp only [alternates, Bool.and_eq_true, Bool.not_not] at halt
          have hopen : sessionOpen = true := by simpa using halt.1
          exact ih false w1 (step_keeps_inv now (.message .stop) sessionOpen w w1 hinv hstep
            (fun _ => hopen)) (by simpa using halt.2)

/-- C19. On a freshly loaded worker, under every schedule of messages and yield timers
whose start and stop messages alternate, every task runs to its end and every `complete`
message carries count = frames.length. For such a message every frame index below count
is present in frames, the inner loop of every batch of `createPiHardwareEncodedVideo(frames,
count)` finds all its frames, and the upload loop throws only what a rejected `fetch`
throws. -/
theorem complete_count_is_frames_length (sched : List (Int × Event))
    (halt : alternates true sched = true) :
    ∃ w, run init sched = some w ∧
      ∀ p ∈ completions w.posted,
        p.2 = p.1.length
        ∧ (∀ i, i < p.2 → ∃ part, framePart p.1 i = some part)
        ∧ (∀ batchStart, batchStart < p.2 →
            ∃ parts, batchParts p.1 batchStart
              (min (batchStart + batchSize) p.2 - batchStart) = some parts)
        ∧ (∀ (env : EncodeEnv) (fps : JsNumber) (tb fuel : Nat) (log : List Effect)
            (r : TryResult) (message : String),
            uploadLoop env p.1 p.2 fps tb fuel 0 0 log = some r →
            r.thrown = some message → ∃ k, env.upload k = .rejected message) := by
  have hinit : TaskInv false init :=
    ⟨fun c hc => (by cases hc), fun _ => rfl, fun h => (by cases h),
      fun p hp => (by cases hp)⟩
  obtain ⟨w, hrun, hall⟩ := run_keeps_inv sched false init hinit halt
  refine ⟨w, hrun, fun p hp => ?_⟩
  have hcount := hall p hp
  refine ⟨hcount, ?_, ?_, ?_⟩
  · intro i hi
    have hi' : i < p.1.length := by omega
    exact ⟨⟨frameName i, p.1[i]⟩, by simp [framePart, List.getElem?_eq_getElem hi']⟩
  · intro batchStart hb
    exact ⟨_, batchParts_eq_map p.1 _ batchStart (by omega)⟩
  · intro env fps tb fuel log r message hloop hthrown
    exact uploadLoop_throws_only_rejections env p.1 p.2 fps tb (by omega) fuel 0 0 log r
      hloop message hthrown

theorem complete_count_is_frames_length_witness :
    alternates true
        [(0, .message .start), (1, .message (.frame 1)), (2, .message (.frame 2)),
          (3, .message (.frame 3)), (4, .message (.frame 4)), (5, .message (.frame 5)),
          (6, .message (.frame 6)), (7, .message (.frame 7)), (8, .message (.frame 8)),
          (9, .message (.frame 9)), (10, .message (.frame 10)), (11, .message (.frame 11)),
          (12, .message .stop), (13, .message .start), (14, .timer),
          (15, .message (.frame 12)), (16, .message .stop)] = true
    ∧ ∃ w, run init
        [(0, .message .start), (1, .message (.frame 1)), (2, .message (.frame 2)),
          (3, .message (.frame 3)), (4, .message (.frame 4)), (5, .message (.frame 5)),
          (6, .message (.frame 6)), (7, .message (.frame 7)), (8, .message (.frame 8)),
          (9, .message (.frame 9)), (10, .message (.frame 10)), (11, .message (.frame 11)),
          (12, .message .stop), (13, .message .start), (14, .timer),
          (15, .message (.frame 12)), (16, .message .stop)] = some w
      ∧ completions w.posted = [([1, 2, 3, 4, 5, 6, 7, 8, 9, 10], 10), ([12], 1)]
      ∧ ∀ p ∈ completions w.posted, p.2 = p.1.length := by
  refine ⟨rfl, ?_⟩
  obtain ⟨w, hrun, hall⟩ := complete_count_is_frames_length
    [(0, .message .start), (1, .message (.frame 1)), (2, .message (.frame 2)),
      (3, .message (.frame 3)), (4, .message (.frame 4)), (5, .message (.frame 5)),
      (6, .message (.frame 6)), (7, .message (.frame 7)), (8, .message (.frame 8)),
      (9, .message (.frame 9)), (10, .message (.frame 10)), (11, .message (.frame 11)),
      (12, .message .stop), (13, .message .start), (14, .timer),
      (15, .message (.frame 12)), (16, .message .stop)] rfl
  refine ⟨w, hrun, ?_, fun p hp => (hall p hp).1⟩
  have hw : some w = some _ := hrun.symm.trans rfl
  injection hw with hw
  rw [hw]
  rfl

end App.Worker

namespace VideoRecording

/-! ## Capture and local bundling -/

theorem downloadsOf_log_append (l₁ l₂ : List Effect) :
    downloadsOf (l₁ ++ l₂) = downloadsOf l₁ ++ downloadsOf l₂ := by
  induction l₁ with
  | nil => rfl
  | cons e l ih => cases e <;> simp [downloadsOf, ih]

theorem alertsOf_log_append (l₁ l₂ : List Effect) :
    alertsOf (l₁ ++ l₂) = alertsOf l₁ ++ alertsOf l₂ := by
  induction l₁ with
  | nil => rfl
  | cons e l ih => cases e <;> simp [alertsOf, ih]

theorem captureFrames_recording (t : Tick) (p : State) (hrec : p.isRecording = true)
    (hfc : p.frameCapture = true) (hraf : 0 < p.rafPending) :
    captureFrames t p =
      ⟨match t.encoded with
        | some blob =>
          if t.complete = true ∧ t.naturalWidth ≠ 0 ∧
              1000 * 1000 ≤ (t.now - p.lastFrameTime) * 60 then
            { p with recordedFrames := p.recordedFrames ++ [blob], lastFrameTime := t.now }
          else p
        | none => p, none⟩ := by
  obtain ⟨ri, rst, cam, isRec, fc, frames, last, ivs, next, raf, pc, log⟩ := p
  simp only at hrec hfc hraf
  subst hrec hfc
  have hraf0 : raf ≠ 0 := by omega
  have hraf1 : raf - 1 + 1 = raf := by omega
  obtain ⟨tnow, complete, width, encoded⟩ := t
  cases encoded with
  | none =>
    by_cases hc : complete = true <;> by_cases hw : width = 0 <;>
      by_cases hi : (1000000 : Int) ≤ (tnow - last) * 60 <;>
      simp [captureFrames, frameCapture, intervalElapsed, hraf0, hraf1, hc, hw, hi]
  | some blob =>
    by_cases hc : complete = true <;> by_cases hw : width = 0 <;>
      by_cases hi : (1000000 : Int) ≤ (tnow - last) * 60 <;>
      simp [captureFrames, frameCapture, intervalElapsed, hraf0, hraf1, hc, hw, hi]

theorem runTicks_recording (ticks : List Tick) :
    ∀ p : State, p.isRecording = true → p.frameCapture = true → 0 < p.rafPending →
      (runTicks p ticks).recordedFrames = p.recordedFrames ++ specCaptured p.lastFrameTime ticks
      ∧ (runTicks p ticks).isRecording = true
      ∧ (runTicks p ticks).log = p.log
      ∧ (runTicks p ticks).currentCameraNum = p.currentCameraNum
      ∧ (runTicks p ticks).recordingStartTime = p.recordingStartTime
      ∧ (runTicks p ticks).recordingInterval = p.recordingInterval
      ∧ (runTicks p ticks).intervals = p.intervals := by
  induction ticks with
  | nil => intro p h _ _; simp [runTicks, specCaptured, h]
  | cons t ts ih =>
    intro p hrec hfc hraf
    rw [runTicks, captureFrames_recording t p hrec hfc hraf]
    cases henc : t.encoded with
    | none =>
      simp only [specCaptured, henc]
      exact ih p hrec hfc hraf
    | some blob =>
      by_cases hcond : t.complete = true ∧ t.naturalWidth ≠ 0 ∧
          1000 * 1000 ≤ (t.now - p.lastFrameTime) * 60
      · simp only [specCaptured, henc, if_pos hcond]
        have h := ih
          { p with recordedFrames := p.recordedFrames ++ [blob], lastFrameTime := t.now }
          hrec hfc hraf
        simpa only [List.append_assoc, List.singleton_append] using h
      · simp only [specCaptured, henc, if_neg hcond]
        exact ih p hrec hfc hraf

/-- What `startRecording` from an idle state does to the fields that a session reads,
whatever elements the page has and whether or not the start goes through. -/
theorem startRecording_idle (dom : Dom) (now date : Int) (p : State)
    (hidle : p.isRecording = false) :
    (startRecording dom now date p).state.frameCapture = p.frameCapture
    ∧ (startRecording dom now date p).state.rafPending = p.rafPending + 1
    ∧ (startRecording dom now date p).state.recordedFrames = []
    ∧ (startRecording dom now date p).state.lastFrameTime = now
    ∧ (startRecording dom now date p).state.currentCameraNum = p.currentCameraNum
    ∧ downloadsOf (startRecording dom now date p).state.log = downloadsOf p.log := by
  obtain ⟨img, b1, b2, st, tm, al⟩ := dom
  cases b1 <;> cases b2 <;> cases st <;> cases tm <;> cases al <;>
    simp [startRecording, hidle, showRecordingAlert, updateUIForRecording, Outcome.andThen,
      State.emit, setRecordingInterval, downloadsOf_log_append, downloadsOf, nullMessage]

/-- The download that `stopRecording` offers for a session with at least one frame. -/
theorem stopRecording_download (dom : Dom) (env : StopEnv) (p : State)
    (hrec : p.isRecording = true) (hframes : p.recordedFrames ≠ []) :
    downloadsOf (stopRecording dom env p).state.log =
      downloadsOf p.log ++
        (if env.blobError = none ∧ env.urlError = none then
          [("video_cam_" ++ p.currentCameraNum ++ "_" ++ env.timestamp ++ ".mjpeg",
            p.recordedFrames)]
        else []) := by
  have hlen : 0 < p.recordedFrames.length := List.length_pos.mpr hframes
  obtain ⟨img, b1, b2, st, tm, al⟩ := dom
  cases hint : p.recordingInterval <;> cases hblob : env.blobError <;>
  cases hurl : env.urlError <;>
  cases b1 <;> cases b2 <;> cases st <;> cases tm <;> cases al <;>
    simp [stopRecording, hrec, hlen, hblob, hurl, showRecordingAlert, updateUIForRecording,
      Outcome.andThen, State.emit, clearRecordingInterval, hint, downloadsOf_log_append,
      downloadsOf]

/-- A run made of `startRecording`, capture ticks and `stopRecording` only, with no deferred
clean-up callback running in between, started from any idle state (whatever frames an
earlier session left in `recordedFrames`) and in which the start goes through and at least
one tick passes the capture conditions and encodes: unless building the blob or its URL
throws, the run offers exactly one download, and the blob offered is built from exactly the
blobs of those ticks, in tick order. -/
theorem session_download_is_captured_frames (dom : Dom) (now date : Int) (env : StopEnv)
    (p : State) (ticks : List Tick) (hidle : p.isRecording = false)
    (hfc : p.frameCapture = true)
    (hstarted : (startRecording dom now date p).state.isRecording = true)
    (hN : specCaptured now ticks ≠ []) :
    downloadsOf
        (stopRecording dom env (runTicks (startRecording dom now date p).state ticks)).state.log =
      downloadsOf p.log ++
        (if env.blobError = none ∧ env.urlError = none then
          [("video_cam_" ++ p.currentCameraNum ++ "_" ++ env.timestamp ++ ".mjpeg",
            specCaptured now ticks)]
        else []) := by
  obtain ⟨h1fc, h1raf, h1frames, h1last, h1cam, h1log⟩ :=
    startRecording_idle dom now date p hidle
  obtain ⟨h2frames, h2rec, h2log, h2cam, -⟩ :=
    runTicks_recording ticks (startRecording dom now date p).state hstarted
      (by rw [h1fc]; exact hfc) (by rw [h1raf]; omega)
  rw [h1frames, h1last, List.nil_append] at h2frames
  rw [stopRecording_download dom env _ h2rec (by rw [h2frames]; exact hN),
    h2frames, h2log, h2cam, h1cam, h1log]

theorem session_download_is_captured_frames_witness :
    downloadsOf
        (stopRecording controlPage ⟨90000, "t", none, none⟩
          (runTicks (startRecording controlPage 0 0
            { (initVideoRecording controlPage init) with recordedFrames := [99] }).state
            [⟨20000, true, 640, some 1⟩, ⟨30000, true, 640, some 2⟩,
              ⟨40000, true, 640, some 3⟩, ⟨60000, false, 640, some 4⟩,
              ⟨80000, true, 640, some 5⟩])).state.log =
      [("video_cam_undefined_t.mjpeg", [1, 3, 5])] :=
  session_download_is_captured_frames controlPage 0 0 ⟨90000, "t", none, none⟩
    { (initVideoRecording controlPage init) with recordedFrames := [99] }
    [⟨20000, true, 640, some 1⟩, ⟨30000, true, 640, some 2⟩, ⟨40000, true, 640, some 3⟩,
      ⟨60000, false, 640, some 4⟩, ⟨80000, true, 640, some 5⟩]
    rfl rfl rfl (by decide)

theorem clearRecordingInterval_not_mem (s : State) (id : Nat)
    (h : s.recordingInterval = some id) : id ∉ (clearRecordingInterval s).intervals := by
  simp [clearRecordingInterval, h]

/-- C7. Stopping a session that captured zero frames: `isRecording` becomes false, no blob,
object URL or link is created and no download is offered, whatever elements the page has.
When the page has its alert box the error `Error: No frames were captured` is shown, and
when it has all recording controls nothing is thrown, the controls are reset and the
elapsed-time timer is cleared. -/
theorem stopRecording_zero_frames (dom : Dom) (env : StopEnv) (p : State)
    (hp : p.isRecording = true) (hzero : p.recordedFrames = []) :
    (stopRecording dom env p).state.isRecording = false
    ∧ (stopRecording dom env p).state.log.filter Effect.isFinalization =
        p.log.filter Effect.isFinalization
    ∧ downloadsOf (stopRecording dom env p).state.log = downloadsOf p.log
    ∧ (dom.recordingAlert = true →
        alertsOf p.log ++ [(.plain "Error: No frames were captured", "danger")] <+:
          alertsOf (stopRecording dom env p).state.log)
    ∧ (dom.hasControls = true →
        (stopRecording dom env p).thrown = none
        ∧ (stopRecording dom env p).state.log = p.log ++
            [.alert (.plain "Error: No frames were captured") "danger",
              .setDisabled "startRecordingButton" false,
              .setDisabled "stopRecordingButton" true,
              .setDisplay "recordingStatus" "none",
              .setText "recordingTime" "00:00"]
        ∧ ∀ id, p.recordingInterval = some id →
            id ∉ (stopRecording dom env p).state.intervals) := by
  obtain ⟨img, b1, b2, st, tm, al⟩ := dom
  cases hint : p.recordingInterval <;>
  cases b1 <;> cases b2 <;> cases st <;> cases tm <;> cases al <;>
    simp [stopRecording, hp, hzero, showRecordingAlert, updateUIForRecording, Outcome.andThen,
      State.emit, clearRecordingInterval, hint, List.filter_append, Effect.isFinalization,
      downloadsOf_log_append, downloadsOf, alertsOf_log_append, alertsOf, Dom.hasControls,
      nullMessage]

theorem stopRecording_zero_frames_witness :
    (stopRecording controlPage ⟨50000, "t", none, none⟩
        (startRecording controlPage 0 0 (initVideoRecording controlPage init)).state).state.isRecording
      = false
    ∧ alertsOf (stopRecording controlPage ⟨50000, "t", none, none⟩
        (startRecording controlPage 0 0 (initVideoRecording controlPage init)).state).state.log =
      [(.plain "Recording started successfully", "success"),
        (.plain "Error: No frames were captured", "danger")]
    ∧ downloadsOf (stopRecording controlPage ⟨50000, "t", none, none⟩
        (startRecording controlPage 0 0 (initVideoRecording controlPage init)).state).state.log
      = [] := by
  have h := stopRecording_zero_frames controlPage ⟨50000, "t", none, none⟩
    (startRecording controlPage 0 0 (initVideoRecording controlPage init)).state rfl rfl
  exact ⟨h.1, by rw [(h.2.2.2.2 rfl).2.1]; rfl, by rw [h.2.2.1]; rfl⟩

/-! ## Deferred clean-up, capture gating and the reported duration -/

/-- C11 (failing input). A session with one frame is stopped, which defers the clean-up by
100 ms; a new session is started 50 ms later and captures a frame; then the deferred
clean-up of the first session runs. Across that step `isRecording` is true before and
after, and `recordedFrames` goes from the new session's frame to empty: the frame captured
in the active session is removed before the session is stopped. -/
theorem cleanup_of_earlier_stop_empties_active_session :
    (runSteps controlPage (initVideoRecording controlPage init)
        [.start 0 0, .tick ⟨20000, true, 640, some 1⟩, .stop ⟨30000, "t", none, none⟩,
          .start 80000 80, .tick ⟨100000, true, 640, some 2⟩]).isRecording = true
    ∧ (runSteps controlPage (initVideoRecording controlPage init)
        [.start 0 0, .tick ⟨20000, true, 640, some 1⟩, .stop ⟨30000, "t", none, none⟩,
          .start 80000 80, .tick ⟨100000, true, 640, some 2⟩]).recordedFrames = [2]
    ∧ (runSteps controlPage (initVideoRecording controlPage init)
        [.start 0 0, .tick ⟨20000, true, 640, some 1⟩, .stop ⟨30000, "t", none, none⟩,
          .start 80000 80, .tick ⟨100000, true, 640, some 2⟩, .cleanup]).isRecording = true
    ∧ (runSteps controlPage (initVideoRecording controlPage init)
        [.start 0 0, .tick ⟨20000, true, 640, some 1⟩, .stop ⟨30000, "t", none, none⟩,
          .start 80000 80, .tick ⟨100000, true, 640, some 2⟩, .cleanup]).recordedFrames = []
    ∧ downloadsOf (runSteps controlPage (initVideoRecording controlPage init)
        [.start 0 0, .tick ⟨20000, true, 640, some 1⟩, .stop ⟨30000, "t", none, none⟩,
          .start 80000 80, .tick ⟨100000, true, 640, some 2⟩, .cleanup,
          .tick ⟨150000, true, 640, some 3⟩, .stop ⟨160000, "u", none, none⟩]).log =
      [("video_cam_undefined_t.mjpeg", [1]), ("video_cam_undefined_u.mjpeg", [3])] := by
  refine ⟨rfl, rfl, rfl, rfl, rfl⟩

/-- What holds of C11 on the code: every step other than the deferred clean-up keeps the
frame sequence of an active session append-only. -/
theorem step_append_only (dom : Dom) (s : State) (st : Step) (hst : st ≠ .cleanup)
    (hbefore : s.isRecording = true) (hafter : (step dom s st).isRecording = true) :
    s.recordedFrames <+: (step dom s st).recordedFrames := by
  cases st with
  | cleanup => exact absurd rfl hst
  | start now date =>
    have h : (step dom s (.start now date)).recordedFrames = s.recordedFrames := by
      simp only [step, startRecording, hbefore, showRecordingAlert]
      cases dom.recordingAlert <;> rfl
    rw [h]
  | stop env =>
    exfalso
    have h : (step dom s (.stop env)).isRecording = false := by
      obtain ⟨img, b1, b2, st, tm, al⟩ := dom
      cases hint : s.recordingInterval <;> cases hblob : env.blobError <;>
      cases hurl : env.urlError <;> cases hfr : s.recordedFrames <;>
      cases b1 <;> cases b2 <;> cases st <;> cases tm <;> cases al <;>
        simp [step, stopRecording, hbefore, hblob, hurl, hfr, showRecordingAlert,
          updateUIForRecording, Outcome.andThen, State.emit, clearRecordingInterval, hint]
    rw [h] at hafter
    cases hafter
  | tick t =>
    simp only [step, captureFrames]
    split
    · exact List.prefix_refl _
    · simp only [hbefore, if_true]
      split
      · exact List.prefix_refl _
      · simp only [frameCapture]
        split
        · split
          · split
            · exact List.prefix_append _ _
            · exact List.prefix_refl _
          · exact List.prefix_refl _
        · exact List.prefix_refl _

theorem frameCapture_cases (t : Tick) (s : State) :
    (frameCapture t s = s) ∨
      (1000 * 1000 ≤ (t.now - s.lastFrameTime) * 60 ∧
        ∃ blob, frameCapture t s =
          { s with recordedFrames := s.recordedFrames ++ [blob], lastFrameTime := t.now }) := by
  unfold frameCapture
  split
  · split
    · rename_i hi
      cases henc : t.encoded with
      | none => exact Or.inl rfl
      | some blob =>
        refine Or.inr ⟨?_, blob, rfl⟩
        simpa [intervalElapsed] using hi
    · exact Or.inl rfl
  · exact Or.inl rfl

theorem captureFrames_cases (t : Tick) (s : State) :
    ((captureFrames t s).state.recordedFrames = s.recordedFrames ∧
        (captureFrames t s).state.lastFrameTime = s.lastFrameTime) ∨
      (1000 * 1000 ≤ (t.now - s.lastFrameTime) * 60 ∧
        (captureFrames t s).state.lastFrameTime = t.now ∧
        ∃ blob, (captureFrames t s).state.recordedFrames = s.recordedFrames ++ [blob]) := by
  by_cases hraf : s.rafPending = 0
  · exact Or.inl (by simp [captureFrames, hraf])
  · by_cases hrec : s.isRecording = true
    · by_cases hfc : s.frameCapture = true
      · have hrun : (captureFrames t s).state =
            { frameCapture t { s with rafPending := s.rafPending - 1 } with
              rafPending := (frameCapture t { s with rafPending := s.rafPending - 1 }).rafPending
                + 1 } := by
          simp [captureFrames, hraf, hrec, hfc]
        rw [hrun]
        rcases frameCapture_cases t { s with rafPending := s.rafPending - 1 } with
          h | ⟨hi, blob, h⟩
        · rw [h]; exact Or.inl ⟨rfl, rfl⟩
        · rw [h]; exact Or.inr ⟨hi, rfl, blob, rfl⟩
      · exact Or.inl (by simp [captureFrames, hraf, hrec, hfc])
    · exact Or.inl (by simp [captureFrames, hraf, hrec])

/-- C12. On every tick, in every state: a tick that comes less than 1000/60 ms after
`lastFrameTime` leaves the frame sequence and `lastFrameTime` unchanged; a tick that changes
the frame sequence comes at least 1000/60 ms after `lastFrameTime`, appends exactly one frame
and sets `lastFrameTime` to its own reading. `startRecording` from Idle sets `lastFrameTime`
to the reading of the start. Hence, over every sequence of ticks, the readings at which
frames are captured are each at least 1000/60 ms after the one before, the first one after
`lastFrameTime`. -/
theorem capture_is_interval_gated (dom : Dom) (now date : Int) (s : State) (t : Tick)
    (ticks : List Tick) :
    (¬ 1000 * 1000 ≤ (t.now - s.lastFrameTime) * 60 →
        (captureFrames t s).state.recordedFrames = s.recordedFrames ∧
        (captureFrames t s).state.lastFrameTime = s.lastFrameTime)
    ∧ ((captureFrames t s).state.recordedFrames ≠ s.recordedFrames →
        1000 * 1000 ≤ (t.now - s.lastFrameTime) * 60 ∧
        (captureFrames t s).state.lastFrameTime = t.now ∧
        ∃ blob, (captureFrames t s).state.recordedFrames = s.recordedFrames ++ [blob])
    ∧ (s.isRecording = false → (startRecording dom now date s).state.lastFrameTime = now)
    ∧ List.Chain (fun a b => 1000 * 1000 ≤ (b - a) * 60) s.lastFrameTime
        (captureTimes s ticks) := by
  refine ⟨?_, ?_, ?_, ?_⟩
  · intro hearly
    rcases captureFrames_cases t s with h | ⟨hi, -⟩
    · exact h
    · exact absurd hi hearly
  · intro hchanged
    rcases captureFrames_cases t s with ⟨h, -⟩ | h
    · exact absurd h hchanged
    · exact h
  · intro hidle
    exact (startRecording_idle dom now date s hidle).2.2.2.1
  · induction ticks generalizing s with
    | nil => exact List.Chain.nil
    | cons t ts ih =>
      simp only [captureTimes]
      rcases captureFrames_cases t s with ⟨hf, hl⟩ | ⟨hi, hl, blob, hf⟩
      · rw [if_neg (by simp [hf])]
        have h := ih (captureFrames t s).state
        rwa [hl] at h
      · rw [if_pos (by simp [hf])]
        have h := ih (captureFrames t s).state
        rw [hl] at h
        exact List.Chain.cons hi h

theorem capture_is_interval_gated_witness :
    captureTimes (startRecording controlPage 0 0 (initVideoRecording controlPage init)).state
        [⟨10000, true, 640, some 1⟩, ⟨20000, true, 640, some 2⟩, ⟨30000, true, 640, some 3⟩,
          ⟨36667, true, 640, some 4⟩, ⟨50000, true, 640, some 5⟩] = [20000, 36667]
    ∧ List.Chain (fun a b => 1000 * 1000 ≤ (b - a) * 60) (0 : Int) [20000, 36667]
    ∧ (startRecording controlPage 0 0 (initVideoRecording controlPage init)).state.lastFrameTime
      = 0 :=
  ⟨rfl,
    (capture_is_interval_gated controlPage 0 0
      (startRecording controlPage 0 0 (initVideoRecording controlPage init)).state
      ⟨10000, true, 640, some 1⟩
      [⟨10000, true, 640, some 1⟩, ⟨20000, true, 640, some 2⟩, ⟨30000, true, 640, some 3⟩,
        ⟨36667, true, 640, some 4⟩, ⟨50000, true, 640, some 5⟩]).2.2.2,
    (capture_is_interval_gated controlPage 0 0 (initVideoRecording controlPage init)
      ⟨10000, true, 640, some 1⟩ []).2.2.1 rfl⟩

/-- C20 (failing input). The page's time origin is 1 700 000 000 000 ms after the epoch.
`startRecording` runs 1 s after the origin, one frame is captured, and `stopRecording` runs
3 s after the origin, 2 s after the start. The duration from which the success message
is formatted is 3 000 000 - 1 700 000 001 000 000 microseconds: negative, and not the
2 000 000 microseconds that elapsed. -/
theorem stopRecording_duration_mixes_clocks :
    alertsOf (runSteps controlPage (initVideoRecording controlPage init)
        [.start 1000000 1700000001000, .tick ⟨1020000, true, 640, some 1⟩,
          .stop ⟨3000000, "t", none, none⟩]).log =
      [(.plain "Recording started successfully", "success"),
        (.saved 1 (some (-1699999998000000)), "success")]
    ∧ recordingDurationMicros 3000000 (some 1700000001000) = some (-1699999998000000)
    ∧ (-1699999998000000 : Int) < 0
    ∧ (-1699999998000000 : Int) ≠ 3000000 - 1000000 := by
  refine ⟨rfl, rfl, by decide, by decide⟩

/-- What the code computes in C20, in general: when the wall clock reads `origin` ms at the
page's time origin, a start at `startMs` ms and a stop at `stopMs` ms after the origin give
the elapsed time minus `origin`, so the elapsed time itself only for a zero origin. -/
theorem recordingDuration_off_by_time_origin (origin startMs stopMs : Int) :
    recordingDurationMicros (1000 * stopMs) (some (origin + startMs)) =
      some ((1000 * stopMs - 1000 * startMs) - 1000 * origin) := by
  simp only [recordingDurationMicros]
  congr 1
  ring

/-! ## A session that starts while a clean-up is pending -/

/-- C4 (failing input). A first session with one frame is stopped at 30 ms, which defers
its clean-up to 130 ms. The run of the claim follows: `startRecording` at 80 ms, ticks at
100, 120 and 150 ms that all pass the capture conditions and encode (N = 3), and
`stopRecording` at 160 ms. The clean-up of the first session fires at 130 ms, inside the
run, and the blob offered for download holds the last frame only: two captured frames are
dropped. -/
theorem download_misses_frames_cleared_by_earlier_cleanup :
    (runSteps controlPage (initVideoRecording controlPage init)
        [.start 0 0, .tick ⟨20000, true, 640, some 1⟩,
          .stop ⟨30000, "t", none, none⟩]).isRecording = false
    ∧ (runSteps controlPage (initVideoRecording controlPage init)
        [.start 0 0, .tick ⟨20000, true, 640, some 1⟩,
          .stop ⟨30000, "t", none, none⟩]).pendingCleanups = 1
    ∧ specCaptured 80000
        [⟨100000, true, 640, some 2⟩, ⟨120000, true, 640, some 3⟩,
          ⟨150000, true, 640, some 4⟩] = [2, 3, 4]
    ∧ downloadsOf (runSteps controlPage
        (runSteps controlPage (initVideoRecording controlPage init)
          [.start 0 0, .tick ⟨20000, true, 640, some 1⟩, .stop ⟨30000, "t", none, none⟩])
        [.start 80000 80, .tick ⟨100000, true, 640, some 2⟩,
          .tick ⟨120000, true, 640, some 3⟩, .cleanup, .tick ⟨150000, true, 640, some 4⟩,
          .stop ⟨160000, "u", none, none⟩]).log =
      downloadsOf (runSteps controlPage (initVideoRecording controlPage init)
          [.start 0 0, .tick ⟨20000, true, 640, some 1⟩,
            .stop ⟨30000, "t", none, none⟩]).log ++
        [("video_cam_undefined_u.mjpeg", [4])] := by
  refine ⟨rfl, rfl, rfl, rfl⟩

theorem startRecording_pendingCleanups (dom : Dom) (now date : Int) (p : State) :
    (startRecording dom now date p).state.pendingCleanups = p.pendingCleanups := by
  obtain ⟨img, b1, b2, st, tm, al⟩ := dom
  cases hrec : p.isRecording <;>
  cases b1 <;> cases b2 <;> cases st <;> cases tm <;> cases al <;>
    simp [startRecording, hrec, showRecordingAlert, updateUIForRecording, Outcome.andThen,
      State.emit, setRecordingInterval]

theorem captureFrames_pendingCleanups (t : Tick) (p : State) :
    (captureFrames t p).state.pendingCleanups = p.pendingCleanups := by
  by_cases hraf : p.rafPending = 0
  · simp [captureFrames, hraf]
  · by_cases hrec : p.isRecording = true
    · by_cases hfc : p.frameCapture = true
      · have hrun : (captureFrames t p).state =
            { frameCapture t { p with rafPending := p.rafPending - 1 } with
              rafPending := (frameCapture t { p with rafPending := p.rafPending - 1 }).rafPending
                + 1 } := by
          simp [captureFrames, hraf, hrec, hfc]
        rw [hrun]
        rcases frameCapture_cases t { p with rafPending := p.rafPending - 1 } with
          h | ⟨-, blob, h⟩
        · rw [h]
        · rw [h]
      · simp [captureFrames, hraf, hrec, hfc]
    · simp [captureFrames, hraf, hrec]

theorem runSteps_callbacks_without_pending_cleanup (dom : Dom) (mid : List Step) :
    ∀ p : State, p.pendingCleanups = 0 → (∀ st ∈ mid, st.isCallback = true) →
      runSteps dom p mid = runTicks p (ticksOf mid) := by
  induction mid with
  | nil => intro p _ _; rfl
  | cons st rest ih =>
    intro p hclean hmid
    have hrest : ∀ st ∈ rest, st.isCallback = true :=
      fun x hx => hmid x (List.mem_cons_of_mem _ hx)
    cases st with
    | start now date => exact absurd (hmid _ (List.mem_cons_self _ _)) (by simp [Step.isCallback])
    | stop env => exact absurd (hmid _ (List.mem_cons_self _ _)) (by simp [Step.isCallback])
    | tick t =>
      simp only [runSteps, step, ticksOf, runTicks]
      exact ih _ (by rw [captureFrames_pendingCleanups]; exact hclean) hrest
    | cleanup =>
      simp only [runSteps, step, ticksOf]
      have hid : cleanupCallback p = p := by simp [cleanupCallback, hclean]
      rw [hid]
      exact ih p hclean hrest

theorem runSteps_append (dom : Dom) (l₁ l₂ : List Step) :
    ∀ p : State, runSteps dom p (l₁ ++ l₂) = runSteps dom (runSteps dom p l₁) l₂ := by
  induction l₁ with
  | nil => intro p; rfl
  | cons st rest ih => intro p; exact ih _

/-- What holds of C4 on the code: when no clean-up of an earlier `stopRecording` is pending
at the start, then under every interleaving of the animation-frame callbacks with deferred
callbacks between `startRecording` and `stopRecording` the blob offered for download is
built from exactly the blobs of the ticks that pass the capture conditions and encode, in
tick order. -/
theorem session_download_without_pending_cleanup (dom : Dom) (now date : Int)
    (env : StopEnv) (p : State) (mid : List Step) (hidle : p.isRecording = false)
    (hfc : p.frameCapture = true) (hclean : p.pendingCleanups = 0)
    (hstarted : (startRecording dom now date p).state.isRecording = true)
    (hmid : ∀ st ∈ mid, st.isCallback = true)
    (hN : specCaptured now (ticksOf mid) ≠ []) :
    downloadsOf (runSteps dom p (.start now date :: (mid ++ [.stop env]))).log =
      downloadsOf p.log ++
        (if env.blobError = none ∧ env.urlError = none then
          [("video_cam_" ++ p.currentCameraNum ++ "_" ++ env.timestamp ++ ".mjpeg",
            specCaptured now (ticksOf mid))]
        else []) := by
  have hrun : runSteps dom p (.start now date :: (mid ++ [.stop env])) =
      (stopRecording dom env
        (runTicks (startRecording dom now date p).state (ticksOf mid))).state := by
    simp only [runSteps, step, runSteps_append]
    rw [runSteps_callbacks_without_pending_cleanup dom mid _
      (by rw [startRecording_pendingCleanups]; exact hclean) hmid]
  rw [hrun]
  exact session_download_is_captured_frames dom now date env p (ticksOf mid) hidle hfc
    hstarted hN

end VideoRecording

namespace Coordinator

/-! ## Start and stop in both clients -/

open VideoRecording

/-- C5. A stop request while no recording is active is rejected. On the control page
`stopRecording` only shows the warning (when the page has its alert box): it offers no
download and leaves `isRecording`, the frame sequence and the timer as they were. In the
viewer `handleStopRecording` returns the state unchanged, so no stop message is posted to
the worker and nothing else happens. -/
theorem stop_without_recording_rejected (s : App.AppState) (dom : Dom) (env : StopEnv)
    (p : State) (hs : s.isRecording = false) (hp : p.isRecording = false) :
    App.handleStopRecording s = s
    ∧ (stopRecording dom env p).state =
        (if dom.recordingAlert then
          p.emit (.alert (.plain "No active recording to stop.") "warning")
        else p)
    ∧ (stopRecording dom env p).state.isRecording = false
    ∧ (stopRecording dom env p).state.recordedFrames = p.recordedFrames
    ∧ (stopRecording dom env p).state.recordingInterval = p.recordingInterval
    ∧ (stopRecording dom env p).state.intervals = p.intervals
    ∧ downloadsOf (stopRecording dom env p).state.log = downloadsOf p.log := by
  have hstate : (stopRecording dom env p).state =
      (if dom.recordingAlert then
        p.emit (.alert (.plain "No active recording to stop.") "warning")
      else p) := by
    simp only [stopRecording, hp, showRecordingAlert]
    cases dom.recordingAlert <;> rfl
  refine ⟨?_, hstate, ?_, ?_, ?_, ?_, ?_⟩
  · simp [App.handleStopRecording, hs]
  all_goals rw [hstate]
  all_goals cases dom.recordingAlert
  all_goals simp [State.emit, hp, downloadsOf_log_append, downloadsOf]

theorem stop_without_recording_rejected_witness :
    App.handleStopRecording App.mounted = App.mounted
    ∧ (stopRecording controlPage ⟨0, "t", none, none⟩ init).state.log =
        [.alert (.plain "No active recording to stop.") "warning"] := by
  have h := stop_without_recording_rejected App.mounted controlPage ⟨0, "t", none, none⟩ init
    rfl rfl
  exact ⟨h.1, by rw [h.2.1]; rfl⟩

/-- C6. A start request while a recording is active is rejected. On the control page
`startRecording` only shows the warning (when the page has its alert box) and leaves the
frame sequence, the start timestamp, `lastFrameTime`, the timer and `isRecording` as they
were. In the viewer `handleStartRecording` returns the state unchanged, so the frame
counter and start timestamp are kept and no start message is posted to the worker. -/
theorem start_while_recording_rejected (s : App.AppState) (dom : Dom) (now date : Int)
    (p : State) (hs : s.isRecording = true) (hp : p.isRecording = true) :
    App.handleStartRecording now s = s
    ∧ (startRecording dom now date p).state =
        (if dom.recordingAlert then p.emit (.alert (.plain "Already recording.") "warning")
        else p)
    ∧ (startRecording dom now date p).state.isRecording = true
    ∧ (startRecording dom now date p).state.recordedFrames = p.recordedFrames
    ∧ (startRecording dom now date p).state.recordingStartTime = p.recordingStartTime
    ∧ (startRecording dom now date p).state.lastFrameTime = p.lastFrameTime
    ∧ (startRecording dom now date p).state.recordingInterval = p.recordingInterval
    ∧ (startRecording dom now date p).state.intervals = p.intervals := by
  have hstate : (startRecording dom now date p).state =
      (if dom.recordingAlert then p.emit (.alert (.plain "Already recording.") "warning")
      else p) := by
    simp only [startRecording, hp, showRecordingAlert]
    cases dom.recordingAlert <;> rfl
  refine ⟨?_, hstate, ?_, ?_, ?_, ?_, ?_, ?_⟩
  · simp [App.handleStartRecording, hs]
  all_goals rw [hstate]
  all_goals cases dom.recordingAlert
  all_goals simp [State.emit, hp]

theorem start_while_recording_rejected_witness :
    App.handleStartRecording 7 (App.handleStartRecording 0 App.mounted) =
      App.handleStartRecording 0 App.mounted
    ∧ (startRecording controlPage 7 7
        (startRecording controlPage 0 0 (initVideoRecording controlPage init)).state).state.log =
      (startRecording controlPage 0 0 (initVideoRecording controlPage init)).state.log ++
        [.alert (.plain "Already recording.") "warning"] := by
  have h := start_while_recording_rejected (App.handleStartRecording 0 App.mounted)
    controlPage 7 7 (startRecording controlPage 0 0 (initVideoRecording controlPage init)).state
    rfl rfl
  exact ⟨h.1, by rw [h.2.1]; rfl⟩

/-- C9 (failing input). A control page without the camera image element:
`initVideoRecording` leaves `frameCapture` null, and `startRecording` from Idle nevertheless
succeeds: nothing is thrown, `isRecording` is true, the elapsed-time timer is scheduled and
the only alert is the success message. The first animation frame then throws on calling
`frameCapture`, and still `isRecording` is true and the timer runs. -/
theorem startRecording_without_capture_stays_recording :
    (initVideoRecording { controlPage with cameraImage := false } init).frameCapture = false
    ∧ (startRecording { controlPage with cameraImage := false } 0 0
        (initVideoRecording { controlPage with cameraImage := false } init)).thrown = none
    ∧ (startRecording { controlPage with cameraImage := false } 0 0
        (initVideoRecording { controlPage with cameraImage := false } init)).state.isRecording
      = true
    ∧ (startRecording { controlPage with cameraImage := false } 0 0
        (initVideoRecording { controlPage with cameraImage := false } init)).state.intervals
      = [1]
    ∧ alertsOf (startRecording { controlPage with cameraImage := false } 0 0
        (initVideoRecording { controlPage with cameraImage := false } init)).state.log
      = [(.plain "Recording started successfully", "success")]
    ∧ (captureFrames ⟨20000, true, 640, some 1⟩
        (startRecording { controlPage with cameraImage := false } 0 0
          (initVideoRecording { controlPage with cameraImage := false } init)).state).thrown
      = some notAFunctionMessage
    ∧ (captureFrames ⟨20000, true, 640, some 1⟩
        (startRecording { controlPage with cameraImage := false } 0 0
          (initVideoRecording { controlPage with cameraImage := false } init)).state).state.isRecording
      = true
    ∧ (captureFrames ⟨20000, true, 640, some 1⟩
        (startRecording { controlPage with cameraImage := false } 0 0
          (initVideoRecording { controlPage with cameraImage := false } init)).state).state.intervals
      = [1] := by
  refine ⟨rfl, rfl, rfl, rfl, rfl, rfl, rfl, rfl⟩

/-- The viewer's side of C9: without a worker, `handleStartRecording` from Idle leaves
`isRecording` false, schedules no timer, reports the error and resets the loading flag. -/
theorem handleStartRecording_without_worker (now : Int) (s : App.AppState)
    (hidle : s.isRecording = false) (hworker : s.workerRef = false) :
    (App.handleStartRecording now s).isRecording = false
    ∧ (App.handleStartRecording now s).intervals = s.intervals
    ∧ (App.handleStartRecording now s).recordingTimerRef = s.recordingTimerRef
    ∧ (App.handleStartRecording now s).isLoading = false
    ∧ (App.handleStartRecording now s).log = s.log ++
        [.alert "Failed to start recording: Recording worker not available"] := by
  simp [App.handleStartRecording, hidle, hworker]

/-- C10 (failing input). A session with one captured frame is stopped and `new Blob` throws:
`isRecording` is false and the error is shown, but `clearInterval` is skipped, so the
elapsed-time timer set by `startRecording` is still scheduled, and the controls are not
reset. -/
theorem stopRecording_blob_error_keeps_timer :
    (runTicks (startRecording controlPage 0 0 (initVideoRecording controlPage init)).state
        [⟨20000, true, 640, some 1⟩]).recordedFrames = [1]
    ∧ (runTicks (startRecording controlPage 0 0 (initVideoRecording controlPage init)).state
        [⟨20000, true, 640, some 1⟩]).recordingInterval = some 1
    ∧ (stopRecording controlPage ⟨30000, "t", some "Array buffer allocation failed", none⟩
        (runTicks (startRecording controlPage 0 0 (initVideoRecording controlPage init)).state
          [⟨20000, true, 640, some 1⟩])).state.isRecording = false
    ∧ (stopRecording controlPage ⟨30000, "t", some "Array buffer allocation failed", none⟩
        (runTicks (startRecording controlPage 0 0 (initVideoRecording controlPage init)).state
          [⟨20000, true, 640, some 1⟩])).state.intervals = [1]
    ∧ (stopRecording controlPage ⟨30000, "t", some "Array buffer allocation failed", none⟩
        (runTicks (startRecording controlPage 0 0 (initVideoRecording controlPage init)).state
          [⟨20000, true, 640, some 1⟩])).state.log =
      (startRecording controlPage 0 0 (initVideoRecording controlPage init)).state.log ++
        [.alert (.plain "Error stopping recording: Array buffer allocation failed") "danger"] := by
  refine ⟨rfl, rfl, rfl, rfl, rfl⟩

/-- The viewer's side of C10: `handleStopRecording` while recording always leaves
`isRecording` false and the timer of `recordingTimerRef` unscheduled, with or without a
worker to signal. -/
theorem handleStopRecording_returns_to_idle (s : App.AppState) (id : Nat)
    (hrec : s.isRecording = true) (hid : s.recordingTimerRef = some id) (hpos : id ≠ 0) :
    (App.handleStopRecording s).isRecording = false
    ∧ (App.handleStopRecording s).recordingTimerRef = none
    ∧ id ∉ (App.handleStopRecording s).intervals := by
  cases hw : s.workerRef <;>
    simp [App.handleStopRecording, App.stopTimer, hrec, hid, hpos, hw]

end Coordinator
